import Mathlib

/-!
Trajectory editor core: store, CSV encoding, edit commands, edit history.

Shallow embedding of `src/core/trajectory_data.{hpp,cpp}` and
`src/core/edit_history.{hpp,cpp}`.

Conventions of the embedding

* `double` values are never computed with by the core (they are only copied,
  parsed by `std::stod` and printed by `std::to_string`), so the value type is
  a parameter `R`; `std::stod` is a parameter `stod : String → Option R`
  (`none` when it throws) and `std::to_string` a parameter
  `to_string : R → String`.
* `std::vector` is `List`; `size_t` values are `Nat`, with an explicit
  reduction modulo `2 ^ 64` at the one place where an addition can wrap.
* A C++ call that may throw returns an `Outcome`: either it returned normally,
  or it raised, and in both cases the outcome carries the state left behind.
* File access is outside the embedding: `loadFromCSV` takes the table that
  `CSVParser::parseFile` produced, `saveToCSV` yields the table it hands to
  `CSVParser::writeFile`.
-/

namespace trajectory_editor

/-- Result of a call that may throw: the state left behind, and whether the
call returned normally or raised an exception (with its `what()` text). -/
inductive Outcome (σ : Type) where
  | returned (state : σ)
  | raised (what : String) (state : σ)
  deriving DecidableEq, Repr

/-- State left behind by a call, however it ended. -/
def Outcome.state {σ : Type} : Outcome σ → σ
  | .returned s => s
  | .raised _ s => s

/-- Whether the call returned normally. -/
def Outcome.isReturned {σ : Type} : Outcome σ → Bool
  | .returned _ => true
  | .raised _ _ => false

/-- Width of `size_t` arithmetic. -/
def SIZE_T_MODULUS : Nat := 2 ^ 64

/-! ## trajectory_data.hpp -/

/-- Struct `TrajectoryPoint`. -/
structure TrajectoryPoint (R : Type) where
  x : R
  y : R
  z : R
  velocity : R
  deriving DecidableEq, Repr

/-- Data members of class `TrajectoryData`. -/
structure TrajectoryData (R : Type) where
  points_ : List (TrajectoryPoint R)
  is_modified_ : Bool
  original_header_ : List String
  original_extra_columns_ : List (List String)
  has_extended_format_ : Bool
  deriving DecidableEq, Repr

namespace TrajectoryData

variable {R : Type}

/-- Constructor `TrajectoryData::TrajectoryData()`. -/
def construct : TrajectoryData R :=
  { points_ := [], is_modified_ := false, original_header_ := [],
    original_extra_columns_ := [], has_extended_format_ := false }

/-- Accessor `getPoints()`. -/
def getPoints (d : TrajectoryData R) : List (TrajectoryPoint R) := d.points_

/-- Accessor `size()`. -/
def size (d : TrajectoryData R) : Nat := d.points_.length

/-- Accessor `isModified()`. -/
def isModified (d : TrajectoryData R) : Bool := d.is_modified_

/-- Private `isValidIndex(index)`. -/
def isValidIndex (d : TrajectoryData R) (index : Nat) : Bool :=
  decide (index < d.points_.length)

/-- Method `clear()`. -/
def clear (d : TrajectoryData R) : TrajectoryData R :=
  { d with points_ := [], original_header_ := [], original_extra_columns_ := [],
           has_extended_format_ := false, is_modified_ := true }

/-- Method `addPoint(point)`. -/
def addPoint (d : TrajectoryData R) (point : TrajectoryPoint R) : TrajectoryData R :=
  { d with points_ := d.points_ ++ [point], is_modified_ := true }

/-- Method `insertPoint(index, point)`. -/
def insertPoint (d : TrajectoryData R) (index : Nat) (point : TrajectoryPoint R) :
    Outcome (TrajectoryData R) :=
  if index > d.points_.length then
    .raised "Index out of range" d
  else
    .returned { d with points_ := d.points_.insertIdx index point, is_modified_ := true }

/-- Method `removePoint(index)`. -/
def removePoint (d : TrajectoryData R) (index : Nat) : Outcome (TrajectoryData R) :=
  if !d.isValidIndex index then
    .raised "Index out of range" d
  else
    .returned { d with points_ := d.points_.eraseIdx index, is_modified_ := true }

/-- Method `updatePoint(index, point)`. -/
def updatePoint (d : TrajectoryData R) (index : Nat) (point : TrajectoryPoint R) :
    Outcome (TrajectoryData R) :=
  if !d.isValidIndex index then
    .raised "Index out of range" d
  else
    .returned { d with points_ := d.points_.set index point, is_modified_ := true }

/-- Method `movePoint(index, new_x, new_y)`. -/
def movePoint (d : TrajectoryData R) (index : Nat) (new_x new_y : R) :
    Outcome (TrajectoryData R) :=
  if !d.isValidIndex index then
    .raised "Index out of range" d
  else
    .returned { d with
      points_ := d.points_.modify (fun p => { p with x := new_x, y := new_y }) index,
      is_modified_ := true }

/-- Method `updateVelocityRange(start_index, end_index, velocity)`: the loop
`for (i = start_index; i <= end_index; ++i) points_[i].velocity = velocity`
runs over `i = start_index, ..., end_index`, which the guard has made a
non-empty range of valid indices. -/
def updateVelocityRange (d : TrajectoryData R) (start_index end_index : Nat) (velocity : R) :
    Outcome (TrajectoryData R) :=
  if start_index ≥ d.points_.length ∨ end_index ≥ d.points_.length ∨ start_index > end_index then
    .raised "Invalid range" d
  else
    .returned { d with
      points_ := (List.range' start_index (end_index + 1 - start_index)).foldl
        (fun pts i => pts.modify (fun p => { p with velocity := velocity }) i) d.points_,
      is_modified_ := true }

end TrajectoryData

/-! ## csv_parser.hpp -/

/-- Member `CSVParser::has_header_`: set to `true` by the constructor and never
assigned again, so `hasHeader()` is constantly `true`. -/
def CSVParser.hasHeader : Bool := true

/-! ## trajectory_data.cpp: load and save -/

namespace TrajectoryData

variable {R : Type}

/-- Body of the row loop of `loadFromCSV` for one data row. An exception of
`std::stod` anywhere in the `try` block skips the row (`continue`); the only
side effects, the two `push_back`/`emplace_back` calls, come after the last
`std::stod` of their branch, so a skipped row changes nothing. -/
def loadFromCSV_row (stod : String → Option R) (d : TrajectoryData R) (row : List String) :
    TrajectoryData R :=
  if row.length ≥ 4 then
    match stod (row.getD 0 ""), stod (row.getD 1 ""), stod (row.getD 2 "") with
    | some x, some y, some z =>
      if row.length ≥ 8 then
        match stod (row.getD 7 "") with
        | some velocity =>
          let extra_cols := (List.range' 3 4).map (fun j => row.getD j "")
          { d with original_extra_columns_ := d.original_extra_columns_ ++ [extra_cols],
                   points_ := d.points_ ++ [⟨x, y, z, velocity⟩] }
        | none => d
      else
        match stod (row.getD 3 "") with
        | some velocity => { d with points_ := d.points_ ++ [⟨x, y, z, velocity⟩] }
        | none => d
    | _, _, _ => d
  else d

/-- Method `loadFromCSV(filepath)`, on the table `csv_data` returned by
`parser.parseFile(filepath)`. Returns the boolean result and the store. -/
def loadFromCSV (stod : String → Option R) (d : TrajectoryData R)
    (csv_data : List (List String)) : Bool × TrajectoryData R :=
  if csv_data.isEmpty then
    (false, d)
  else
    let d1 : TrajectoryData R :=
      { d with points_ := [], original_header_ := [], original_extra_columns_ := [],
               has_extended_format_ := false }
    let d2 : TrajectoryData R :=
      if CSVParser.hasHeader && !csv_data.isEmpty then
        let d1h : TrajectoryData R := { d1 with original_header_ := csv_data.headD [] }
        if (csv_data.headD []).length ≥ 8 then
          { d1h with has_extended_format_ := true }
        else d1h
      else d1
    let start_row : Nat := if CSVParser.hasHeader then 1 else 0
    let d3 := (csv_data.drop start_row).foldl (loadFromCSV_row stod) d2
    let d4 : TrajectoryData R := { d3 with is_modified_ := false }
    (!d4.points_.isEmpty, d4)

/-- One data row of `saveToCSV` for the point at index `i`. -/
def saveToCSV_row (to_string : R → String) (d : TrajectoryData R) (i : Nat)
    (point : TrajectoryPoint R) : List String :=
  if d.has_extended_format_ && decide (i < d.original_extra_columns_.length) then
    [to_string point.x, to_string point.y, to_string point.z]
      ++ d.original_extra_columns_.getD i []
      ++ [to_string point.velocity]
  else
    [to_string point.x, to_string point.y, to_string point.z, to_string point.velocity]

/-- Data rows of `saveToCSV` for the points from index `i` on. -/
def saveToCSV_rows (to_string : R → String) (d : TrajectoryData R) :
    Nat → List (TrajectoryPoint R) → List (List String)
  | _, [] => []
  | i, point :: rest => saveToCSV_row to_string d i point :: saveToCSV_rows to_string d (i + 1) rest

/-- The table `csv_data` that `saveToCSV` builds and hands to
`parser.writeFile`: the header row, then one row per point. -/
def saveToCSV_csv_data (to_string : R → String) (d : TrajectoryData R) : List (List String) :=
  (if d.has_extended_format_ && !d.original_header_.isEmpty then
      d.original_header_
    else
      ["x", "y", "z", "velocity_ms"])
  :: saveToCSV_rows to_string d 0 d.points_

/-- Method `saveToCSV(filepath)`; `write_success` is the result of
`parser.writeFile` (whether the file could be opened). Returns the boolean
result, the store, and the table written when the write succeeded. -/
def saveToCSV (to_string : R → String) (d : TrajectoryData R) (write_success : Bool) :
    Bool × TrajectoryData R × Option (List (List String)) :=
  if write_success then
    (true, { d with is_modified_ := false }, some (saveToCSV_csv_data to_string d))
  else
    (false, d, none)

end TrajectoryData

/-! ## edit_history.hpp / edit_history.cpp -/

/-- The five subclasses of `EditCommand` with their data members. -/
inductive EditCommand (R : Type) where
  | MovePointCommand (index_ : Nat) (old_x_ old_y_ new_x_ new_y_ : R)
  | AddPointCommand (index_ : Nat) (point_ : TrajectoryPoint R)
  | RemovePointCommand (index_ : Nat) (point_ : TrajectoryPoint R)
  | ChangeVelocityCommand (index_ : Nat) (old_velocity_ new_velocity_ : R)
  | ChangeRangeVelocityCommand (start_index_ end_index_ : Nat) (old_velocities_ : List R)
      (new_velocity_ : R)
  deriving DecidableEq, Repr

namespace EditCommand

variable {R : Type}

/-- Bodies of `ChangeVelocityCommand::execute` and `::undo`, which differ only
in the velocity written. -/
def changeVelocity (index_ : Nat) (velocity : R) (data : TrajectoryData R) :
    Outcome (TrajectoryData R) :=
  if h : index_ < data.getPoints.length then
    let updated_point : TrajectoryPoint R :=
      { data.getPoints.get ⟨index_, h⟩ with velocity := velocity }
    data.updatePoint index_ updated_point
  else
    .returned data

/-- Loop of `ChangeRangeVelocityCommand::undo`, at counter `i`, with `rest`
the entries `old_velocities_[i..]`. The sum `start_index_ + i` is a `size_t`
sum. -/
def undoRangeLoop (start_index_ end_index_ : Nat) :
    List R → Nat → TrajectoryData R → Outcome (TrajectoryData R)
  | [], _, data => .returned data
  | old_velocity :: rest, i, data =>
    if (start_index_ + i) % SIZE_T_MODULUS ≤ end_index_ then
      let point_index := (start_index_ + i) % SIZE_T_MODULUS
      if h : point_index < data.getPoints.length then
        let updated_point : TrajectoryPoint R :=
          { data.getPoints.get ⟨point_index, h⟩ with velocity := old_velocity }
        match data.updatePoint point_index updated_point with
        | .returned data1 => undoRangeLoop start_index_ end_index_ rest (i + 1) data1
        | .raised what data1 => .raised what data1
      else
        undoRangeLoop start_index_ end_index_ rest (i + 1) data
    else
      .returned data

/-- Virtual `EditCommand::execute(data)`. -/
def execute : EditCommand R → TrajectoryData R → Outcome (TrajectoryData R)
  | MovePointCommand index_ _ _ new_x_ new_y_, data => data.movePoint index_ new_x_ new_y_
  | AddPointCommand index_ point_, data => data.insertPoint index_ point_
  | RemovePointCommand index_ _, data => data.removePoint index_
  | ChangeVelocityCommand index_ _ new_velocity_, data => changeVelocity index_ new_velocity_ data
  | ChangeRangeVelocityCommand start_index_ end_index_ _ new_velocity_, data =>
    data.updateVelocityRange start_index_ end_index_ new_velocity_

/-- Virtual `EditCommand::undo(data)`. -/
def undo : EditCommand R → TrajectoryData R → Outcome (TrajectoryData R)
  | MovePointCommand index_ old_x_ old_y_ _ _, data => data.movePoint index_ old_x_ old_y_
  | AddPointCommand index_ _, data => data.removePoint index_
  | RemovePointCommand index_ point_, data => data.insertPoint index_ point_
  | ChangeVelocityCommand index_ old_velocity_ _, data => changeVelocity index_ old_velocity_ data
  | ChangeRangeVelocityCommand start_index_ end_index_ old_velocities_ _, data =>
    undoRangeLoop start_index_ end_index_ old_velocities_ 0 data

end EditCommand

/-- Data members of class `EditHistory`. -/
structure EditHistory (R : Type) where
  commands_ : List (EditCommand R)
  current_index_ : Nat
  max_history_size_ : Nat
  deriving DecidableEq, Repr

namespace EditHistory

variable {R : Type}

/-- Constructor `EditHistory::EditHistory()`. -/
def construct : EditHistory R :=
  { commands_ := [], current_index_ := 0, max_history_size_ := 50 }

/-- Method `canUndo()`. -/
def canUndo (h : EditHistory R) : Bool := decide (h.current_index_ > 0)

/-- Method `canRedo()`. -/
def canRedo (h : EditHistory R) : Bool := decide (h.current_index_ < h.commands_.length)

/-- Method `setMaxHistorySize(max_size)`. -/
def setMaxHistorySize (h : EditHistory R) (max_size : Nat) : EditHistory R :=
  { h with max_history_size_ := max_size }

/-- Method `getMaxHistorySize()`. -/
def getMaxHistorySize (h : EditHistory R) : Nat := h.max_history_size_

/-- Method `clear()`. -/
def clear (h : EditHistory R) : EditHistory R :=
  { h with commands_ := [], current_index_ := 0 }

/-- Private `trimHistory()`. -/
def trimHistory (h : EditHistory R) : EditHistory R :=
  if h.commands_.length > h.max_history_size_ then
    let excess := h.commands_.length - h.max_history_size_
    { h with commands_ := h.commands_.drop excess,
             current_index_ := if h.current_index_ > excess then h.current_index_ - excess else 0 }
  else h

/-- Method `executeCommand(command, data)`. The `erase` of the redo tail
happens before the command runs, so it is kept when the command raises.
(`erase(begin() + current_index_, end())` is defined only for
`current_index_ <= size()`; `List.take` leaves the list alone beyond that.) -/
def executeCommand (h : EditHistory R) (command : EditCommand R) (data : TrajectoryData R) :
    Outcome (EditHistory R × TrajectoryData R) :=
  let h1 : EditHistory R := { h with commands_ := h.commands_.take h.current_index_ }
  match command.execute data with
  | .raised what data1 => .raised what (h1, data1)
  | .returned data1 =>
    let h2 : EditHistory R := { h1 with commands_ := h1.commands_ ++ [command] }
    let h3 : EditHistory R := { h2 with current_index_ := h2.commands_.length }
    .returned (trimHistory h3, data1)

/-- Method `undo(data)`. The cursor is decremented before the command's `undo`
runs, so the decrement is kept when that raises. (`commands_[current_index_]`
is defined only for an index below `size()`; outside it the embedding raises.) -/
def undo (h : EditHistory R) (data : TrajectoryData R) :
    Outcome (EditHistory R × TrajectoryData R) :=
  if h.canUndo then
    let h1 : EditHistory R := { h with current_index_ := h.current_index_ - 1 }
    match h1.commands_[h1.current_index_]? with
    | some command =>
      match command.undo data with
      | .returned data1 => .returned (h1, data1)
      | .raised what data1 => .raised what (h1, data1)
    | none => .raised "commands_ subscript out of range" (h1, data)
  else
    .returned (h, data)

/-- Method `redo(data)`. The cursor is incremented after the command's
`execute` returned, so it stays when that raises. -/
def redo (h : EditHistory R) (data : TrajectoryData R) :
    Outcome (EditHistory R × TrajectoryData R) :=
  if h.canRedo then
    match h.commands_[h.current_index_]? with
    | some command =>
      match command.execute data with
      | .returned data1 => .returned ({ h with current_index_ := h.current_index_ + 1 }, data1)
      | .raised what data1 => .raised what (h, data1)
    | none => .raised "commands_ subscript out of range" (h, data)
  else
    .returned (h, data)

end EditHistory

/-! ## Call sequences

The callers of the core (`main.cpp`) hold one `EditHistory` and one
`TrajectoryData` and call their methods one after the other; a call sequence
is run here on that pair. -/

/-- The history and the store it edits, as held together by the editor window
(`edit_history_`, `trajectory_data_`). -/
abbrev Session (R : Type) : Type := EditHistory R × TrajectoryData R

/-- A call of one of the state-changing public methods of `EditHistory`. -/
inductive HistoryCall (R : Type) where
  | executeCommand (command : EditCommand R)
  | undo
  | redo
  | clear
  | setMaxHistorySize (max_size : Nat)
  deriving DecidableEq, Repr

/-- Run one call. -/
def HistoryCall.run {R : Type} : HistoryCall R → Session R → Outcome (Session R)
  | .executeCommand command, s => EditHistory.executeCommand s.1 command s.2
  | .undo, s => EditHistory.undo s.1 s.2
  | .redo, s => EditHistory.redo s.1 s.2
  | .clear, s => .returned (s.1.clear, s.2)
  | .setMaxHistorySize max_size, s => .returned (s.1.setMaxHistorySize max_size, s.2)

/-- Run a sequence of calls; after a call that raised, the caller goes on with
the state that call left behind. -/
def runCalls {R : Type} : List (HistoryCall R) → Session R → Session R
  | [], s => s
  | call :: calls, s => runCalls calls (call.run s).state

/-- The call does not lower the cap below the number of stored commands. -/
def HistoryCall.keepsCap {R : Type} : HistoryCall R → Session R → Bool
  | .setMaxHistorySize max_size, s => decide (s.1.commands_.length ≤ max_size)
  | _, _ => true

/-- No call of the sequence lowers the cap below the number of commands stored
at the moment of the call. -/
def keepCap {R : Type} : List (HistoryCall R) → Session R → Bool
  | [], _ => true
  | call :: calls, s => call.keepsCap s && keepCap calls (call.run s).state

/-- Execute a sequence of commands through `EditHistory::executeCommand`,
stopping at the first one that raises. -/
def executeAll {R : Type} : List (EditCommand R) → Session R → Outcome (Session R)
  | [], s => .returned s
  | command :: rest, s =>
    match EditHistory.executeCommand s.1 command s.2 with
    | .returned s1 => executeAll rest s1
    | .raised what s1 => .raised what s1

/-- Call `EditHistory::undo` `n` times, stopping at the first call that raises. -/
def undoTimes {R : Type} : Nat → Session R → Outcome (Session R)
  | 0, s => .returned s
  | n + 1, s =>
    match EditHistory.undo s.1 s.2 with
    | .returned s1 => undoTimes n s1
    | .raised what s1 => .raised what s1

/-- Call `EditHistory::redo` `n` times, stopping at the first call that raises. -/
def redoTimes {R : Type} : Nat → Session R → Outcome (Session R)
  | 0, s => .returned s
  | n + 1, s =>
    match EditHistory.redo s.1 s.2 with
    | .returned s1 => redoTimes n s1
    | .raised what s1 => .raised what s1

/-- The command has valid indices for the store and its old values are the ones
found in the store: this is how `main.cpp` builds every command just before
handing it to `executeCommand` (`onPointMoved`, `onPointAdded`,
`onPointDeleted`, `onApplyVelocity`, `onApplyRangeVelocity`). Indices are
`size_t` values. -/
def EditCommand.capturedFrom {R : Type} [DecidableEq R] :
    EditCommand R → TrajectoryData R → Bool
  | .MovePointCommand index_ old_x_ old_y_ _ _, data =>
    decide ((data.points_[index_]?).map (fun p => (p.x, p.y)) = some (old_x_, old_y_))
  | .AddPointCommand index_ _, data => decide (index_ ≤ data.points_.length)
  | .RemovePointCommand index_ point_, data => decide (data.points_[index_]? = some point_)
  | .ChangeVelocityCommand index_ old_velocity_ _, data =>
    decide ((data.points_[index_]?).map (fun p => p.velocity) = some old_velocity_)
  | .ChangeRangeVelocityCommand start_index_ end_index_ old_velocities_ _, data =>
    decide (start_index_ ≤ end_index_ ∧ end_index_ < data.points_.length ∧
      end_index_ < SIZE_T_MODULUS ∧
      old_velocities_ =
        ((data.points_.drop start_index_).take (end_index_ + 1 - start_index_)).map
          (fun p => p.velocity))

/-- Every command of the sequence is captured from the store as it is at the
moment the command is executed. -/
def capturedSeq {R : Type} [DecidableEq R] : List (EditCommand R) → TrajectoryData R → Bool
  | [], _ => true
  | command :: rest, data =>
    command.capturedFrom data && capturedSeq rest (command.execute data).state

/-- A call of one of the mutators of `TrajectoryData`. -/
inductive StoreCall (R : Type) where
  | clear
  | addPoint (point : TrajectoryPoint R)
  | insertPoint (index : Nat) (point : TrajectoryPoint R)
  | removePoint (index : Nat)
  | updatePoint (index : Nat) (point : TrajectoryPoint R)
  | movePoint (index : Nat) (new_x new_y : R)
  | updateVelocityRange (start_index end_index : Nat) (velocity : R)
  deriving DecidableEq, Repr

/-- Run one mutator call. -/
def StoreCall.run {R : Type} : StoreCall R → TrajectoryData R → Outcome (TrajectoryData R)
  | .clear, d => .returned d.clear
  | .addPoint point, d => .returned (d.addPoint point)
  | .insertPoint index point, d => d.insertPoint index point
  | .removePoint index, d => d.removePoint index
  | .updatePoint index point, d => d.updatePoint index point
  | .movePoint index new_x new_y, d => d.movePoint index new_x new_y
  | .updateVelocityRange start_index end_index velocity, d =>
    d.updateVelocityRange start_index end_index velocity

/-- Run a sequence of mutator calls; after a call that raised, the caller goes
on with the store that call left behind. -/
def runStoreCalls {R : Type} : List (StoreCall R) → TrajectoryData R → TrajectoryData R
  | [], d => d
  | call :: calls, d => runStoreCalls calls (call.run d).state

/-! ## A concrete value type for examples

Examples instantiate `R` with `Int`, `std::stod` with a reader of plain decimal
integers and `std::to_string` with the printer that appends the six decimals
`std::to_string(double)` prints; on texts such as `"12"` and `"abc"` they agree
with the C++ functions. -/

/-- Digits of a plain decimal integer, most significant first. -/
def stod_int_digits : List Char → Nat → Option Nat
  | [], acc => some acc
  | c :: cs, acc =>
    if c.isDigit then stod_int_digits cs (10 * acc + (c.toNat - 48)) else none

/-- Reader of plain decimal integers (`none`: nothing to convert). -/
def stod_int (s : String) : Option Int :=
  match s.data with
  | [] => none
  | '-' :: cs =>
    if cs.isEmpty then none else (stod_int_digits cs 0).map (fun n => - (n : Int))
  | cs => (stod_int_digits cs 0).map (fun n => (n : Int))

/-- Printer of an integral value in the format of `std::to_string(double)`. -/
def to_string_int (v : Int) : String := toString v ++ ".000000"

/-- An extended (8-column) file with three data rows. -/
def example_table_8 : List (List String) :=
  [["x", "y", "z", "qx", "qy", "qz", "qw", "speed"],
   ["0", "0", "0", "a1", "a2", "a3", "a4", "1"],
   ["1", "1", "1", "b1", "b2", "b3", "b4", "2"],
   ["2", "2", "2", "c1", "c2", "c3", "c4", "3"]]

/-- The store loaded from `example_table_8`. -/
def example_store_8 : TrajectoryData Int :=
  (TrajectoryData.loadFromCSV stod_int TrajectoryData.construct example_table_8).2

/-- A plain store of three points. -/
def example_store_3 : TrajectoryData Int :=
  { points_ := [⟨0, 0, 0, 5⟩, ⟨1, 1, 0, 6⟩, ⟨2, 2, 0, 7⟩], is_modified_ := false,
    original_header_ := [], original_extra_columns_ := [], has_extended_format_ := false }

/-- Four commands, each captured from the store left by the ones before it,
starting from `example_store_3`. -/
def example_commands : List (EditCommand Int) :=
  [.MovePointCommand 1 1 1 9 9,
   .AddPointCommand 3 ⟨3, 3, 0, 8⟩,
   .ChangeRangeVelocityCommand 1 3 [6, 7, 8] 10,
   .RemovePointCommand 0 ⟨0, 0, 0, 5⟩]

/-- The session in which two points were added to `example_store_3` and the
second addition was undone. -/
def example_session_undone : Session Int :=
  runCalls [.executeCommand (.AddPointCommand 3 ⟨3, 3, 0, 8⟩),
            .executeCommand (.AddPointCommand 4 ⟨4, 4, 0, 9⟩),
            .undo] (EditHistory.construct, example_store_3)

/-- Three executed commands followed by a lowering of the cap to two. -/
def example_calls_lowered : List (HistoryCall Int) :=
  [.executeCommand (.AddPointCommand 0 ⟨0, 0, 0, 5⟩),
   .executeCommand (.AddPointCommand 1 ⟨1, 1, 0, 6⟩),
   .executeCommand (.AddPointCommand 2 ⟨2, 2, 0, 7⟩),
   .setMaxHistorySize 2]

/-- The cap is set to two on the empty history, three commands are executed
(the oldest is trimmed), one is undone, the cap is set to two again and then
raised to five. -/
def example_calls_capped : List (HistoryCall Int) :=
  [.setMaxHistorySize 2,
   .executeCommand (.AddPointCommand 0 ⟨0, 0, 0, 5⟩),
   .executeCommand (.AddPointCommand 1 ⟨1, 1, 0, 6⟩),
   .executeCommand (.AddPointCommand 2 ⟨2, 2, 0, 7⟩),
   .undo, .setMaxHistorySize 2, .setMaxHistorySize 5]

/-- The store left by the commands' `execute` run one after the other. -/
def storeAfter {R : Type} : List (EditCommand R) → TrajectoryData R → TrajectoryData R
  | [], data => data
  | command :: rest, data => storeAfter rest (command.execute data).state

/-- The store of the move scenario of the specification:
`[(0,0,0,5), (1,1,0,5), (2,2,0,5)]`. -/
def example_store_scenario : TrajectoryData Int :=
  { points_ := [⟨0, 0, 0, 5⟩, ⟨1, 1, 0, 5⟩, ⟨2, 2, 0, 5⟩], is_modified_ := false,
    original_header_ := [], original_extra_columns_ := [], has_extended_format_ := false }

/-- A plain store of ten points with the distinct velocities 11, ..., 20. -/
def example_store_10 : TrajectoryData Int :=
  { points_ := [⟨0, 0, 0, 11⟩, ⟨1, 1, 0, 12⟩, ⟨2, 2, 0, 13⟩, ⟨3, 3, 0, 14⟩, ⟨4, 4, 0, 15⟩,
                ⟨5, 5, 0, 16⟩, ⟨6, 6, 0, 17⟩, ⟨7, 7, 0, 18⟩, ⟨8, 8, 0, 19⟩, ⟨9, 9, 0, 20⟩],
    is_modified_ := false, original_header_ := [], original_extra_columns_ := [],
    has_extended_format_ := false }

/-- The decoding rule for one data row in the words of the specification
(section 4.2, `load`): a row decodes to a point when it has at least 4 fields
and its x, y, z (fields 0..2) and its velocity field parse; a row of at least
8 fields takes the velocity from field 7 and carries fields 3..6 verbatim as
its extra columns, a row of 4 to 7 fields takes the velocity from field 3 and
carries no extra columns; every other row is skipped. -/
def spec_decodeRow {R : Type} (stod : String → Option R) (row : List String) :
    Option (TrajectoryPoint R × Option (List String)) :=
  if row.length < 4 then none
  else
    match stod (row.getD 0 ""), stod (row.getD 1 ""), stod (row.getD 2 "") with
    | some x, some y, some z =>
      if 8 ≤ row.length then
        (stod (row.getD 7 "")).map (fun v =>
          (⟨x, y, z, v⟩, some [row.getD 3 "", row.getD 4 "", row.getD 5 "", row.getD 6 ""]))
      else
        (stod (row.getD 3 "")).map (fun v => (⟨x, y, z, v⟩, none))
    | _, _, _ => none

/-- A table mixing a 4-field row, a row that is too short, a row with an
unparseable x, an 8-field row and a row with an unparseable velocity. -/
def example_table_mixed : List (List String) :=
  [["x", "y", "z", "v"],
   ["0", "0", "0", "5"],
   ["1", "1"],
   ["abc", "1", "1", "6"],
   ["2", "2", "2", "q1", "q2", "q3", "q4", "7"],
   ["3", "3", "3", "fast"]]

/-! ## csv_parser.cpp

A file is the list of its characters; a file that cannot be opened is `none`.
Fields are `String`s, as in the tables `loadFromCSV` and `saveToCSV` work on. -/

namespace CSVParser

/-- Membership in `" \t\r\n"`, the character set of `trim`. -/
def isTrimChar (c : Char) : Bool :=
  c == ' ' || c == '\t' || c == '\r' || c == '\n'

/-- `str.find_first_not_of(" \t\r\n")` (`none` for `npos`). -/
def find_first_not_of (str : List Char) : Option Nat :=
  str.findIdx? (fun c => !isTrimChar c)

/-- `str.find_last_not_of(" \t\r\n")` (`none` for `npos`): the first such
position counted from the end, turned into an index from the front. -/
def find_last_not_of (str : List Char) : Option Nat :=
  (str.reverse.findIdx? (fun c => !isTrimChar c)).map (fun k => str.length - 1 - k)

/-- Method `trim(str)`. -/
def trim (str : List Char) : List Char :=
  match find_first_not_of str with
  | none => []
  | some start =>
    let last := (find_last_not_of str).getD 0
    (str.drop start).take (last - start + 1)

/-- The pieces read by `while (std::getline(stream, piece, delim))` from a
stream holding the given characters; `cur` is the part of the current piece
extracted so far. A piece ends at the delimiter, which is discarded; at the
end of the stream `std::getline` succeeds once more only if it extracted at
least one character. -/
def getlineAll (delim : Char) : List Char → List Char → List (List Char)
  | [], cur => if cur.isEmpty then [] else [cur]
  | c :: rest, cur =>
    if c = delim then cur :: getlineAll delim rest []
    else getlineAll delim rest (cur ++ [c])

/-- Inner loop of `parseFile`: the trimmed fields of one line. -/
def parseFile_fields (line : List Char) : List String :=
  (getlineAll ',' line []).map (fun field => String.mk (trim field))

/-- Method `parseFile(filepath)`, on the file found at `filepath`. -/
def parseFile (file : Option (List Char)) : List (List String) :=
  match file with
  | none => []
  | some content =>
    (getlineAll '\n' content []).filterMap (fun line =>
      if !line.isEmpty then
        let fields := parseFile_fields line
        if !fields.isEmpty then some fields else none
      else none)

/-- Inner loop of `writeFile` from the second field on: a comma, then the
field. -/
def writeFile_rest : List String → List Char
  | [] => []
  | field :: rest => ',' :: (field.data ++ writeFile_rest rest)

/-- Inner loop of `writeFile`: the fields of one row, a comma before every
field but the first. -/
def writeFile_row : List String → List Char
  | [] => []
  | field :: rest => field.data ++ writeFile_rest rest

/-- The characters `writeFile` writes: every row followed by a line feed. -/
def writeFile_content : List (List String) → List Char
  | [] => []
  | row :: rest => writeFile_row row ++ '\n' :: writeFile_content rest

/-- Method `writeFile(filepath, data)`; `is_open` tells whether the file could
be opened for writing. Returns the boolean result and the file written. -/
def writeFile (data : List (List String)) (is_open : Bool) : Bool × Option (List Char) :=
  if !is_open then (false, none) else (true, some (writeFile_content data))

end CSVParser

/-! ## trajectory_data.cpp: bounds

`getBounds` and `getVelocityRange` compare values; the value type is then
taken with an order `<` (`double` without NaN) and with a zero. -/

/-- Function `std::min(a, b)`: `(b < a) ? b : a`. -/
def std_min {R : Type} [LT R] [DecidableRel (fun a b : R => a < b)] (a b : R) : R :=
  if b < a then b else a

/-- Function `std::max(a, b)`: `(a < b) ? b : a`. -/
def std_max {R : Type} [LT R] [DecidableRel (fun a b : R => a < b)] (a b : R) : R :=
  if a < b then b else a

/-- Method `getBounds(min_x, max_x, min_y, max_y)`; the four output parameters
are returned in that order. -/
def TrajectoryData.getBounds {R : Type} [Zero R] [LT R] [DecidableRel (fun a b : R => a < b)]
    (d : TrajectoryData R) : R × R × R × R :=
  match d.points_ with
  | [] => (0, 0, 0, 0)
  | first :: _ =>
    d.points_.foldl
      (fun (acc : R × R × R × R) point =>
        (std_min acc.1 point.x, std_max acc.2.1 point.x,
         std_min acc.2.2.1 point.y, std_max acc.2.2.2 point.y))
      (first.x, first.x, first.y, first.y)

/-- Method `getVelocityRange(min_vel, max_vel)`; the two output parameters are
returned in that order. -/
def TrajectoryData.getVelocityRange {R : Type} [Zero R] [LT R]
    [DecidableRel (fun a b : R => a < b)] (d : TrajectoryData R) : R × R :=
  match d.points_ with
  | [] => (0, 0)
  | first :: _ =>
    d.points_.foldl
      (fun (acc : R × R) point =>
        (std_min acc.1 point.velocity, std_max acc.2 point.velocity))
      (first.velocity, first.velocity)

/-! ## Valid commands -/

/-- The command's indices are valid for its `execute` on the store. -/
def EditCommand.validForExecute {R : Type} : EditCommand R → TrajectoryData R → Bool
  | .MovePointCommand index_ _ _ _ _, data => decide (index_ < data.size)
  | .AddPointCommand index_ _, data => decide (index_ ≤ data.size)
  | .RemovePointCommand index_ _, data => decide (index_ < data.size)
  | .ChangeVelocityCommand index_ _ _, data => decide (index_ < data.size)
  | .ChangeRangeVelocityCommand start_index_ end_index_ _ _, data =>
    decide (start_index_ ≤ end_index_ ∧ end_index_ < data.size)

/-- The command's indices are valid for its `undo` on the store (`undo` of an
addition removes, `undo` of a removal inserts); a range command holds at least
one old velocity, and its indices are `size_t` values. -/
def EditCommand.validForUndo {R : Type} : EditCommand R → TrajectoryData R → Bool
  | .MovePointCommand index_ _ _ _ _, data => decide (index_ < data.size)
  | .AddPointCommand index_ _, data => decide (index_ < data.size)
  | .RemovePointCommand index_ _, data => decide (index_ ≤ data.size)
  | .ChangeVelocityCommand index_ _ _, data => decide (index_ < data.size)
  | .ChangeRangeVelocityCommand start_index_ end_index_ old_velocities_ _, data =>
    decide (start_index_ ≤ end_index_ ∧ end_index_ < data.size ∧
      end_index_ < SIZE_T_MODULUS) && !old_velocities_.isEmpty

/-! ## More examples -/

/-- A file of three lines with content, one empty line, one line holding a
blank and a tab, and one line holding a carriage return. -/
def example_file_blank_lines : List Char :=
  "x,y\n\n1, 2\n \t\n\r\n3,4".data

/-- An extended (8-column) file whose first data row has 4 fields and whose
second data row has 8 fields. -/
def example_table_mixed_8 : List (List String) :=
  [["x", "y", "z", "qx", "qy", "qz", "qw", "speed"],
   ["0", "0", "0", "5"],
   ["1", "1", "1", "b1", "b2", "b3", "b4", "6"]]

/-- The session in which a point was appended to `example_store_3` through the
history and then removed from the store behind the history's back. -/
def example_session_surgery : Session Int :=
  ((EditHistory.construct.executeCommand (.AddPointCommand 3 ⟨3, 3, 0, 8⟩)
      example_store_3).state.1,
   ((EditHistory.construct.executeCommand (.AddPointCommand 3 ⟨3, 3, 0, 8⟩)
      example_store_3).state.2.removePoint 3).state)

/-- The session in which the cap was set to two and two points were then added
to the empty store: the history is full, with the cursor at the end. -/
def example_session_full : Session Int :=
  runCalls [.setMaxHistorySize 2,
            .executeCommand (.AddPointCommand 0 ⟨0, 0, 0, 5⟩),
            .executeCommand (.AddPointCommand 1 ⟨1, 1, 0, 6⟩)]
    (EditHistory.construct, TrajectoryData.construct)

/-- A field the write/parse round trip keeps: it holds no comma and no line
feed, and neither its first nor its last character is one of the whitespace
characters `trim` strips. -/
def CSVParser.fieldWritable (field : String) : Bool :=
  decide (',' ∉ field.data) && decide ('\n' ∉ field.data) &&
    field.data.head?.all (fun c => !CSVParser.isTrimChar c) &&
    field.data.getLast?.all (fun c => !CSVParser.isTrimChar c)

/-- A row the write/parse round trip keeps: it has at least one field, every
field is `fieldWritable`, and its last field is not empty. -/
def CSVParser.rowWritable (row : List String) : Bool :=
  !row.isEmpty && row.all CSVParser.fieldWritable &&
    row.getLast?.all (fun field => !field.data.isEmpty)

/-- A table with an empty field, a field with inner blanks and a one-field
row. -/
def example_table_write : List (List String) :=
  [["x", "y", "z", "velocity_ms"], ["1.5", "", "a b", "-2"], ["single"]]

/-! ## A value type with decimals

`std::to_string(double)` prints in the format `%f`: the digits of the integer
part, a point, and exactly six digits after it, the value being rounded to
the sixth. To follow a value with more than six decimals through `loadFromCSV`
and `saveToCSV`, values are here finite decimal numbers, read exactly; the
rounding of `std::stod` to the nearest binary `double` is not modelled. -/

/-- A finite decimal number, `mantissa × 10^(-scale)` with a sign. -/
structure Decimal where
  negative : Bool
  mantissa : Nat
  scale : Nat
  deriving DecidableEq, Repr

/-- The decimal number in lowest form: zeros at the end of the digits after
the point are dropped, so that equal values are equal records. -/
def Decimal.normalize (negative : Bool) : Nat → Nat → Decimal
  | mantissa, 0 => ⟨negative, mantissa, 0⟩
  | mantissa, scale + 1 =>
    if mantissa % 10 = 0 then Decimal.normalize negative (mantissa / 10) scale
    else ⟨negative, mantissa, scale + 1⟩

/-- Reader of an unsigned text `digits` or `digits.digits` (`none`: nothing to
convert). -/
def stod_decimal_abs (negative : Bool) (cs : List Char) : Option Decimal :=
  let int_part := cs.takeWhile (fun c => c != '.')
  let frac_part := (cs.dropWhile (fun c => c != '.')).drop 1
  if int_part.isEmpty then none
  else
    match stod_int_digits (int_part ++ frac_part) 0 with
    | some mantissa => some (Decimal.normalize negative mantissa frac_part.length)
    | none => none

/-- Reader of plain decimal texts such as `12`, `-2.25` and `0.1234567`; on
these it returns the number `std::stod` reads, before binary rounding. -/
def stod_decimal (s : String) : Option Decimal :=
  match s.data with
  | '-' :: cs => stod_decimal_abs true cs
  | cs => stod_decimal_abs false cs

/-- The absolute value times `10^6`, rounded to the nearest integer (a tie
goes to the even one): the digits `%f` prints. -/
def Decimal.micros (d : Decimal) : Nat :=
  let q := d.mantissa * 10 ^ 6 / 10 ^ d.scale
  let r := d.mantissa * 10 ^ 6 % 10 ^ d.scale
  if 2 * r > 10 ^ d.scale ∨ (2 * r = 10 ^ d.scale ∧ q % 2 = 1) then q + 1 else q

/-- Printer in the format of `std::to_string(double)`: sign, integer part,
point, six digits. -/
def to_string_decimal (d : Decimal) : String :=
  (if d.negative then "-" else "") ++ toString (d.micros / 10 ^ 6) ++ "." ++
    String.mk ([100000, 10000, 1000, 100, 10, 1].map
      (fun p => Nat.digitChar (d.micros / p % 10)))

/-- Two 4-field data rows whose values have at most six decimals. -/
def example_rows_decimal_4 : List (List String) :=
  [["1.5", "-2.25", "0", "10"], ["0.000001", "3", "0.5", "12.125"]]

/-- A 4-field data row whose x has eight decimals. -/
def example_rows_fine_4 : List (List String) :=
  [["3.14159265", "2.5", "0", "5"]]

/-! ## Theorems -/


section HistoryInvariants

variable {R : Type}

theorem trimHistory_length_le (h : EditHistory R) :
    h.trimHistory.commands_.length ≤ h.trimHistory.max_history_size_ := by
  unfold EditHistory.trimHistory
  split
  · simp only [List.length_drop]; omega
  · omega

theorem trimHistory_cursor_le (h : EditHistory R)
    (hc : h.current_index_ ≤ h.commands_.length) :
    h.trimHistory.current_index_ ≤ h.trimHistory.commands_.length := by
  unfold EditHistory.trimHistory
  split
  · simp only [List.length_drop]
    split <;> omega
  · exact hc

theorem trimHistory_canRedo (h : EditHistory R)
    (hc : h.current_index_ = h.commands_.length) :
    h.trimHistory.canRedo = false := by
  unfold EditHistory.trimHistory EditHistory.canRedo
  split
  · simp only [List.length_drop, decide_eq_false_iff_not, not_lt]
    split <;> omega
  · simp [hc]

theorem executeCommand_cursor_le (h : EditHistory R) (command : EditCommand R)
    (data : TrajectoryData R) (hc : h.current_index_ ≤ h.commands_.length) :
    (h.executeCommand command data).state.1.current_index_
      ≤ (h.executeCommand command data).state.1.commands_.length := by
  unfold EditHistory.executeCommand
  cases command.execute data with
  | raised what data1 =>
    simp only [Outcome.state, List.length_take]
    omega
  | returned data1 =>
    simp only [Outcome.state]
    apply trimHistory_cursor_le
    simp

theorem undo_cursor_le (h : EditHistory R) (data : TrajectoryData R)
    (hc : h.current_index_ ≤ h.commands_.length) :
    (h.undo data).state.1.current_index_ ≤ (h.undo data).state.1.commands_.length := by
  unfold EditHistory.undo
  split
  · dsimp only
    split
    · split <;> (simp only [Outcome.state]; omega)
    · simp only [Outcome.state]; omega
  · exact hc

theorem redo_cursor_le (h : EditHistory R) (data : TrajectoryData R)
    (hc : h.current_index_ ≤ h.commands_.length) :
    (h.redo data).state.1.current_index_ ≤ (h.redo data).state.1.commands_.length := by
  unfold EditHistory.redo
  split
  · rename_i hr
    simp only [EditHistory.canRedo, decide_eq_true_eq] at hr
    split
    · split
      · simp only [Outcome.state]; omega
      · simpa only [Outcome.state] using hc
    · simpa only [Outcome.state] using hc
  · exact hc

theorem run_cursor_le (call : HistoryCall R) (s : Session R)
    (hc : s.1.current_index_ ≤ s.1.commands_.length) :
    (call.run s).state.1.current_index_ ≤ (call.run s).state.1.commands_.length := by
  cases call with
  | executeCommand command => exact executeCommand_cursor_le s.1 command s.2 hc
  | undo => exact undo_cursor_le s.1 s.2 hc
  | redo => exact redo_cursor_le s.1 s.2 hc
  | clear => simp [HistoryCall.run, Outcome.state, EditHistory.clear]
  | setMaxHistorySize max_size =>
    simpa [HistoryCall.run, Outcome.state, EditHistory.setMaxHistorySize] using hc

theorem runCalls_cursor_le (calls : List (HistoryCall R)) :
    ∀ s : Session R, s.1.current_index_ ≤ s.1.commands_.length →
      (runCalls calls s).1.current_index_ ≤ (runCalls calls s).1.commands_.length := by
  induction calls with
  | nil => intro s hc; exact hc
  | cons call calls ih =>
    intro s hc
    exact ih _ (run_cursor_le call s hc)

theorem executeCommand_length_le (h : EditHistory R) (command : EditCommand R)
    (data : TrajectoryData R) (hc : h.commands_.length ≤ h.max_history_size_) :
    (h.executeCommand command data).state.1.commands_.length
      ≤ (h.executeCommand command data).state.1.max_history_size_ := by
  unfold EditHistory.executeCommand
  cases command.execute data with
  | raised what data1 =>
    simp only [Outcome.state, List.length_take]
    omega
  | returned data1 =>
    simp only [Outcome.state]
    apply trimHistory_length_le

theorem undo_commands (h : EditHistory R) (data : TrajectoryData R) :
    (h.undo data).state.1.commands_ = h.commands_ ∧
    (h.undo data).state.1.max_history_size_ = h.max_history_size_ := by
  unfold EditHistory.undo
  split
  · dsimp only
    split
    · split <;> simp [Outcome.state]
    · simp [Outcome.state]
  · simp [Outcome.state]

theorem redo_commands (h : EditHistory R) (data : TrajectoryData R) :
    (h.redo data).state.1.commands_ = h.commands_ ∧
    (h.redo data).state.1.max_history_size_ = h.max_history_size_ := by
  unfold EditHistory.redo
  split
  · split
    · split <;> simp [Outcome.state]
    · simp [Outcome.state]
  · simp [Outcome.state]

theorem run_length_le (call : HistoryCall R) (s : Session R)
    (hk : call.keepsCap s = true)
    (hc : s.1.commands_.length ≤ s.1.max_history_size_) :
    (call.run s).state.1.commands_.length ≤ (call.run s).state.1.max_history_size_ := by
  cases call with
  | executeCommand command => exact executeCommand_length_le s.1 command s.2 hc
  | undo =>
    have h := undo_commands s.1 s.2
    simp only [HistoryCall.run, h.1, h.2]; exact hc
  | redo =>
    have h := redo_commands s.1 s.2
    simp only [HistoryCall.run, h.1, h.2]; exact hc
  | clear => simp [HistoryCall.run, Outcome.state, EditHistory.clear]
  | setMaxHistorySize max_size =>
    simpa [HistoryCall.run, Outcome.state, EditHistory.setMaxHistorySize,
      HistoryCall.keepsCap] using hk

theorem runCalls_length_le (calls : List (HistoryCall R)) :
    ∀ s : Session R, keepCap calls s = true →
      s.1.commands_.length ≤ s.1.max_history_size_ →
      (runCalls calls s).1.commands_.length ≤ (runCalls calls s).1.max_history_size_ := by
  induction calls with
  | nil => intro s _ hc; exact hc
  | cons call calls ih =>
    intro s hk hc
    simp only [keepCap, Bool.and_eq_true] at hk
    exact ih _ hk.2 (run_length_le call s hk.1 hc)

end HistoryInvariants


/-! ### C8, C9, C10: the history state machine -/

section HistoryClaims

variable {R : Type}

/-- C8. A new edit invalidates the redo future: whenever `executeCommand`
returns normally, whatever the history (cursor, stored commands, cap) and the
store it was called on, `canRedo()` is false in the history it leaves. -/
theorem executeCommand_clears_redo (h : EditHistory R) (command : EditCommand R)
    (data : TrajectoryData R) (s : Session R)
    (hs : h.executeCommand command data = .returned s) :
    s.1.canRedo = false := by
  unfold EditHistory.executeCommand at hs
  cases hx : command.execute data with
  | raised what data1 => rw [hx] at hs; cases hs
  | returned data1 =>
    rw [hx] at hs
    simp only [Outcome.returned.injEq] at hs
    subst hs
    exact trimHistory_canRedo _ rfl

/-- Witness for C8: in `example_session_undone` a redo is pending; executing a
move there returns normally and leaves nothing to redo. -/
theorem executeCommand_clears_redo_witness :
    example_session_undone.1.canRedo = true ∧
    (example_session_undone.1.executeCommand (.MovePointCommand 1 1 1 9 9)
        example_session_undone.2).isReturned = true ∧
    (example_session_undone.1.executeCommand (.MovePointCommand 1 1 1 9 9)
        example_session_undone.2).state.1.canRedo = false :=
  ⟨by decide, by decide,
   executeCommand_clears_redo example_session_undone.1 (.MovePointCommand 1 1 1 9 9)
     example_session_undone.2 _ (by decide :
       example_session_undone.1.executeCommand (.MovePointCommand 1 1 1 9 9)
           example_session_undone.2
         = .returned (example_session_undone.1.executeCommand (.MovePointCommand 1 1 1 9 9)
             example_session_undone.2).state)⟩

/-- Counterexample to C9 as stated: after three executed commands,
`setMaxHistorySize(2)` only stores the new cap; the history then holds three
commands under a cap of two. -/
theorem history_cap_counterexample :
    (runCalls example_calls_lowered
        (EditHistory.construct, TrajectoryData.construct)).1.commands_.length = 3 ∧
    (runCalls example_calls_lowered
        (EditHistory.construct, TrajectoryData.construct)).1.max_history_size_ = 2 ∧
    ¬ ((runCalls example_calls_lowered
        (EditHistory.construct, TrajectoryData.construct)).1.commands_.length
      ≤ (runCalls example_calls_lowered
        (EditHistory.construct, TrajectoryData.construct)).1.max_history_size_) := by
  decide

/-- C9, amended. In every state of an `EditHistory` reached from the initial
state by a sequence of `executeCommand`, `undo`, `redo`, `clear` and
`setMaxHistorySize` calls (raising calls included) in which no
`setMaxHistorySize` call sets the cap below the number of commands stored at
that moment, the number of stored commands is at most the current cap. -/
theorem history_within_cap (calls : List (HistoryCall R)) (data : TrajectoryData R)
    (hk : keepCap calls (EditHistory.construct, data) = true) :
    (runCalls calls (EditHistory.construct, data)).1.commands_.length
      ≤ (runCalls calls (EditHistory.construct, data)).1.max_history_size_ :=
  runCalls_length_le calls _ hk (by simp [EditHistory.construct])

/-- Witness for C9, amended, on `example_calls_capped`. -/
theorem history_within_cap_witness :
    keepCap example_calls_capped (EditHistory.construct, TrajectoryData.construct) = true ∧
    (runCalls example_calls_capped
        (EditHistory.construct, TrajectoryData.construct)).1.commands_.length
      ≤ (runCalls example_calls_capped
        (EditHistory.construct, TrajectoryData.construct)).1.max_history_size_ :=
  ⟨by decide, history_within_cap example_calls_capped TrajectoryData.construct (by decide)⟩

/-- C10. Cursor invariant: in every state of an `EditHistory` reached from the
initial state (no commands, cursor 0) by any sequence of `executeCommand`,
`undo`, `redo`, `clear` and `setMaxHistorySize` calls on any store, calls whose
command raises included, the cursor satisfies
`0 <= current_index_ <= commands_.size()`. -/
theorem cursor_within_commands (calls : List (HistoryCall R)) (data : TrajectoryData R) :
    0 ≤ (runCalls calls (EditHistory.construct, data)).1.current_index_ ∧
    (runCalls calls (EditHistory.construct, data)).1.current_index_
      ≤ (runCalls calls (EditHistory.construct, data)).1.commands_.length :=
  ⟨Nat.zero_le _, runCalls_cursor_le calls _ (by simp [EditHistory.construct])⟩

end HistoryClaims


section ListLemmas

variable {α : Type}

theorem modify_modify_restore (f g : α → α) (i : Nat) (l : List α)
    (hg : ∀ a, l[i]? = some a → g (f a) = a) :
    List.modify g i (List.modify f i l) = l := by
  apply List.ext_getElem?
  intro j
  rw [List.getElem?_modify, List.getElem?_modify]
  cases hj : l[j]? with
  | none => rfl
  | some a =>
    by_cases hij : i = j
    · subst hij
      simp [hg a hj]
    · simp [hij]

theorem insertIdx_eraseIdx_restore (l : List α) :
    ∀ (i : Nat) (a : α), l[i]? = some a → List.insertIdx i a (l.eraseIdx i) = l := by
  induction l with
  | nil => intro i a h; simp at h
  | cons b t ih =>
    intro i a h
    cases i with
    | zero =>
      simp at h
      simp [h]
    | succ i =>
      simp at h
      simp [List.insertIdx_succ_cons, ih i a h]

theorem set_set_restore (l : List α) (i : Nat) (a b : α) (h : l[i]? = some b) :
    (l.set i a).set i b = l := by
  rw [List.set_set]
  apply List.ext_getElem?
  intro j
  rw [List.getElem?_set]
  by_cases hij : i = j
  · subst hij
    have hlt : i < l.length := by
      by_contra hge
      rw [List.getElem?_eq_none (by omega)] at h
      cases h
    simp [hlt, h]
  · simp [hij]

theorem foldl_modify_range' (f : α → α) :
    ∀ (n s : Nat) (l : List α) (j : Nat),
      ((List.range' s n).foldl (fun pts i => List.modify f i pts) l)[j]?
        = (fun a => if s ≤ j ∧ j < s + n then f a else a) <$> l[j]? := by
  intro n
  induction n with
  | zero =>
    intro s l j
    have h0 : ¬ (s ≤ j ∧ j < s) := by omega
    simp only [List.range'_zero, List.foldl_nil, Nat.add_zero]
    cases l[j]? <;> simp [h0]
  | succ n ih =>
    intro s l j
    rw [List.range'_succ, List.foldl_cons, ih, List.getElem?_modify]
    cases l[j]? with
    | none => rfl
    | some a =>
      simp only [Option.map_eq_map, Option.map_some']
      by_cases h1 : s = j
      · subst h1
        simp
      · by_cases h2 : s + 1 ≤ j ∧ j < s + 1 + n
        · have h3 : s ≤ j ∧ j < s + (n + 1) := by omega
          simp [h1, h2, h3]
        · have h3 : ¬ (s ≤ j ∧ j < s + (n + 1)) := by omega
          simp [h1, h2, h3]

end ListLemmas


section RangeUndoLoop

variable {R : Type}

theorem getElem?_lt_of_map_eq_some {α β : Type} {l : List α} {i : Nat} {f : α → β} {b : β}
    (h : (l[i]?).map f = some b) : i < l.length := by
  by_contra hge
  rw [List.getElem?_eq_none (by omega)] at h
  cases h

theorem range_velocities_cons (orig : List (TrajectoryPoint R)) (k e : Nat)
    (hk : k ≤ e) (hk' : k < orig.length) :
    ((orig.drop k).take (e + 1 - k)).map (fun p => p.velocity)
      = orig[k].velocity ::
          ((orig.drop (k + 1)).take (e + 1 - (k + 1))).map (fun p => p.velocity) := by
  rw [List.drop_eq_getElem_cons hk']
  have h1 : e + 1 - k = (e + 1 - (k + 1)) + 1 := by omega
  rw [h1, List.take_succ_cons, List.map_cons]

theorem undoRangeLoop_restore (orig : List (TrajectoryPoint R)) (s e : Nat) (v : R)
    (he : e < orig.length) (he64 : e < SIZE_T_MODULUS) :
    ∀ (rest : List R) (i : Nat) (data : TrajectoryData R),
      s + i + rest.length = e + 1 →
      rest = ((orig.drop (s + i)).take (e + 1 - (s + i))).map (fun p => p.velocity) →
      (∀ j, data.points_[j]? =
        (fun p : TrajectoryPoint R =>
          if s + i ≤ j ∧ j ≤ e then { p with velocity := v } else p) <$> orig[j]?) →
      EditCommand.undoRangeLoop s e rest i data =
        .returned { data with points_ := orig,
                              is_modified_ := data.is_modified_ || !rest.isEmpty } := by
  intro rest
  induction rest with
  | nil =>
    intro i data hlen _ hinv
    have hpts : data.points_ = orig := by
      apply List.ext_getElem?
      intro j
      rw [hinv j]
      have h0 : ¬ (s + i ≤ j ∧ j ≤ e) := by simp at hlen; omega
      cases orig[j]? <;> simp [h0]
    simp [EditCommand.undoRangeLoop, ← hpts]
  | cons ov rest ih =>
    intro i data hlen hrest hinv
    simp only [List.length_cons] at hlen
    have hle : s + i ≤ e := by omega
    have hlt : s + i < orig.length := by omega
    have hmod : (s + i) % SIZE_T_MODULUS = s + i := Nat.mod_eq_of_lt (by omega)
    rw [range_velocities_cons orig (s + i) e hle hlt] at hrest
    simp only [List.cons.injEq] at hrest
    obtain ⟨hov, hrest'⟩ := hrest
    have hcur : data.points_[s + i]? = some { orig[s + i] with velocity := v } := by
      rw [hinv (s + i), List.getElem?_eq_getElem hlt]
      simp [hle]
    have hlt' : s + i < data.points_.length := by
      by_contra hge
      rw [List.getElem?_eq_none (by omega)] at hcur
      cases hcur
    have hget : data.points_[s + i] = { orig[s + i] with velocity := v } := by
      rw [List.getElem_eq_iff]; exact hcur
    have hinv' : ∀ j, (data.points_.set (s + i) orig[s + i])[j]? =
        (fun p : TrajectoryPoint R =>
          if s + (i + 1) ≤ j ∧ j ≤ e then { p with velocity := v } else p) <$> orig[j]? := by
      intro j
      rw [List.getElem?_set]
      by_cases hj : s + i = j
      · subst hj
        have h0 : ¬ (s + (i + 1) ≤ s + i ∧ s + i ≤ e) := by omega
        simp [hlt', h0, List.getElem?_eq_getElem hlt]
      · rw [if_neg hj, hinv j]
        cases orig[j]? with
        | none => rfl
        | some p =>
          by_cases h2 : s + i ≤ j ∧ j ≤ e
          · have h3 : s + (i + 1) ≤ j ∧ j ≤ e := by omega
            simp [h2, h3]
          · have h3 : ¬ (s + (i + 1) ≤ j ∧ j ≤ e) := by omega
            simp [h2, h3]
    have hstep := ih (i + 1)
      { data with points_ := data.points_.set (s + i) orig[s + i], is_modified_ := true }
      (by omega) (by rw [hrest']; rfl) hinv'
    have hupd : ({ data.points_[s + i] with velocity := ov } : TrajectoryPoint R)
        = orig[s + i] := by
      rw [hget, hov]
    rw [EditCommand.undoRangeLoop]
    simp only [hmod, hle, if_true, TrajectoryData.getPoints, hlt', dite_true,
      List.get_eq_getElem, hupd, TrajectoryData.updatePoint, TrajectoryData.isValidIndex,
      decide_True, Bool.not_true, Bool.false_eq_true, if_false]
    rw [hstep]
    simp

end RangeUndoLoop


section ExecuteCaptured

variable {R : Type} [DecidableEq R]

/-- A captured command returns normally on every store with the same points,
and the points it leaves depend on those points only. -/
theorem execute_of_captured (c : EditCommand R) (d d2 : TrajectoryData R)
    (hc : c.capturedFrom d = true) (hp : d2.points_ = d.points_) :
    c.execute d2 =
      .returned { d2 with points_ := (c.execute d).state.points_, is_modified_ := true } := by
  cases c with
  | MovePointCommand i ox oy nx ny =>
    simp only [EditCommand.capturedFrom, decide_eq_true_eq] at hc
    have hlt := getElem?_lt_of_map_eq_some hc
    simp [EditCommand.execute, TrajectoryData.movePoint, TrajectoryData.isValidIndex, hp, hlt,
      Outcome.state]
  | AddPointCommand i p =>
    simp only [EditCommand.capturedFrom, decide_eq_true_eq] at hc
    simp [EditCommand.execute, TrajectoryData.insertPoint, hp, Nat.not_lt.mpr hc, Outcome.state]
  | RemovePointCommand i p =>
    simp only [EditCommand.capturedFrom, decide_eq_true_eq] at hc
    have hlt : i < d.points_.length := by
      by_contra hge
      rw [List.getElem?_eq_none (by omega)] at hc
      cases hc
    simp [EditCommand.execute, TrajectoryData.removePoint, TrajectoryData.isValidIndex, hp, hlt,
      Outcome.state]
  | ChangeVelocityCommand i ov nv =>
    simp only [EditCommand.capturedFrom, decide_eq_true_eq] at hc
    have hlt := getElem?_lt_of_map_eq_some hc
    simp [EditCommand.execute, EditCommand.changeVelocity, TrajectoryData.getPoints,
      TrajectoryData.updatePoint, TrajectoryData.isValidIndex, hp, hlt, Outcome.state]
  | ChangeRangeVelocityCommand s e olds nv =>
    simp only [EditCommand.capturedFrom, decide_eq_true_eq] at hc
    obtain ⟨hse, he, _, _⟩ := hc
    have h1 : ¬ (d.points_.length ≤ s ∨ d.points_.length ≤ e ∨ e < s) := by omega
    simp [EditCommand.execute, TrajectoryData.updateVelocityRange, hp, h1, Outcome.state]

end ExecuteCaptured


section UndoCaptured

variable {R : Type} [DecidableEq R]

/-- Undoing a captured command on a store holding the points its execution
left restores the points it was captured from. -/
theorem undo_of_captured (c : EditCommand R) (d d2 : TrajectoryData R)
    (hc : c.capturedFrom d = true) (hp : d2.points_ = (c.execute d).state.points_) :
    c.undo d2 = .returned { d2 with points_ := d.points_, is_modified_ := true } := by
  obtain ⟨pts2, m2, hd2, ex2, fl2⟩ := d2
  simp only at hp
  subst hp
  cases c with
  | MovePointCommand i ox oy nx ny =>
    simp only [EditCommand.capturedFrom, decide_eq_true_eq] at hc
    have hlt := getElem?_lt_of_map_eq_some hc
    have hex : ((EditCommand.MovePointCommand i ox oy nx ny).execute d).state.points_
        = List.modify (fun p => { p with x := nx, y := ny }) i d.points_ := by
      simp [EditCommand.execute, TrajectoryData.movePoint, TrajectoryData.isValidIndex, hlt,
        Outcome.state]
    have hres := modify_modify_restore
      (fun p : TrajectoryPoint R => { p with x := nx, y := ny })
      (fun p : TrajectoryPoint R => { p with x := ox, y := oy }) i d.points_
      (by
        intro a ha
        rw [ha] at hc
        simp only [Option.map_some', Option.some.injEq, Prod.mk.injEq] at hc
        cases a
        simp_all)
    simp only [hex]
    simp [EditCommand.undo, TrajectoryData.movePoint, TrajectoryData.isValidIndex, hlt, hres]
  | AddPointCommand i p =>
    simp only [EditCommand.capturedFrom, decide_eq_true_eq] at hc
    have hex : ((EditCommand.AddPointCommand i p).execute d).state.points_
        = List.insertIdx i p d.points_ := by
      simp [EditCommand.execute, TrajectoryData.insertPoint, Nat.not_lt.mpr hc, Outcome.state]
    simp only [hex]
    have hlen := List.length_insertIdx (a := p) i d.points_ hc
    have hlt : i < (List.insertIdx i p d.points_).length := by omega
    simp [EditCommand.undo, TrajectoryData.removePoint, TrajectoryData.isValidIndex, hlt,
      List.eraseIdx_insertIdx]
  | RemovePointCommand i p =>
    simp only [EditCommand.capturedFrom, decide_eq_true_eq] at hc
    have hlt : i < d.points_.length := by
      by_contra hge
      rw [List.getElem?_eq_none (by omega)] at hc
      cases hc
    have hex : ((EditCommand.RemovePointCommand i p).execute d).state.points_
        = d.points_.eraseIdx i := by
      simp [EditCommand.execute, TrajectoryData.removePoint, TrajectoryData.isValidIndex, hlt,
        Outcome.state]
    simp only [hex]
    have hlen : ¬ (i > (d.points_.eraseIdx i).length) := by
      rw [List.length_eraseIdx, if_pos hlt]; omega
    simp [EditCommand.undo, TrajectoryData.insertPoint, hlen,
      insertIdx_eraseIdx_restore d.points_ i p hc]
  | ChangeVelocityCommand i ov nv =>
    simp only [EditCommand.capturedFrom, decide_eq_true_eq] at hc
    have hlt := getElem?_lt_of_map_eq_some hc
    have hex : ((EditCommand.ChangeVelocityCommand i ov nv).execute d).state.points_
        = d.points_.set i { d.points_[i] with velocity := nv } := by
      simp [EditCommand.execute, EditCommand.changeVelocity, TrajectoryData.getPoints,
        TrajectoryData.updatePoint, TrajectoryData.isValidIndex, hlt, Outcome.state]
    simp only [hex]
    have hov : d.points_[i].velocity = ov := by
      rw [List.getElem?_eq_getElem hlt] at hc
      simpa using hc
    have hback : ({ d.points_[i] with velocity := ov } : TrajectoryPoint R) = d.points_[i] := by
      rw [← hov]
    have hres := set_set_restore d.points_ i
      ({ d.points_[i] with velocity := nv } : TrajectoryPoint R) d.points_[i]
      (List.getElem?_eq_getElem hlt)
    simp [EditCommand.undo, EditCommand.changeVelocity, TrajectoryData.getPoints,
      TrajectoryData.updatePoint, TrajectoryData.isValidIndex, hlt, hback, hres]
  | ChangeRangeVelocityCommand s e olds nv =>
    simp only [EditCommand.capturedFrom, decide_eq_true_eq] at hc
    obtain ⟨hse, he, he64, holds⟩ := hc
    have h1 : ¬ (d.points_.length ≤ s ∨ d.points_.length ≤ e ∨ e < s) := by omega
    have hex : ((EditCommand.ChangeRangeVelocityCommand s e olds nv).execute d).state.points_
        = (List.range' s (e + 1 - s)).foldl
            (fun pts i => List.modify (fun p => { p with velocity := nv }) i pts) d.points_ := by
      simp [EditCommand.execute, TrajectoryData.updateVelocityRange, h1, Outcome.state]
    simp only [hex]
    have hlen : olds.length = e + 1 - s := by
      rw [holds]; simp; omega
    have hne : olds.isEmpty = false := by
      cases olds with
      | nil => simp at hlen; omega
      | cons a t => rfl
    have hloop := undoRangeLoop_restore d.points_ s e nv he he64 olds 0
      { points_ := (List.range' s (e + 1 - s)).foldl
            (fun pts i => List.modify (fun p => { p with velocity := nv }) i pts) d.points_,
        is_modified_ := m2, original_header_ := hd2, original_extra_columns_ := ex2,
        has_extended_format_ := fl2 }
      (by rw [hlen]; omega) (by simpa using holds)
      (by
        intro j
        rw [foldl_modify_range']
        cases d.points_[j]? with
        | none => rfl
        | some p =>
          by_cases h2 : s ≤ j ∧ j < s + (e + 1 - s)
          · have h3 : s ≤ j ∧ j ≤ e := by omega
            simp [h2, h3]
          · have h3 : ¬ (s ≤ j ∧ j ≤ e) := by omega
            simp [h2, h3])
    simp only [EditCommand.undo]
    rw [hloop]
    simp [hne]

end UndoCaptured


section RoundTrip

variable {R : Type}

theorem storeAfter_append (a b : List (EditCommand R)) :
    ∀ d : TrajectoryData R, storeAfter (a ++ b) d = storeAfter b (storeAfter a d) := by
  induction a with
  | nil => intro d; rfl
  | cons c a ih =>
    intro d
    show storeAfter (a ++ b) (c.execute d).state = storeAfter b (storeAfter a (c.execute d).state)
    exact ih _

theorem capturedSeq_append [DecidableEq R] (a b : List (EditCommand R)) :
    ∀ d : TrajectoryData R,
      capturedSeq (a ++ b) d = (capturedSeq a d && capturedSeq b (storeAfter a d)) := by
  induction a with
  | nil => intro d; simp [capturedSeq, storeAfter]
  | cons c a ih =>
    intro d
    show (c.capturedFrom d && capturedSeq (a ++ b) (c.execute d).state)
      = ((c.capturedFrom d && capturedSeq a (c.execute d).state)
          && capturedSeq b (storeAfter a (c.execute d).state))
    rw [ih, Bool.and_assoc]

theorem executeCommand_step (pre : List (EditCommand R)) (m : Nat) (c : EditCommand R)
    (X Y : TrajectoryData R) (hx : c.execute X = .returned Y) (hm : pre.length + 1 ≤ m) :
    EditHistory.executeCommand ⟨pre, pre.length, m⟩ c X
      = .returned (⟨pre ++ [c], pre.length + 1, m⟩, Y) := by
  unfold EditHistory.executeCommand
  simp only [hx, List.take_length]
  have hlen : ¬ (m < pre.length + 1) := by omega
  simp [EditHistory.trimHistory, hlen]

theorem undo_step (cs : List (EditCommand R)) (k m : Nat) (c : EditCommand R)
    (X Y : TrajectoryData R) (hk : cs[k]? = some c) (hx : c.undo X = .returned Y) :
    EditHistory.undo ⟨cs, k + 1, m⟩ X = .returned (⟨cs, k, m⟩, Y) := by
  unfold EditHistory.undo
  simp [EditHistory.canUndo, hk, hx]

theorem redo_step (cs : List (EditCommand R)) (k m : Nat) (c : EditCommand R)
    (X Y : TrajectoryData R) (hk : cs[k]? = some c) (hx : c.execute X = .returned Y) :
    EditHistory.redo ⟨cs, k, m⟩ X = .returned (⟨cs, k + 1, m⟩, Y) := by
  have hlt : k < cs.length := by
    by_contra hge
    rw [List.getElem?_eq_none (by omega)] at hk
    cases hk
  unfold EditHistory.redo
  simp [EditHistory.canRedo, hk, hx, hlt]

theorem getElem?_middle (a b : List (EditCommand R)) (c : EditCommand R) :
    (a ++ c :: b)[a.length]? = some c := by
  rw [List.getElem?_append_right (Nat.le_refl _)]
  simp

variable [DecidableEq R]

theorem executeAll_captured (m : Nat) :
    ∀ (cmds pre : List (EditCommand R)) (d X : TrajectoryData R),
      capturedSeq cmds d = true → X.points_ = d.points_ → pre.length + cmds.length ≤ m →
      ∃ Y, executeAll cmds (⟨pre, pre.length, m⟩, X)
          = .returned (⟨pre ++ cmds, pre.length + cmds.length, m⟩, Y) ∧
        Y.points_ = (storeAfter cmds d).points_ := by
  intro cmds
  induction cmds with
  | nil =>
    intro pre d X _ hp _
    exact ⟨X, by simp [executeAll], by simpa [storeAfter] using hp⟩
  | cons c cs ih =>
    intro pre d X hv hp hm
    simp only [capturedSeq, Bool.and_eq_true] at hv
    simp only [List.length_cons] at hm
    have hx := execute_of_captured c d X hv.1 hp
    have hstep := executeCommand_step pre m c X _ hx (by omega)
    obtain ⟨Y, hY, hYp⟩ := ih (pre ++ [c]) (c.execute d).state
      { X with points_ := (c.execute d).state.points_, is_modified_ := true } hv.2 rfl
      (by simp; omega)
    refine ⟨Y, ?_, ?_⟩
    · have e1 : (pre ++ [c]).length = pre.length + 1 := by simp
      have e2 : pre ++ [c] ++ cs = pre ++ c :: cs := by simp
      have e3 : pre.length + 1 + cs.length = pre.length + (cs.length + 1) := by omega
      rw [e1, e2, e3] at hY
      simp only [executeAll, hstep, List.length_cons]
      exact hY
    · simpa [storeAfter] using hYp

theorem redoTimes_captured (m : Nat) (all : List (EditCommand R)) :
    ∀ (cmds pre post : List (EditCommand R)) (d X : TrajectoryData R),
      all = pre ++ cmds ++ post →
      capturedSeq cmds d = true → X.points_ = d.points_ →
      ∃ Y, redoTimes cmds.length (⟨all, pre.length, m⟩, X)
          = .returned (⟨all, pre.length + cmds.length, m⟩, Y) ∧
        Y.points_ = (storeAfter cmds d).points_ := by
  intro cmds
  induction cmds with
  | nil =>
    intro pre post d X _ _ hp
    exact ⟨X, by simp [redoTimes], by simpa [storeAfter] using hp⟩
  | cons c cs ih =>
    intro pre post d X hall hv hp
    simp only [capturedSeq, Bool.and_eq_true] at hv
    have hx := execute_of_captured c d X hv.1 hp
    have hk : all[pre.length]? = some c := by
      rw [hall, List.append_assoc]
      exact getElem?_middle pre (cs ++ post) c
    have hstep := redo_step all pre.length m c X _ hk hx
    obtain ⟨Y, hY, hYp⟩ := ih (pre ++ [c]) post (c.execute d).state
      { X with points_ := (c.execute d).state.points_, is_modified_ := true }
      (by rw [hall]; simp) hv.2 rfl
    refine ⟨Y, ?_, ?_⟩
    · have e1 : (pre ++ [c]).length = pre.length + 1 := by simp
      have e3 : pre.length + 1 + cs.length = pre.length + (cs.length + 1) := by omega
      rw [e1, e3] at hY
      simp only [redoTimes, List.length_cons, hstep]
      exact hY
    · simpa [storeAfter] using hYp

theorem undoTimes_captured (m : Nat) (all : List (EditCommand R)) :
    ∀ (cmds pre post : List (EditCommand R)) (d X : TrajectoryData R),
      all = pre ++ cmds ++ post →
      capturedSeq cmds d = true → X.points_ = (storeAfter cmds d).points_ →
      ∃ Y, undoTimes cmds.length (⟨all, pre.length + cmds.length, m⟩, X)
          = .returned (⟨all, pre.length, m⟩, Y) ∧
        Y.points_ = d.points_ := by
  intro cmds
  induction cmds using List.reverseRecOn with
  | nil =>
    intro pre post d X _ _ hp
    exact ⟨X, by simp [undoTimes], by simpa [storeAfter] using hp⟩
  | append_singleton cs c ih =>
    intro pre post d X hall hv hp
    rw [capturedSeq_append] at hv
    simp only [capturedSeq, Bool.and_eq_true, Bool.and_true] at hv
    rw [storeAfter_append] at hp
    simp only [storeAfter] at hp
    have hx := undo_of_captured c (storeAfter cs d) X hv.2 hp
    have hk : all[pre.length + cs.length]? = some c := by
      have h := getElem?_middle (pre ++ cs) post c
      rw [hall]
      simpa [List.append_assoc] using h
    have hstep := undo_step all (pre.length + cs.length) m c X _ hk hx
    obtain ⟨Y, hY, hYp⟩ := ih pre ([c] ++ post) d
      { X with points_ := (storeAfter cs d).points_, is_modified_ := true }
      (by rw [hall]; simp) hv.1 rfl
    refine ⟨Y, ?_, hYp⟩
    have e1 : (cs ++ [c]).length = cs.length + 1 := by simp
    rw [e1, ← Nat.add_assoc]
    simp only [undoTimes, hstep]
    exact hY

end RoundTrip


section RoundTripMain

variable {R : Type}

theorem exists_split_at {α : Type} (l : List α) (k : Nat) (hk : k < l.length) :
    ∃ (a : List α) (c : α) (b : List α),
      l = a ++ c :: b ∧ b.length = k ∧ a.length + 1 = l.length - k ∧
      l.take (l.length - k) = a ++ [c] := by
  obtain ⟨n, hn, e⟩ : ∃ n, n < l.length ∧ l.length - k = n + 1 :=
    ⟨l.length - k - 1, by omega, by omega⟩
  refine ⟨l.take n, l[n], l.drop (n + 1), ?_, ?_, ?_, ?_⟩
  · rw [← List.drop_eq_getElem_cons hn, List.take_append_drop]
  · simp; omega
  · simp; omega
  · rw [e, List.take_succ, List.getElem?_eq_getElem hn]
    simp

variable [DecidableEq R]

theorem round_trip_at (m : Nat) (a b : List (EditCommand R)) (c : EditCommand R)
    (d Y : TrajectoryData R) (hv : capturedSeq (a ++ c :: b) d = true)
    (hY : Y.points_ = (storeAfter (a ++ c :: b) d).points_) :
    ∃ Yk, undoTimes b.length (⟨a ++ c :: b, (a ++ c :: b).length, m⟩, Y)
        = .returned (⟨a ++ c :: b, a.length + 1, m⟩, Yk) ∧
      Yk.points_ = (storeAfter (a ++ [c]) d).points_ ∧
      ∃ Y1, EditHistory.undo ⟨a ++ c :: b, a.length + 1, m⟩ Yk
          = .returned (⟨a ++ c :: b, a.length, m⟩, Y1) ∧
        ∃ Y2, EditHistory.redo ⟨a ++ c :: b, a.length, m⟩ Y1
            = .returned (⟨a ++ c :: b, a.length + 1, m⟩, Y2) ∧
          Y2.points_ = Yk.points_ := by
  have hsplit : a ++ c :: b = (a ++ [c]) ++ b := by simp
  have hv' := hv
  rw [hsplit, capturedSeq_append, capturedSeq_append] at hv'
  simp only [capturedSeq, Bool.and_eq_true, Bool.and_true] at hv'
  obtain ⟨⟨_, hc⟩, hb⟩ := hv'
  have hY' : Y.points_ = (storeAfter b (storeAfter (a ++ [c]) d)).points_ := by
    rw [hY, hsplit, storeAfter_append]
  obtain ⟨Yk, hYk, hYkp⟩ := undoTimes_captured m (a ++ c :: b) b (a ++ [c]) []
    (storeAfter (a ++ [c]) d) Y (by simp) hb hY'
  have e1 : (a ++ [c]).length + b.length = (a ++ c :: b).length := by simp; omega
  have e2 : (a ++ [c]).length = a.length + 1 := by simp
  rw [e1, e2] at hYk
  have hexec : (storeAfter (a ++ [c]) d).points_ = (c.execute (storeAfter a d)).state.points_ := by
    rw [storeAfter_append]; rfl
  refine ⟨Yk, hYk, hYkp, ?_⟩
  have hk := getElem?_middle a b c
  have hu := undo_of_captured c (storeAfter a d) Yk hc (by rw [hYkp, hexec])
  refine ⟨_, undo_step (a ++ c :: b) a.length m c Yk _ hk hu, ?_⟩
  have hr := execute_of_captured c (storeAfter a d)
    { Yk with points_ := (storeAfter a d).points_, is_modified_ := true } hc rfl
  refine ⟨_, redo_step (a ++ c :: b) a.length m c _ _ hk hr, ?_⟩
  simp only [hYkp, hexec]

/-- C1. Undo/redo round-trip law. Start from any store and a history with no
commands and cap `m`; execute through `executeCommand` any `N <= m` commands,
each with valid indices and with old values captured from the store at the
moment it is executed. Then every call returns normally, and
* `undo` called `N` times restores the initial point sequence, and `redo`
  called `N` times afterwards restores the final point sequence;
* after `k < N` undos (cursor `N - k`, between 1 and `N`) the point sequence
  is the one the first `N - k` commands had produced, and there `undo`
  followed by `redo` returns to the same history state and leaves the point
  sequence unchanged. -/
theorem undo_redo_round_trip (d : TrajectoryData R) (m : Nat) (cmds : List (EditCommand R))
    (hN : cmds.length ≤ m) (hv : capturedSeq cmds d = true) :
    ∃ sN : Session R,
      executeAll cmds (EditHistory.construct.setMaxHistorySize m, d) = .returned sN ∧
      (∃ sU, undoTimes cmds.length sN = .returned sU ∧ sU.2.points_ = d.points_ ∧
        ∃ sR, redoTimes cmds.length sU = .returned sR ∧ sR.2.points_ = sN.2.points_) ∧
      (∀ k, k < cmds.length →
        ∃ sk, undoTimes k sN = .returned sk ∧
          sk.1.current_index_ = cmds.length - k ∧
          sk.2.points_ = (storeAfter (cmds.take (cmds.length - k)) d).points_ ∧
          ∃ s1, sk.1.undo sk.2 = .returned s1 ∧
            ∃ s2, s1.1.redo s1.2 = .returned s2 ∧
              s2.1 = sk.1 ∧ s2.2.points_ = sk.2.points_) := by
  obtain ⟨Y, hY, hYp⟩ := executeAll_captured m cmds [] d d hv rfl (by simpa using hN)
  simp only [List.nil_append, List.length_nil, Nat.zero_add] at hY
  refine ⟨_, hY, ?_, ?_⟩
  · obtain ⟨U, hU, hUp⟩ := undoTimes_captured m cmds cmds [] [] d Y (by simp) hv hYp
    simp only [List.length_nil, Nat.zero_add] at hU
    refine ⟨_, hU, hUp, ?_⟩
    obtain ⟨Z, hZ, hZp⟩ := redoTimes_captured m cmds cmds [] [] d U (by simp) hv hUp
    simp only [List.length_nil, Nat.zero_add] at hZ
    exact ⟨_, hZ, by simp only [hZp, hYp]⟩
  · intro k hk
    obtain ⟨a, c, b, hl, hb, ha, htake⟩ := exists_split_at cmds k hk
    rw [htake]
    subst hb
    have hv' := hv
    rw [hl] at hv' hYp
    obtain ⟨Yk, hYk, hYkp, Y1, h1, Y2, h2, h2p⟩ := round_trip_at m a b c d Y hv' hYp
    rw [← hl] at hYk h1 h2
    rw [← ha]
    exact ⟨_, hYk, rfl, hYkp, _, h1, _, h2, rfl, h2p⟩

/-- Witness for C1: the four commands of `example_commands` (a move, an
addition, a range velocity change and a removal) on `example_store_3` with the
default cap of 50. -/
theorem undo_redo_round_trip_witness :
    example_commands.length ≤ 50 ∧ capturedSeq example_commands example_store_3 = true ∧
    ∃ sN : Session Int,
      executeAll example_commands (EditHistory.construct.setMaxHistorySize 50, example_store_3)
        = .returned sN ∧
      (∃ sU, undoTimes example_commands.length sN = .returned sU ∧
        sU.2.points_ = example_store_3.points_ ∧
        ∃ sR, redoTimes example_commands.length sU = .returned sR ∧
          sR.2.points_ = sN.2.points_) ∧
      (∀ k, k < example_commands.length →
        ∃ sk, undoTimes k sN = .returned sk ∧
          sk.1.current_index_ = example_commands.length - k ∧
          sk.2.points_ = (storeAfter (example_commands.take (example_commands.length - k))
            example_store_3).points_ ∧
          ∃ s1, sk.1.undo sk.2 = .returned s1 ∧
            ∃ s2, s1.1.redo s1.2 = .returned s2 ∧
              s2.1 = sk.1 ∧ s2.2.points_ = sk.2.points_) :=
  ⟨by decide, by decide,
   undo_redo_round_trip example_store_3 50 example_commands (by decide) (by decide)⟩

end RoundTripMain


section CsvLemmas

variable {R : Type}

open TrajectoryData

theorem loadFromCSV_row_flag (stod : String → Option R) (d : TrajectoryData R)
    (row : List String) :
    (loadFromCSV_row stod d row).has_extended_format_ = d.has_extended_format_ ∧
    (loadFromCSV_row stod d row).original_header_ = d.original_header_ := by
  unfold loadFromCSV_row
  split
  · split
    · split
      · split <;> simp
      · split <;> simp
    · simp
  · simp

theorem loadFromCSV_fold_flag (stod : String → Option R) (rows : List (List String)) :
    ∀ d : TrajectoryData R,
      (rows.foldl (loadFromCSV_row stod) d).has_extended_format_ = d.has_extended_format_ ∧
      (rows.foldl (loadFromCSV_row stod) d).original_header_ = d.original_header_ := by
  induction rows with
  | nil => intro d; exact ⟨rfl, rfl⟩
  | cons r rows ih =>
    intro d
    have h1 := loadFromCSV_row_flag stod d r
    have h2 := ih (loadFromCSV_row stod d r)
    simp only [List.foldl_cons]
    exact ⟨h2.1.trans h1.1, h2.2.trans h1.2⟩

/-- A row of 4 to 7 fields whose x, y, z and velocity parse appends one point
and no extra-columns entry. -/
theorem loadFromCSV_row_narrow (stod : String → Option R) (d : TrajectoryData R)
    (row : List String) (x y z v : R) (h4 : 4 ≤ row.length) (h8 : row.length < 8)
    (hx : stod (row.getD 0 "") = some x) (hy : stod (row.getD 1 "") = some y)
    (hz : stod (row.getD 2 "") = some z) (hv : stod (row.getD 3 "") = some v) :
    loadFromCSV_row stod d row = { d with points_ := d.points_ ++ [⟨x, y, z, v⟩] } := by
  have h8' : ¬ (8 ≤ row.length) := by omega
  unfold loadFromCSV_row
  simp only [ge_iff_le, h4, h8', if_true, if_false, hx, hy, hz, hv]

theorem loadFromCSV_fold_narrow (stod : String → Option R) (rows : List (List String)) :
    ∀ d : TrajectoryData R,
      (∀ r ∈ rows, 4 ≤ r.length ∧ r.length < 8 ∧ (stod (r.getD 0 "")).isSome = true ∧
        (stod (r.getD 1 "")).isSome = true ∧ (stod (r.getD 2 "")).isSome = true ∧
        (stod (r.getD 3 "")).isSome = true) →
      ∃ pts : List (TrajectoryPoint R),
        List.Forall₂ (fun r p => stod (r.getD 0 "") = some p.x ∧ stod (r.getD 1 "") = some p.y ∧
          stod (r.getD 2 "") = some p.z ∧ stod (r.getD 3 "") = some p.velocity) rows pts ∧
        rows.foldl (loadFromCSV_row stod) d = { d with points_ := d.points_ ++ pts } := by
  induction rows with
  | nil => intro d _; exact ⟨[], List.Forall₂.nil, by simp⟩
  | cons r rows ih =>
    intro d hr
    obtain ⟨h4, h8, hx, hy, hz, hv⟩ := hr r (List.mem_cons_self _ _)
    obtain ⟨x, hx⟩ := Option.isSome_iff_exists.mp hx
    obtain ⟨y, hy⟩ := Option.isSome_iff_exists.mp hy
    obtain ⟨z, hz⟩ := Option.isSome_iff_exists.mp hz
    obtain ⟨v, hv⟩ := Option.isSome_iff_exists.mp hv
    obtain ⟨pts, hpts, hfold⟩ := ih (loadFromCSV_row stod d r)
      (fun r' hr' => hr r' (List.mem_cons_of_mem _ hr'))
    refine ⟨⟨x, y, z, v⟩ :: pts, List.Forall₂.cons ⟨hx, hy, hz, hv⟩ hpts, ?_⟩
    rw [List.foldl_cons, hfold, loadFromCSV_row_narrow stod d r x y z v h4 h8 hx hy hz hv]
    simp

theorem saveToCSV_rows_plain (to_string : R → String) (d : TrajectoryData R)
    (hflag : d.has_extended_format_ = false) (pts : List (TrajectoryPoint R)) :
    ∀ i, saveToCSV_rows to_string d i pts
      = pts.map (fun p => [to_string p.x, to_string p.y, to_string p.z, to_string p.velocity]) := by
  induction pts with
  | nil => intro i; rfl
  | cons p pts ih =>
    intro i
    simp [saveToCSV_rows, saveToCSV_row, hflag, ih (i + 1)]

end CsvLemmas


section CsvClaims

variable {R : Type}

open TrajectoryData

theorem loadFromCSV_cons (stod : String → Option R) (d0 : TrajectoryData R)
    (header : List String) (rows : List (List String)) :
    (loadFromCSV stod d0 (header :: rows)).2 =
      { rows.foldl (loadFromCSV_row stod)
          { d0 with points_ := [], original_header_ := header,
                    original_extra_columns_ := [],
                    has_extended_format_ := decide (8 ≤ header.length) } with
        is_modified_ := false } := by
  unfold loadFromCSV
  by_cases h8 : 8 ≤ header.length
  · simp [CSVParser.hasHeader, h8]
  · simp [CSVParser.hasHeader, h8]

/-- The boolean result of `loadFromCSV` on a table with a first row says
whether the store holds a point afterwards. -/
theorem loadFromCSV_fst (stod : String → Option R) (d0 : TrajectoryData R)
    (header : List String) (rows : List (List String)) :
    (loadFromCSV stod d0 (header :: rows)).1
      = !(loadFromCSV stod d0 (header :: rows)).2.points_.isEmpty := by
  unfold loadFromCSV
  simp

/-- The whole result of `loadFromCSV` on a plain table whose data rows all
decode. -/
theorem loadFromCSV_narrow (stod : String → Option R) (d0 : TrajectoryData R)
    (header : List String) (rows : List (List String)) (hh : header.length < 8)
    (hr : ∀ r ∈ rows, 4 ≤ r.length ∧ r.length < 8 ∧ (stod (r.getD 0 "")).isSome = true ∧
      (stod (r.getD 1 "")).isSome = true ∧ (stod (r.getD 2 "")).isSome = true ∧
      (stod (r.getD 3 "")).isSome = true) :
    ∃ pts : List (TrajectoryPoint R),
      List.Forall₂ (fun r p => stod (r.getD 0 "") = some p.x ∧ stod (r.getD 1 "") = some p.y ∧
        stod (r.getD 2 "") = some p.z ∧ stod (r.getD 3 "") = some p.velocity) rows pts ∧
      loadFromCSV stod d0 (header :: rows) =
        (!pts.isEmpty,
         { points_ := pts, is_modified_ := false, original_header_ := header,
           original_extra_columns_ := [], has_extended_format_ := false }) := by
  obtain ⟨pts, hpts, hfold⟩ := loadFromCSV_fold_narrow stod rows
    { d0 with points_ := [], original_header_ := header, original_extra_columns_ := [],
              has_extended_format_ := decide (8 ≤ header.length) } hr
  have h8 : ¬ (8 ≤ header.length) := by omega
  have h2 : (loadFromCSV stod d0 (header :: rows)).2 =
      ({ points_ := pts, is_modified_ := false, original_header_ := header,
         original_extra_columns_ := [], has_extended_format_ := false } : TrajectoryData R) := by
    rw [loadFromCSV_cons, hfold]
    simp [h8]
  refine ⟨pts, hpts, Prod.ext ?_ h2⟩
  rw [loadFromCSV_fst, h2]

/-- Loading the rows written for a plain store appends the same points when
printing then reading returns each value. -/
theorem loadFromCSV_fold_printed_plain (stod : String → Option R) (to_string : R → String)
    (pts : List (TrajectoryPoint R)) :
    (∀ p ∈ pts, stod (to_string p.x) = some p.x ∧ stod (to_string p.y) = some p.y ∧
      stod (to_string p.z) = some p.z ∧ stod (to_string p.velocity) = some p.velocity) →
    ∀ d : TrajectoryData R,
      (pts.map (fun p => [to_string p.x, to_string p.y, to_string p.z,
        to_string p.velocity])).foldl (loadFromCSV_row stod) d =
        { d with points_ := d.points_ ++ pts } := by
  induction pts with
  | nil => intro _ d; simp
  | cons p pts ih =>
    intro hback d
    obtain ⟨hx, hy, hz, hv⟩ := hback p (List.mem_cons_self _ _)
    have hrow := loadFromCSV_row_narrow stod d
      [to_string p.x, to_string p.y, to_string p.z, to_string p.velocity]
      p.x p.y p.z p.velocity (by simp) (by simp) hx hy hz hv
    rw [List.map_cons, List.foldl_cons,
      ih (fun q hq => hback q (List.mem_cons_of_mem _ hq))]
    rw [hrow]
    simp

/-- C5 (amended). 4-column load-save round trip: load a table whose header has
fewer than 8 fields (in particular 4) and whose data rows all have 4 to 7
fields (in particular 4) with parseable x, y, z (fields 0..2) and velocity
(field 3), then save without edits. The table written has the header row
`x,y,z,velocity_ms` followed by one row per loaded point, in the same order;
that row has exactly 4 fields, the `std::to_string` texts of the x, y, z and
velocity of that point, which are the values parsed from the original fields
0..3 of the corresponding data row. The written fields carry the same values
as the loaded points, that is, they parse to them, if and only if
`std::stod (std::to_string v)` returns `v` for each of the loaded values `v`;
in that case loading the written table gives the same result and the same
store as loading the original table, the kept header aside, which is the
header written. -/
theorem load_save_round_trip_plain (stod : String → Option R) (to_string : R → String)
    (d0 : TrajectoryData R) (header : List String) (rows : List (List String))
    (hh : header.length < 8)
    (hr : ∀ r ∈ rows, 4 ≤ r.length ∧ r.length < 8 ∧ (stod (r.getD 0 "")).isSome = true ∧
      (stod (r.getD 1 "")).isSome = true ∧ (stod (r.getD 2 "")).isSome = true ∧
      (stod (r.getD 3 "")).isSome = true) :
    ∃ out, saveToCSV_csv_data to_string (loadFromCSV stod d0 (header :: rows)).2
        = ["x", "y", "z", "velocity_ms"] :: out ∧
      List.Forall₂ (fun r o => ∃ x y z v, stod (r.getD 0 "") = some x ∧
        stod (r.getD 1 "") = some y ∧ stod (r.getD 2 "") = some z ∧
        stod (r.getD 3 "") = some v ∧
        o = [to_string x, to_string y, to_string z, to_string v]) rows out ∧
      List.Forall₂ (fun r p => stod (r.getD 0 "") = some p.x ∧ stod (r.getD 1 "") = some p.y ∧
        stod (r.getD 2 "") = some p.z ∧ stod (r.getD 3 "") = some p.velocity)
        rows (loadFromCSV stod d0 (header :: rows)).2.points_ ∧
      List.Forall₂ (fun p o =>
        o = [to_string p.x, to_string p.y, to_string p.z, to_string p.velocity])
        (loadFromCSV stod d0 (header :: rows)).2.points_ out ∧
      (List.Forall₂ (fun p o => stod (o.getD 0 "") = some p.x ∧ stod (o.getD 1 "") = some p.y ∧
          stod (o.getD 2 "") = some p.z ∧ stod (o.getD 3 "") = some p.velocity)
          (loadFromCSV stod d0 (header :: rows)).2.points_ out ↔
        ∀ p ∈ (loadFromCSV stod d0 (header :: rows)).2.points_,
          stod (to_string p.x) = some p.x ∧ stod (to_string p.y) = some p.y ∧
          stod (to_string p.z) = some p.z ∧ stod (to_string p.velocity) = some p.velocity) ∧
      ((∀ p ∈ (loadFromCSV stod d0 (header :: rows)).2.points_,
          stod (to_string p.x) = some p.x ∧ stod (to_string p.y) = some p.y ∧
          stod (to_string p.z) = some p.z ∧ stod (to_string p.velocity) = some p.velocity) →
        ∀ d1 : TrajectoryData R,
          loadFromCSV stod d1 (["x", "y", "z", "velocity_ms"] :: out) =
            ((loadFromCSV stod d0 (header :: rows)).1,
             { (loadFromCSV stod d0 (header :: rows)).2 with
               original_header_ := ["x", "y", "z", "velocity_ms"] })) := by
  obtain ⟨pts, hpts, hload⟩ := loadFromCSV_narrow stod d0 header rows hh hr
  rw [hload]
  refine ⟨saveToCSV_rows to_string
    ({ points_ := pts, is_modified_ := false, original_header_ := header,
       original_extra_columns_ := [], has_extended_format_ := false } : TrajectoryData R)
    0 pts, ?_, ?_, hpts, ?_, ?_, ?_⟩
  · simp only [saveToCSV_csv_data, Bool.false_and, Bool.false_eq_true, if_false]
  · rw [saveToCSV_rows_plain to_string _ rfl, List.forall₂_map_right_iff]
    exact List.Forall₂.imp
      (fun r p h => ⟨p.x, p.y, p.z, p.velocity, h.1, h.2.1, h.2.2.1, h.2.2.2, rfl⟩) hpts
  · rw [saveToCSV_rows_plain to_string _ rfl, List.forall₂_map_right_iff, List.forall₂_same]
    intro p _
    rfl
  · rw [saveToCSV_rows_plain to_string _ rfl, List.forall₂_map_right_iff, List.forall₂_same]
    rfl
  · intro hback d1
    rw [saveToCSV_rows_plain to_string _ rfl]
    apply Prod.ext
    · rw [loadFromCSV_fst, loadFromCSV_cons,
        loadFromCSV_fold_printed_plain stod to_string pts hback]
      simp
    · rw [loadFromCSV_cons, loadFromCSV_fold_printed_plain stod to_string pts hback]
      simp

/-- Witness for C5: a header of 4 fields and two data rows of 4 fields whose
values have at most six decimals, read and printed as decimal numbers; each
loaded value is returned by printing then reading. -/
theorem load_save_round_trip_plain_witness :
    ["x", "y", "z", "v"].length < 8 ∧
    (∀ r ∈ example_rows_decimal_4,
      4 ≤ r.length ∧ r.length < 8 ∧ (stod_decimal (r.getD 0 "")).isSome = true ∧
      (stod_decimal (r.getD 1 "")).isSome = true ∧ (stod_decimal (r.getD 2 "")).isSome = true ∧
      (stod_decimal (r.getD 3 "")).isSome = true) ∧
    (∀ p ∈ (loadFromCSV stod_decimal construct
          (["x", "y", "z", "v"] :: example_rows_decimal_4)).2.points_,
      stod_decimal (to_string_decimal p.x) = some p.x ∧
      stod_decimal (to_string_decimal p.y) = some p.y ∧
      stod_decimal (to_string_decimal p.z) = some p.z ∧
      stod_decimal (to_string_decimal p.velocity) = some p.velocity) ∧
    ∃ out, saveToCSV_csv_data to_string_decimal
        (loadFromCSV stod_decimal construct (["x", "y", "z", "v"] :: example_rows_decimal_4)).2
        = ["x", "y", "z", "velocity_ms"] :: out ∧
      List.Forall₂ (fun r o => ∃ x y z v, stod_decimal (r.getD 0 "") = some x ∧
        stod_decimal (r.getD 1 "") = some y ∧ stod_decimal (r.getD 2 "") = some z ∧
        stod_decimal (r.getD 3 "") = some v ∧
        o = [to_string_decimal x, to_string_decimal y, to_string_decimal z,
             to_string_decimal v]) example_rows_decimal_4 out ∧
      List.Forall₂ (fun r p => stod_decimal (r.getD 0 "") = some p.x ∧
        stod_decimal (r.getD 1 "") = some p.y ∧ stod_decimal (r.getD 2 "") = some p.z ∧
        stod_decimal (r.getD 3 "") = some p.velocity)
        example_rows_decimal_4
        (loadFromCSV stod_decimal construct
          (["x", "y", "z", "v"] :: example_rows_decimal_4)).2.points_ ∧
      List.Forall₂ (fun p o =>
        o = [to_string_decimal p.x, to_string_decimal p.y, to_string_decimal p.z,
             to_string_decimal p.velocity])
        (loadFromCSV stod_decimal construct
          (["x", "y", "z", "v"] :: example_rows_decimal_4)).2.points_ out ∧
      (List.Forall₂ (fun p o => stod_decimal (o.getD 0 "") = some p.x ∧
          stod_decimal (o.getD 1 "") = some p.y ∧ stod_decimal (o.getD 2 "") = some p.z ∧
          stod_decimal (o.getD 3 "") = some p.velocity)
          (loadFromCSV stod_decimal construct
            (["x", "y", "z", "v"] :: example_rows_decimal_4)).2.points_ out ↔
        ∀ p ∈ (loadFromCSV stod_decimal construct
            (["x", "y", "z", "v"] :: example_rows_decimal_4)).2.points_,
          stod_decimal (to_string_decimal p.x) = some p.x ∧
          stod_decimal (to_string_decimal p.y) = some p.y ∧
          stod_decimal (to_string_decimal p.z) = some p.z ∧
          stod_decimal (to_string_decimal p.velocity) = some p.velocity) ∧
      ((∀ p ∈ (loadFromCSV stod_decimal construct
            (["x", "y", "z", "v"] :: example_rows_decimal_4)).2.points_,
          stod_decimal (to_string_decimal p.x) = some p.x ∧
          stod_decimal (to_string_decimal p.y) = some p.y ∧
          stod_decimal (to_string_decimal p.z) = some p.z ∧
          stod_decimal (to_string_decimal p.velocity) = some p.velocity) →
        ∀ d1 : TrajectoryData Decimal,
          loadFromCSV stod_decimal d1 (["x", "y", "z", "velocity_ms"] :: out) =
            ((loadFromCSV stod_decimal construct
                (["x", "y", "z", "v"] :: example_rows_decimal_4)).1,
             { (loadFromCSV stod_decimal construct
                 (["x", "y", "z", "v"] :: example_rows_decimal_4)).2 with
               original_header_ := ["x", "y", "z", "velocity_ms"] })) :=
  ⟨by decide, by decide, by decide,
   load_save_round_trip_plain stod_decimal to_string_decimal construct
    ["x", "y", "z", "v"] example_rows_decimal_4 (by decide) (by decide)⟩

/-- Counterexample to C5 as worded: the x field `3.14159265` of a 4-field row
is loaded as the value 3.14159265 and written back as `3.141593`, which reads
as another value than the x of the loaded point. -/
theorem round_trip_plain_counterexample :
    saveToCSV_csv_data to_string_decimal
        (loadFromCSV stod_decimal construct
          (["x", "y", "z", "velocity_ms"] :: example_rows_fine_4)).2
      = [["x", "y", "z", "velocity_ms"], ["3.141593", "2.500000", "0.000000", "5.000000"]] ∧
    (loadFromCSV stod_decimal construct
        (["x", "y", "z", "velocity_ms"] :: example_rows_fine_4)).2.points_
      = [⟨⟨false, 314159265, 8⟩, ⟨false, 25, 1⟩, ⟨false, 0, 0⟩, ⟨false, 5, 0⟩⟩] ∧
    stod_decimal "3.141593" = some ⟨false, 3141593, 6⟩ ∧
    stod_decimal "3.141593" ≠ stod_decimal "3.14159265" ∧
    (loadFromCSV stod_decimal construct
        (saveToCSV_csv_data to_string_decimal
          (loadFromCSV stod_decimal construct
            (["x", "y", "z", "velocity_ms"] :: example_rows_fine_4)).2)).2.points_
      = [⟨⟨false, 3141593, 6⟩, ⟨false, 25, 1⟩, ⟨false, 0, 0⟩, ⟨false, 5, 0⟩⟩] := by
  decide

theorem run_keeps_plain (call : StoreCall R) (d : TrajectoryData R)
    (hflag : d.has_extended_format_ = false) :
    (call.run d).state.has_extended_format_ = false := by
  cases call with
  | clear => rfl
  | addPoint point => exact hflag
  | insertPoint index point =>
    simp only [StoreCall.run, insertPoint]
    split <;> exact hflag
  | removePoint index =>
    simp only [StoreCall.run, removePoint]
    split <;> exact hflag
  | updatePoint index point =>
    simp only [StoreCall.run, updatePoint]
    split <;> exact hflag
  | movePoint index new_x new_y =>
    simp only [StoreCall.run, movePoint]
    split <;> exact hflag
  | updateVelocityRange start_index end_index velocity =>
    simp only [StoreCall.run, updateVelocityRange]
    split <;> exact hflag

theorem runStoreCalls_keeps_plain (calls : List (StoreCall R)) :
    ∀ d : TrajectoryData R, d.has_extended_format_ = false →
      (runStoreCalls calls d).has_extended_format_ = false := by
  induction calls with
  | nil => intro d h; exact h
  | cons call calls ih => intro d h; exact ih _ (run_keeps_plain call d h)

/-- The stores the claim C7 names have the extended-format flag unset: the
freshly constructed store, a cleared store, and a store loaded from a table
whose header has fewer than 8 fields, whatever the width of its data rows. -/
theorem plain_origins (stod : String → Option R) (d0 : TrajectoryData R)
    (header : List String) (rows : List (List String)) (hh : header.length < 8) :
    (construct : TrajectoryData R).has_extended_format_ = false ∧
    d0.clear.has_extended_format_ = false ∧
    (loadFromCSV stod d0 (header :: rows)).2.has_extended_format_ = false := by
  refine ⟨rfl, rfl, ?_⟩
  rw [loadFromCSV_cons]
  have h8 : ¬ (8 ≤ header.length) := by omega
  simp [(loadFromCSV_fold_flag stod rows _).1, h8]

/-- C7. A plain document never emits extra columns: for every store whose
extended-format flag is not set, after any sequence of mutator calls
(`clear`, `addPoint`, `insertPoint`, `removePoint`, `updatePoint`,
`movePoint`, `updateVelocityRange`, raising calls included), every row of the
table `saveToCSV` writes, the header row included, has exactly 4 fields. -/
theorem plain_document_rows (to_string : R → String) (d : TrajectoryData R)
    (calls : List (StoreCall R)) (hflag : d.has_extended_format_ = false) :
    ∀ row ∈ saveToCSV_csv_data to_string (runStoreCalls calls d), row.length = 4 := by
  have h := runStoreCalls_keeps_plain calls d hflag
  intro row hrow
  simp only [saveToCSV_csv_data, h, Bool.false_and, Bool.false_eq_true, if_false,
    List.mem_cons] at hrow
  rcases hrow with hrow | hrow
  · rw [hrow]; rfl
  · rw [saveToCSV_rows_plain to_string _ h, List.mem_map] at hrow
    obtain ⟨p, _, hp⟩ := hrow
    rw [← hp]; rfl

/-- Witness for C7: a store loaded from a file with a 4-field header and an
8-field data row, then edited by an insertion and a move. -/
theorem plain_document_rows_witness :
    (loadFromCSV stod_int construct
        [["x", "y", "z", "v"], ["0", "0", "0", "a1", "a2", "a3", "a4", "1"]]).2.has_extended_format_
      = false ∧
    ∀ row ∈ saveToCSV_csv_data to_string_int
        (runStoreCalls [.insertPoint 0 ⟨1, 1, 0, 5⟩, .movePoint 1 7 7]
          (loadFromCSV stod_int construct
            [["x", "y", "z", "v"], ["0", "0", "0", "a1", "a2", "a3", "a4", "1"]]).2),
      row.length = 4 :=
  ⟨by decide,
   plain_document_rows to_string_int
    (loadFromCSV stod_int construct
      [["x", "y", "z", "v"], ["0", "0", "0", "a1", "a2", "a3", "a4", "1"]]).2
    [.insertPoint 0 ⟨1, 1, 0, 5⟩, .movePoint 1 7 7] (by decide)⟩

/-- C2, evaluated on `example_store_8` (three points loaded with the extra
columns `a1..a4`, `b1..b4` and `c1..c4`): a `RemovePointCommand` for index 0,
captured from the store, is executed through the history and returns
normally. `removePoint` erases `points_[0]` and leaves
`original_extra_columns_` alone, so the two surviving points, loaded from the
rows `1,1,1,b1,b2,b3,b4,2` and `2,2,2,c1,c2,c3,c4,3`, are saved with the
pass-through fields `a1..a4` and `b1..b4`. -/
theorem remove_then_save_misattributes_extra_columns :
    (EditCommand.RemovePointCommand 0 ⟨0, 0, 0, 1⟩).capturedFrom example_store_8 = true ∧
    (EditHistory.construct.executeCommand (.RemovePointCommand 0 ⟨0, 0, 0, 1⟩)
        example_store_8).isReturned = true ∧
    saveToCSV_csv_data to_string_int
        (EditHistory.construct.executeCommand (.RemovePointCommand 0 ⟨0, 0, 0, 1⟩)
          example_store_8).state.2
      = [["x", "y", "z", "qx", "qy", "qz", "qw", "speed"],
         ["1.000000", "1.000000", "1.000000", "a1", "a2", "a3", "a4", "2.000000"],
         ["2.000000", "2.000000", "2.000000", "b1", "b2", "b3", "b4", "3.000000"]] := by
  decide

/-- C3, evaluated on `example_store_8`, where the extra-columns list and the
point list both have length 3: `insertPoint(1, p)` and `removePoint(0)` return
normally and change the length of the point list only. -/
theorem insert_remove_break_extra_columns_length :
    example_store_8.original_extra_columns_.length = example_store_8.points_.length ∧
    (example_store_8.insertPoint 1 ⟨9, 9, 0, 4⟩).isReturned = true ∧
    (example_store_8.insertPoint 1 ⟨9, 9, 0, 4⟩).state.points_.length = 4 ∧
    (example_store_8.insertPoint 1 ⟨9, 9, 0, 4⟩).state.original_extra_columns_.length = 3 ∧
    (example_store_8.removePoint 0).isReturned = true ∧
    (example_store_8.removePoint 0).state.points_.length = 2 ∧
    (example_store_8.removePoint 0).state.original_extra_columns_.length = 3 := by
  decide

/-- C6, evaluated on `example_store_8` (header and data rows of 8 fields):
after the successful `insertPoint(1, p)` the saved table still starts with
the preserved header, but its last data row has 4 fields; the inserted point
and the point after it are written with the pass-through fields `b1..b4` and
`c1..c4` of the points they displaced. -/
theorem insert_then_save_emits_short_row :
    (example_store_8.insertPoint 1 ⟨9, 9, 0, 4⟩).isReturned = true ∧
    saveToCSV_csv_data to_string_int (example_store_8.insertPoint 1 ⟨9, 9, 0, 4⟩).state
      = [["x", "y", "z", "qx", "qy", "qz", "qw", "speed"],
         ["0.000000", "0.000000", "0.000000", "a1", "a2", "a3", "a4", "1.000000"],
         ["9.000000", "9.000000", "0.000000", "b1", "b2", "b3", "b4", "4.000000"],
         ["1.000000", "1.000000", "1.000000", "c1", "c2", "c3", "c4", "2.000000"],
         ["2.000000", "2.000000", "2.000000", "3.000000"]] := by
  decide

end CsvClaims


section StoreContracts

variable {R : Type}

open TrajectoryData

theorem insertIdx_eq_take_drop {α : Type} (a : α) :
    ∀ (l : List α) (i : Nat), i ≤ l.length →
      List.insertIdx i a l = l.take i ++ a :: l.drop i := by
  intro l
  induction l with
  | nil =>
    intro i hi
    have h0 : i = 0 := by simpa using hi
    subst h0
    rfl
  | cons b t ih =>
    intro i hi
    cases i with
    | zero => rfl
    | succ i =>
      have hi' : i ≤ t.length := by simpa using hi
      rw [List.insertIdx_succ_cons, ih i hi']
      rfl

theorem modify_eq_set {α : Type} (f : α → α) (l : List α) (i : Nat) (hi : i < l.length) :
    List.modify f i l = l.set i (f l[i]) := by
  apply List.ext_getElem?
  intro j
  rw [List.getElem?_modify, List.getElem?_set]
  by_cases hij : i = j
  · subst hij
    simp [hi, List.getElem?_eq_getElem hi]
  · simp only [hij, if_false]
    cases l[j]? <;> rfl

theorem foldl_modify_range'_eq_mapIdx {α : Type} (f : α → α) (s e : Nat) (l : List α)
    (hse : s ≤ e) :
    (List.range' s (e + 1 - s)).foldl (fun pts i => List.modify f i pts) l
      = l.mapIdx (fun j a => if s ≤ j ∧ j ≤ e then f a else a) := by
  apply List.ext_getElem?
  intro j
  rw [foldl_modify_range', List.getElem?_mapIdx]
  cases l[j]? with
  | none => rfl
  | some a =>
    by_cases h : s ≤ j ∧ j ≤ e
    · have h' : s ≤ j ∧ j < s + (e + 1 - s) := by omega
      simp [h, h']
    · have h' : ¬ (s ≤ j ∧ j < s + (e + 1 - s)) := by omega
      simp [h, h']

/-- C13. `insertPoint` contract: for every store, index and point,
`insertPoint(index, point)` returns normally exactly when
`index <= size()`; it then leaves the points before `index`, the new point,
and the points from `index` on, in that order (with the modified flag set),
so that `index = size()` appends and `index = 0` prepends; when
`index > size()` it raises `"Index out of range"` and leaves the store as it
was. -/
theorem insertPoint_contract (d : TrajectoryData R) (index : Nat) (point : TrajectoryPoint R) :
    d.insertPoint index point =
      (if index ≤ d.size then
        .returned { d with points_ := d.points_.take index ++ point :: d.points_.drop index,
                           is_modified_ := true }
      else .raised "Index out of range" d) ∧
    ((d.insertPoint index point).isReturned = true ↔ index ≤ d.size) ∧
    d.insertPoint d.size point
      = .returned { d with points_ := d.points_ ++ [point], is_modified_ := true } ∧
    d.insertPoint 0 point
      = .returned { d with points_ := point :: d.points_, is_modified_ := true } := by
  refine ⟨?_, ?_, ?_, ?_⟩
  · unfold insertPoint size
    by_cases h : index ≤ d.points_.length
    · rw [if_neg (by omega), if_pos h, insertIdx_eq_take_drop point d.points_ index h]
    · rw [if_pos (by omega), if_neg h]
  · unfold insertPoint size
    by_cases h : index ≤ d.points_.length
    · rw [if_neg (by omega)]; simp [Outcome.isReturned, h]
    · rw [if_pos (by omega)]; simp [Outcome.isReturned, h]
  · unfold insertPoint size
    rw [if_neg (by omega), insertIdx_eq_take_drop point d.points_ _ (Nat.le_refl _)]
    simp
  · unfold insertPoint
    rw [if_neg (by omega)]
    rfl

/-- C14. `removePoint` contract: for every store and index,
`removePoint(index)` returns normally exactly when `index < size()`; it then
leaves the points before `index` followed by the points after `index`, each
of the latter one position lower (with the modified flag set); for every
`index >= size()`, in particular `index = size()`, it raises
`"Index out of range"` and leaves the store, its point sequence and modified
flag included, as it was. -/
theorem removePoint_contract (d : TrajectoryData R) (index : Nat) :
    d.removePoint index =
      (if index < d.size then
        .returned { d with points_ := d.points_.take index ++ d.points_.drop (index + 1),
                           is_modified_ := true }
      else .raised "Index out of range" d) ∧
    ((d.removePoint index).isReturned = true ↔ index < d.size) ∧
    (∀ j, (d.removePoint index).state.points_[j]? =
      if index < d.size then (if j < index then d.points_[j]? else d.points_[j + 1]?)
      else d.points_[j]?) ∧
    d.removePoint d.size = .raised "Index out of range" d := by
  have hform : d.removePoint index =
      (if index < d.size then
        .returned { d with points_ := d.points_.take index ++ d.points_.drop (index + 1),
                           is_modified_ := true }
      else .raised "Index out of range" d) := by
    unfold removePoint isValidIndex size
    by_cases h : index < d.points_.length
    · simp [h, List.eraseIdx_eq_take_drop_succ]
    · simp [h]
  refine ⟨hform, ?_, ?_, ?_⟩
  · rw [hform]
    by_cases h : index < d.size <;> simp [h, Outcome.isReturned]
  · intro j
    rw [hform]
    by_cases h : index < d.size
    · simp only [h, if_true, Outcome.state, ← List.eraseIdx_eq_take_drop_succ,
        List.getElem?_eraseIdx]
    · simp only [h, if_false, Outcome.state]
  · unfold removePoint isValidIndex size
    simp

/-- C16. `updateVelocityRange` contract: for every store, start, end and
value, `updateVelocityRange(start, end, value)` returns normally exactly when
`start <= end` and `end < size()`; it then leaves every point with index in
`[start, end]` with velocity `value` and its x, y, z as they were, and every
point outside the range as it was (with the modified flag set); otherwise it
raises `"Invalid range"` and leaves the store, points and modified flag
included, as it was. -/
theorem updateVelocityRange_contract (d : TrajectoryData R) (start_index end_index : Nat)
    (velocity : R) :
    d.updateVelocityRange start_index end_index velocity =
      (if start_index ≤ end_index ∧ end_index < d.size then
        .returned { d with
          points_ := d.points_.mapIdx (fun j p =>
            if start_index ≤ j ∧ j ≤ end_index then
              ({ x := p.x, y := p.y, z := p.z, velocity := velocity } : TrajectoryPoint R)
            else p),
          is_modified_ := true }
      else .raised "Invalid range" d) ∧
    ((d.updateVelocityRange start_index end_index velocity).isReturned = true
      ↔ start_index ≤ end_index ∧ end_index < d.size) := by
  have hform : d.updateVelocityRange start_index end_index velocity =
      (if start_index ≤ end_index ∧ end_index < d.size then
        .returned { d with
          points_ := d.points_.mapIdx (fun j p =>
            if start_index ≤ j ∧ j ≤ end_index then
              ({ x := p.x, y := p.y, z := p.z, velocity := velocity } : TrajectoryPoint R)
            else p),
          is_modified_ := true }
      else .raised "Invalid range" d) := by
    unfold updateVelocityRange size
    by_cases h : start_index ≤ end_index ∧ end_index < d.points_.length
    · have h1 : ¬ (start_index ≥ d.points_.length ∨ end_index ≥ d.points_.length
          ∨ start_index > end_index) := by omega
      rw [if_neg h1, if_pos h, foldl_modify_range'_eq_mapIdx _ _ _ _ h.1]
    · have h1 : start_index ≥ d.points_.length ∨ end_index ≥ d.points_.length
          ∨ start_index > end_index := by omega
      rw [if_pos h1, if_neg h]
  refine ⟨hform, ?_⟩
  rw [hform]
  by_cases h : start_index ≤ end_index ∧ end_index < d.size <;> simp [h, Outcome.isReturned]

end StoreContracts


section ExecuteThenUndo

variable {R : Type}

open TrajectoryData

/-- After `executeCommand` appended a command to a history whose cap is at
least one, the cursor is positive and the command just below the cursor is the
appended one, whether or not older commands were trimmed. -/
theorem trimHistory_last (pre : List (EditCommand R)) (c : EditCommand R) (m : Nat)
    (hm : 1 ≤ m) :
    ∃ k, (EditHistory.trimHistory ⟨pre ++ [c], (pre ++ [c]).length, m⟩).current_index_ = k + 1 ∧
      (EditHistory.trimHistory ⟨pre ++ [c], (pre ++ [c]).length, m⟩).commands_[k]? = some c := by
  unfold EditHistory.trimHistory
  by_cases h : (pre ++ [c]).length > m
  · simp only [h, if_true]
    have hlen : (pre ++ [c]).length = pre.length + 1 := by simp
    have hgt : (pre ++ [c]).length > (pre ++ [c]).length - m := by omega
    refine ⟨m - 1, ?_, ?_⟩
    · simp only [hgt, if_true]; omega
    · rw [List.getElem?_drop]
      have e : (pre ++ [c]).length - m + (m - 1) = pre.length := by omega
      rw [e, List.getElem?_concat_length]
  · simp only [h, if_false]
    exact ⟨pre.length, by simp, List.getElem?_concat_length pre c⟩

/-- Executing a command through a history with cap at least one and calling
`undo` right after runs the command's `execute` and then its `undo`. -/
theorem executeCommand_then_undo (h : EditHistory R) (c : EditCommand R)
    (d d1 d2 : TrajectoryData R) (hm : 1 ≤ h.max_history_size_)
    (hx : c.execute d = .returned d1) (hu : c.undo d1 = .returned d2) :
    ∃ h1, h.executeCommand c d = .returned (h1, d1) ∧
      h1.undo d1 = .returned ({ h1 with current_index_ := h1.current_index_ - 1 }, d2) := by
  obtain ⟨k, hk, hget⟩ := trimHistory_last (h.commands_.take h.current_index_) c
    h.max_history_size_ hm
  have hexec : h.executeCommand c d = .returned
      (EditHistory.trimHistory ⟨h.commands_.take h.current_index_ ++ [c],
        (h.commands_.take h.current_index_ ++ [c]).length, h.max_history_size_⟩, d1) := by
    unfold EditHistory.executeCommand
    simp only [hx]
  refine ⟨_, hexec, ?_⟩
  unfold EditHistory.undo
  simp only [EditHistory.canUndo, hk, Nat.add_sub_cancel, hget, hu, gt_iff_lt,
    Nat.zero_lt_succ, decide_True, if_true]

end ExecuteThenUndo


section CommandClaims

variable {R : Type}

open TrajectoryData

/-- C11. Range-velocity undo restores non-uniform values: for every store and
every `start <= end < size` (indices being `size_t` values), let
`old_velocities` be the velocities of `points[start..end]` captured before
execution. `ChangeRangeVelocityCommand(start, end, old_velocities, v)` then
runs normally and sets the velocity of every point in the range to `v`; its
`undo` runs normally, restores every point of the range to its own original
velocity and leaves the whole point sequence equal to the original. The same
holds when the command is executed and undone through any `EditHistory` whose
cap is at least one. -/
theorem range_velocity_undo_restores (h : EditHistory R) (d : TrajectoryData R)
    (start_index end_index : Nat) (old_velocities : List R) (v : R)
    (hm : 1 ≤ h.max_history_size_)
    (hse : start_index ≤ end_index) (he : end_index < d.size)
    (he64 : end_index < SIZE_T_MODULUS)
    (hold : old_velocities =
      ((d.points_.drop start_index).take (end_index + 1 - start_index)).map
        (fun p => p.velocity)) :
    ∃ d1 d2,
      (EditCommand.ChangeRangeVelocityCommand start_index end_index old_velocities v).execute d
        = .returned d1 ∧
      (∀ i, start_index ≤ i → i ≤ end_index →
        (d1.points_[i]?).map (fun p => p.velocity) = some v) ∧
      (EditCommand.ChangeRangeVelocityCommand start_index end_index old_velocities v).undo d1
        = .returned d2 ∧
      (∀ i, start_index ≤ i → i ≤ end_index →
        (d2.points_[i]?).map (fun p => p.velocity)
          = (d.points_[i]?).map (fun p => p.velocity)) ∧
      d2.points_ = d.points_ ∧
      ∃ h1, h.executeCommand
          (.ChangeRangeVelocityCommand start_index end_index old_velocities v) d
          = .returned (h1, d1) ∧
        h1.undo d1 = .returned ({ h1 with current_index_ := h1.current_index_ - 1 }, d2) := by
  classical
  have hc : (EditCommand.ChangeRangeVelocityCommand start_index end_index old_velocities
      v).capturedFrom d = true := by
    simp only [EditCommand.capturedFrom, decide_eq_true_eq]
    exact ⟨hse, he, he64, hold⟩
  have hx := execute_of_captured _ d d hc rfl
  have hu := undo_of_captured _ d _ hc (rfl : ({ d with
    points_ := ((EditCommand.ChangeRangeVelocityCommand start_index end_index old_velocities
      v).execute d).state.points_, is_modified_ := true } : TrajectoryData R).points_ = _)
  have hcontract := (updateVelocityRange_contract d start_index end_index v).1
  rw [if_pos ⟨hse, he⟩] at hcontract
  have hpts : ((EditCommand.ChangeRangeVelocityCommand start_index end_index old_velocities
      v).execute d).state.points_ = d.points_.mapIdx (fun j p =>
        if start_index ≤ j ∧ j ≤ end_index then
          ({ x := p.x, y := p.y, z := p.z, velocity := v } : TrajectoryPoint R)
        else p) := by
    simp only [EditCommand.execute, hcontract, Outcome.state]
  refine ⟨_, _, hx, ?_, hu, ?_, rfl, executeCommand_then_undo h _ d _ _ hm hx hu⟩
  · intro i hi1 hi2
    have hlt : i < d.points_.length := by unfold size at he; omega
    simp only [hpts, List.getElem?_mapIdx, List.getElem?_eq_getElem hlt, Option.map_some',
      hi1, hi2, and_self, if_true]
  · intro i _ _
    rfl

/-- Witness for C11: the range 2..5 of `example_store_10` (velocities 13, 14,
15, 16) is set to 10 and restored. -/
theorem range_velocity_undo_restores_witness :
    (1 : Nat) ≤ (EditHistory.construct : EditHistory Int).max_history_size_ ∧
    2 ≤ 5 ∧ 5 < example_store_10.size ∧ 5 < SIZE_T_MODULUS ∧
    [13, 14, 15, 16] =
      ((example_store_10.points_.drop 2).take (5 + 1 - 2)).map (fun p => p.velocity) ∧
    ∃ d1 d2,
      (EditCommand.ChangeRangeVelocityCommand 2 5 [13, 14, 15, 16] 10).execute example_store_10
        = .returned d1 ∧
      (∀ i, 2 ≤ i → i ≤ 5 → (d1.points_[i]?).map (fun p => p.velocity) = some 10) ∧
      (EditCommand.ChangeRangeVelocityCommand 2 5 [13, 14, 15, 16] 10).undo d1
        = .returned d2 ∧
      (∀ i, 2 ≤ i → i ≤ 5 →
        (d2.points_[i]?).map (fun p => p.velocity)
          = (example_store_10.points_[i]?).map (fun p => p.velocity)) ∧
      d2.points_ = example_store_10.points_ ∧
      ∃ h1, EditHistory.construct.executeCommand
          (.ChangeRangeVelocityCommand 2 5 [13, 14, 15, 16] 10) example_store_10
          = .returned (h1, d1) ∧
        h1.undo d1 = .returned ({ h1 with current_index_ := h1.current_index_ - 1 }, d2) :=
  ⟨by decide, by decide, by decide, by decide, by decide,
   range_velocity_undo_restores EditHistory.construct example_store_10 2 5 [13, 14, 15, 16] 10
     (by decide) (by decide) (by decide) (by decide) (by decide)⟩

/-- C12. `AddPointCommand` apply/invert is an inverse pair: for every store,
every index with `0 <= index <= size` and every point,
`AddPointCommand::execute` returns normally with one point more, and
`AddPointCommand::undo` called next returns normally and restores the point
count and the whole point sequence to their values before the execute. -/
theorem addPoint_execute_undo (d : TrajectoryData R) (index : Nat) (point : TrajectoryPoint R)
    (hi : index ≤ d.size) :
    ∃ d1 d2,
      (EditCommand.AddPointCommand index point).execute d = .returned d1 ∧
      d1.size = d.size + 1 ∧
      (EditCommand.AddPointCommand index point).undo d1 = .returned d2 ∧
      d2.size = d.size ∧ d2.points_ = d.points_ := by
  unfold size at hi
  have hlen := List.length_insertIdx (a := point) index d.points_ hi
  refine ⟨{ d with points_ := d.points_.insertIdx index point, is_modified_ := true },
    { d with is_modified_ := true }, ?_, ?_, ?_, rfl, rfl⟩
  · simp [EditCommand.execute, insertPoint, Nat.not_lt.mpr hi]
  · simp [size, hlen]
  · have hlt : index < (List.insertIdx index point d.points_).length := by omega
    simp [EditCommand.undo, removePoint, isValidIndex, hlt, List.eraseIdx_insertIdx]

/-- Witness for C12: a point is added in the middle of `example_store_3` and
the addition is inverted. -/
theorem addPoint_execute_undo_witness :
    1 ≤ example_store_3.size ∧
    ∃ d1 d2,
      (EditCommand.AddPointCommand 1 ⟨8, 8, 0, 4⟩).execute example_store_3 = .returned d1 ∧
      d1.size = example_store_3.size + 1 ∧
      (EditCommand.AddPointCommand 1 ⟨8, 8, 0, 4⟩).undo d1 = .returned d2 ∧
      d2.size = example_store_3.size ∧ d2.points_ = example_store_3.points_ :=
  ⟨by decide, addPoint_execute_undo example_store_3 1 ⟨8, 8, 0, 4⟩ (by decide)⟩

/-- C15. `MovePointCommand` changes only x and y: for every store, every valid
index `i` and every `EditHistory` whose cap is at least one, executing
`MovePointCommand(i, oldX, oldY, newX, newY)` through the history returns
normally and leaves the point sequence equal to the old one except that
`points[i]` has x and y equal to `newX` and `newY`, its z and velocity being
the old ones; `undo` called next returns normally and leaves the point
sequence equal to the original one except that `points[i]` has x and y equal
to `oldX` and `oldY`. -/
theorem movePoint_frame (h : EditHistory R) (d : TrajectoryData R) (i : Nat)
    (old_x old_y new_x new_y : R) (hm : 1 ≤ h.max_history_size_)
    (hi : i < d.points_.length) :
    ∃ h1 d1 d2,
      h.executeCommand (.MovePointCommand i old_x old_y new_x new_y) d = .returned (h1, d1) ∧
      d1.points_ = d.points_.set i
        { x := new_x, y := new_y, z := d.points_[i].z, velocity := d.points_[i].velocity } ∧
      h1.undo d1 = .returned ({ h1 with current_index_ := h1.current_index_ - 1 }, d2) ∧
      d2.points_ = d.points_.set i
        { x := old_x, y := old_y, z := d.points_[i].z, velocity := d.points_[i].velocity } := by
  have hx : (EditCommand.MovePointCommand i old_x old_y new_x new_y).execute d
      = .returned { d with
          points_ := d.points_.set i
            { x := new_x, y := new_y, z := d.points_[i].z, velocity := d.points_[i].velocity },
          is_modified_ := true } := by
    simp [EditCommand.execute, movePoint, isValidIndex, hi, modify_eq_set _ _ _ hi]
  have hu : (EditCommand.MovePointCommand i old_x old_y new_x new_y).undo
      { d with
          points_ := d.points_.set i
            { x := new_x, y := new_y, z := d.points_[i].z, velocity := d.points_[i].velocity },
          is_modified_ := true }
      = .returned { d with
          points_ := d.points_.set i
            { x := old_x, y := old_y, z := d.points_[i].z, velocity := d.points_[i].velocity },
          is_modified_ := true } := by
    have hi2 : i < (d.points_.set i
        { x := new_x, y := new_y, z := d.points_[i].z,
          velocity := d.points_[i].velocity }).length := by simpa using hi
    simp [EditCommand.undo, movePoint, isValidIndex, hi, modify_eq_set _ _ _ hi2]
  obtain ⟨h1, he, hun⟩ := executeCommand_then_undo h _ d _ _ hm hx hu
  exact ⟨h1, _, _, he, rfl, hun, rfl⟩

/-- Witness for C15: the scenario of the specification. On the store
`[(0,0,0,5), (1,1,0,5), (2,2,0,5)]`, `MovePointCommand(1, 1,1, 9,9)` leaves
`points[1] = (9,9,0,5)` and `undo` leaves `points[1] = (1,1,0,5)`, the other
points being untouched. -/
theorem movePoint_frame_witness :
    (1 : Nat) ≤ (EditHistory.construct : EditHistory Int).max_history_size_ ∧
    1 < example_store_scenario.points_.length ∧
    ∃ h1 d1 d2,
      EditHistory.construct.executeCommand (.MovePointCommand 1 1 1 9 9) example_store_scenario
        = .returned (h1, d1) ∧
      d1.points_ = [⟨0, 0, 0, 5⟩, ⟨9, 9, 0, 5⟩, ⟨2, 2, 0, 5⟩] ∧
      h1.undo d1 = .returned ({ h1 with current_index_ := h1.current_index_ - 1 }, d2) ∧
      d2.points_ = [⟨0, 0, 0, 5⟩, ⟨1, 1, 0, 5⟩, ⟨2, 2, 0, 5⟩] :=
  ⟨by decide, by decide,
   movePoint_frame EditHistory.construct example_store_scenario 1 1 1 9 9
     (by decide) (by decide)⟩

end CommandClaims


section InvalidIndex

variable {R : Type}

open TrajectoryData

/-- The loop of `ChangeRangeVelocityCommand::undo` never raises: every
`updatePoint` it calls is guarded by `point_index < points.size()`. -/
theorem undoRangeLoop_isReturned (s e : Nat) :
    ∀ (rest : List R) (i : Nat) (data : TrajectoryData R),
      (EditCommand.undoRangeLoop s e rest i data).isReturned = true := by
  intro rest
  induction rest with
  | nil => intro i data; rfl
  | cons ov rest ih =>
    intro i data
    rw [EditCommand.undoRangeLoop]
    split
    · dsimp only
      split
      · rename_i hlt
        simp only [getPoints] at hlt
        simp only [updatePoint, isValidIndex, hlt, decide_True, Bool.not_true,
          Bool.false_eq_true, if_false]
        exact ih _ _
      · exact ih _ _
    · rfl

/-- When no index `start_index_ + i` of the loop lies in the store (and none
wraps around), the loop of `ChangeRangeVelocityCommand::undo` leaves the store
as it is. -/
theorem undoRangeLoop_beyond (s e : Nat) (data : TrajectoryData R) (hs : data.size ≤ s) :
    ∀ (rest : List R) (i : Nat), s + i + rest.length ≤ SIZE_T_MODULUS →
      EditCommand.undoRangeLoop s e rest i data = .returned data := by
  intro rest
  induction rest with
  | nil => intro i _; rfl
  | cons ov rest ih =>
    intro i hlen
    simp only [List.length_cons] at hlen
    have hmod : (s + i) % SIZE_T_MODULUS = s + i := Nat.mod_eq_of_lt (by omega)
    have hge : ¬ (s + i < data.getPoints.length) := by
      unfold size at hs
      simp only [getPoints]
      omega
    rw [EditCommand.undoRangeLoop]
    simp only [hmod, hge, dite_false]
    split
    · exact ih (i + 1) (by omega)
    · rfl

/-- Counterexample to C17 as stated, on the three-point store
`example_store_3`: the `undo` of a `ChangeVelocityCommand` for index 5 and the
`undo` of a `ChangeRangeVelocityCommand` for the range 5..6 return normally,
leaving the store as it is; so does the `undo` of a `RemovePointCommand` for
index 3, which appends the point. -/
theorem undo_invalid_index_counterexample :
    example_store_3.size = 3 ∧
    (EditCommand.ChangeVelocityCommand 5 5 9).undo example_store_3
      = .returned example_store_3 ∧
    (EditCommand.ChangeRangeVelocityCommand 5 6 [5, 6] 9).undo example_store_3
      = .returned example_store_3 ∧
    ((EditCommand.RemovePointCommand 3 ⟨3, 3, 0, 8⟩).undo example_store_3).isReturned = true := by
  decide

/-- C17, amended. For every store: the `undo` of a `MovePointCommand` or of an
`AddPointCommand` with `index >= size`, and the `undo` of a
`RemovePointCommand` (an insertion) with `index > size`, raise
`"Index out of range"` and leave the store as it is. The `undo` of a
`ChangeVelocityCommand` with `index >= size` is guarded: it returns normally
and leaves the store as it is. The `undo` of a `ChangeRangeVelocityCommand`
never raises, and leaves the store as it is when `start >= size` (the sums
`start + i` staying below `2 ^ 64`). -/
theorem undo_at_invalid_index (d : TrajectoryData R) :
    (∀ i old_x old_y new_x new_y, d.size ≤ i →
      (EditCommand.MovePointCommand i old_x old_y new_x new_y).undo d
        = .raised "Index out of range" d) ∧
    (∀ i point, d.size ≤ i →
      (EditCommand.AddPointCommand i point).undo d = .raised "Index out of range" d) ∧
    (∀ i point, d.size < i →
      (EditCommand.RemovePointCommand i point).undo d = .raised "Index out of range" d) ∧
    (∀ i old_velocity new_velocity, d.size ≤ i →
      (EditCommand.ChangeVelocityCommand i old_velocity new_velocity).undo d = .returned d) ∧
    (∀ start_index end_index old_velocities new_velocity,
      ((EditCommand.ChangeRangeVelocityCommand start_index end_index old_velocities
        new_velocity).undo d).isReturned = true) ∧
    (∀ start_index end_index old_velocities new_velocity, d.size ≤ start_index →
      start_index + old_velocities.length ≤ SIZE_T_MODULUS →
      (EditCommand.ChangeRangeVelocityCommand start_index end_index old_velocities
        new_velocity).undo d = .returned d) := by
  refine ⟨?_, ?_, ?_, ?_, ?_, ?_⟩
  · intro i ox oy nx ny hi
    unfold size at hi
    simp [EditCommand.undo, movePoint, isValidIndex, Nat.not_lt.mpr hi]
  · intro i p hi
    unfold size at hi
    simp [EditCommand.undo, removePoint, isValidIndex, Nat.not_lt.mpr hi]
  · intro i p hi
    unfold size at hi
    simp [EditCommand.undo, insertPoint, hi]
  · intro i ov nv hi
    unfold size at hi
    simp [EditCommand.undo, EditCommand.changeVelocity, getPoints, Nat.not_lt.mpr hi]
  · intro s e olds nv
    exact undoRangeLoop_isReturned s e olds 0 d
  · intro s e olds nv hs hlen
    exact undoRangeLoop_beyond s e d hs olds 0 (by omega)

/-- Witness for C17, amended, on the three-point store `example_store_3`. -/
theorem undo_at_invalid_index_witness :
    (EditCommand.MovePointCommand 3 0 0 9 9).undo example_store_3
      = .raised "Index out of range" example_store_3 ∧
    (EditCommand.AddPointCommand 3 ⟨3, 3, 0, 8⟩).undo example_store_3
      = .raised "Index out of range" example_store_3 ∧
    (EditCommand.RemovePointCommand 4 ⟨3, 3, 0, 8⟩).undo example_store_3
      = .raised "Index out of range" example_store_3 ∧
    (EditCommand.ChangeVelocityCommand 3 5 9).undo example_store_3
      = .returned example_store_3 ∧
    ((EditCommand.ChangeRangeVelocityCommand 1 4 [6, 7, 8, 9] 9).undo
      example_store_3).isReturned = true ∧
    (EditCommand.ChangeRangeVelocityCommand 3 4 [8, 9] 9).undo example_store_3
      = .returned example_store_3 :=
  ⟨(undo_at_invalid_index example_store_3).1 3 0 0 9 9 (by decide),
   (undo_at_invalid_index example_store_3).2.1 3 ⟨3, 3, 0, 8⟩ (by decide),
   (undo_at_invalid_index example_store_3).2.2.1 4 ⟨3, 3, 0, 8⟩ (by decide),
   (undo_at_invalid_index example_store_3).2.2.2.1 3 5 9 (by decide),
   (undo_at_invalid_index example_store_3).2.2.2.2.1 1 4 [6, 7, 8, 9] 9,
   (undo_at_invalid_index example_store_3).2.2.2.2.2 3 4 [8, 9] 9 (by decide) (by decide)⟩

/-- Counterexample to C18 as stated, on the three-point store
`example_store_3`: `executeCommand` of a `ChangeVelocityCommand` for index 5
returns normally, leaves the store as it is, and records the command, which
`canUndo()` then reports as undoable. -/
theorem execute_invalid_index_counterexample :
    example_store_3.size = 3 ∧
    EditHistory.construct.executeCommand (.ChangeVelocityCommand 5 5 9) example_store_3
      = .returned
          ({ commands_ := [.ChangeVelocityCommand 5 5 9], current_index_ := 1,
             max_history_size_ := 50 }, example_store_3) ∧
    (EditHistory.construct.executeCommand (.ChangeVelocityCommand 5 5 9)
      example_store_3).state.1.canUndo = true := by
  decide

/-- C18, amended. For every history and store: `executeCommand` of a
`MovePointCommand` or `RemovePointCommand` with `index >= size`, of an
`AddPointCommand` with `index > size`, or of a `ChangeRangeVelocityCommand`
with `start >= size` or `end >= size`, raises an out-of-range error to its
caller, leaves the store as it is and does not record the command: the command
list is the previous undoable part `commands_[0..cursor)` and the cursor is
unchanged. `executeCommand` of a `ChangeVelocityCommand` with
`index >= size`, whose `execute` is guarded, returns normally, leaves the
store as it is and records the command. -/
theorem executeCommand_at_invalid_index (h : EditHistory R) (d : TrajectoryData R) :
    (∀ i old_x old_y new_x new_y, d.size ≤ i →
      h.executeCommand (.MovePointCommand i old_x old_y new_x new_y) d
        = .raised "Index out of range"
            ({ h with commands_ := h.commands_.take h.current_index_ }, d)) ∧
    (∀ i point, d.size ≤ i →
      h.executeCommand (.RemovePointCommand i point) d
        = .raised "Index out of range"
            ({ h with commands_ := h.commands_.take h.current_index_ }, d)) ∧
    (∀ i point, d.size < i →
      h.executeCommand (.AddPointCommand i point) d
        = .raised "Index out of range"
            ({ h with commands_ := h.commands_.take h.current_index_ }, d)) ∧
    (∀ start_index end_index old_velocities new_velocity,
      d.size ≤ start_index ∨ d.size ≤ end_index →
      h.executeCommand
          (.ChangeRangeVelocityCommand start_index end_index old_velocities new_velocity) d
        = .raised "Invalid range"
            ({ h with commands_ := h.commands_.take h.current_index_ }, d)) ∧
    (∀ i old_velocity new_velocity, d.size ≤ i →
      h.executeCommand (.ChangeVelocityCommand i old_velocity new_velocity) d
        = .returned
            (EditHistory.trimHistory
              ⟨h.commands_.take h.current_index_
                  ++ [EditCommand.ChangeVelocityCommand i old_velocity new_velocity],
                (h.commands_.take h.current_index_
                  ++ [EditCommand.ChangeVelocityCommand i old_velocity new_velocity]).length,
                h.max_history_size_⟩, d)) := by
  refine ⟨?_, ?_, ?_, ?_, ?_⟩
  · intro i ox oy nx ny hi
    unfold size at hi
    simp [EditHistory.executeCommand, EditCommand.execute, movePoint, isValidIndex,
      Nat.not_lt.mpr hi]
  · intro i p hi
    unfold size at hi
    simp [EditHistory.executeCommand, EditCommand.execute, removePoint, isValidIndex,
      Nat.not_lt.mpr hi]
  · intro i p hi
    unfold size at hi
    simp [EditHistory.executeCommand, EditCommand.execute, insertPoint, hi]
  · intro s e olds nv hi
    unfold size at hi
    have h1 : s ≥ d.points_.length ∨ e ≥ d.points_.length ∨ s > e := by omega
    simp only [EditHistory.executeCommand, EditCommand.execute, updateVelocityRange, h1,
      if_true]
  · intro i ov nv hi
    unfold size at hi
    simp [EditHistory.executeCommand, EditCommand.execute, EditCommand.changeVelocity,
      getPoints, Nat.not_lt.mpr hi]

/-- Witness for C18, amended, on the default history and the three-point store
`example_store_3`. -/
theorem executeCommand_at_invalid_index_witness :
    EditHistory.construct.executeCommand (.MovePointCommand 3 0 0 9 9) example_store_3
      = .raised "Index out of range" (EditHistory.construct, example_store_3) ∧
    EditHistory.construct.executeCommand (.RemovePointCommand 3 ⟨3, 3, 0, 8⟩) example_store_3
      = .raised "Index out of range" (EditHistory.construct, example_store_3) ∧
    EditHistory.construct.executeCommand (.AddPointCommand 4 ⟨3, 3, 0, 8⟩) example_store_3
      = .raised "Index out of range" (EditHistory.construct, example_store_3) ∧
    EditHistory.construct.executeCommand (.ChangeRangeVelocityCommand 1 3 [6, 7] 9)
        example_store_3
      = .raised "Invalid range" (EditHistory.construct, example_store_3) ∧
    EditHistory.construct.executeCommand (.ChangeVelocityCommand 3 5 9) example_store_3
      = .returned
          ({ commands_ := [.ChangeVelocityCommand 3 5 9], current_index_ := 1,
             max_history_size_ := 50 }, example_store_3) :=
  ⟨(executeCommand_at_invalid_index EditHistory.construct example_store_3).1 3 0 0 9 9
      (by decide),
   (executeCommand_at_invalid_index EditHistory.construct example_store_3).2.1 3 ⟨3, 3, 0, 8⟩
      (by decide),
   (executeCommand_at_invalid_index EditHistory.construct example_store_3).2.2.1 4 ⟨3, 3, 0, 8⟩
      (by decide),
   (executeCommand_at_invalid_index EditHistory.construct example_store_3).2.2.2.1 1 3 [6, 7] 9
      (by decide),
   (executeCommand_at_invalid_index EditHistory.construct example_store_3).2.2.2.2 3 5 9
      (by decide)⟩

end InvalidIndex


section LoadDecoding

variable {R : Type}

open TrajectoryData

/-- The effect of one data row on the store, in terms of the decoding rule of
the specification. -/
theorem loadFromCSV_row_decode (stod : String → Option R) (d : TrajectoryData R)
    (row : List String) :
    loadFromCSV_row stod d row =
      match spec_decodeRow stod row with
      | none => d
      | some (point, none) => { d with points_ := d.points_ ++ [point] }
      | some (point, some extra_cols) =>
        { d with original_extra_columns_ := d.original_extra_columns_ ++ [extra_cols],
                 points_ := d.points_ ++ [point] } := by
  unfold loadFromCSV_row spec_decodeRow
  by_cases h4 : row.length ≥ 4
  · have h4' : ¬ (row.length < 4) := by omega
    simp only [h4, h4', if_true, if_false]
    cases stod (row.getD 0 "") with
    | none => rfl
    | some x =>
      cases stod (row.getD 1 "") with
      | none => rfl
      | some y =>
        cases stod (row.getD 2 "") with
        | none => rfl
        | some z =>
          by_cases h8 : row.length ≥ 8
          · have h8' : 8 ≤ row.length := h8
            simp only [h8, h8', if_true]
            cases stod (row.getD 7 "") with
            | none => rfl
            | some v => rfl
          · have h8' : ¬ (8 ≤ row.length) := h8
            simp only [h8, h8', if_false]
            cases stod (row.getD 3 "") with
            | none => rfl
            | some v => rfl
  · have h4' : row.length < 4 := by omega
    simp only [h4, h4', if_true, if_false]

theorem loadFromCSV_fold_decode (stod : String → Option R) (rows : List (List String)) :
    ∀ d : TrajectoryData R,
      rows.foldl (loadFromCSV_row stod) d =
        { d with
          points_ := d.points_ ++
            rows.filterMap (fun r => (spec_decodeRow stod r).map Prod.fst),
          original_extra_columns_ := d.original_extra_columns_ ++
            rows.filterMap (fun r => (spec_decodeRow stod r).bind Prod.snd) } := by
  induction rows with
  | nil => intro d; simp
  | cons r rows ih =>
    intro d
    rw [List.foldl_cons, ih, loadFromCSV_row_decode]
    cases hdec : spec_decodeRow stod r with
    | none => simp [hdec]
    | some pe =>
      obtain ⟨p, ex⟩ := pe
      cases ex with
      | none => simp [hdec]
      | some ex => simp [hdec]

/-- The whole result of `loadFromCSV` on a table with a first row. -/
theorem loadFromCSV_cons_decode (stod : String → Option R) (d0 : TrajectoryData R)
    (header : List String) (rows : List (List String)) :
    loadFromCSV stod d0 (header :: rows) =
      (!(rows.filterMap (fun r => (spec_decodeRow stod r).map Prod.fst)).isEmpty,
       { points_ := rows.filterMap (fun r => (spec_decodeRow stod r).map Prod.fst),
         is_modified_ := false,
         original_header_ := header,
         original_extra_columns_ :=
           rows.filterMap (fun r => (spec_decodeRow stod r).bind Prod.snd),
         has_extended_format_ := decide (8 ≤ header.length) }) := by
  have h2 := loadFromCSV_cons stod d0 header rows
  rw [loadFromCSV_fold_decode] at h2
  have h1 : (loadFromCSV stod d0 (header :: rows)).1
      = !(loadFromCSV stod d0 (header :: rows)).2.points_.isEmpty := by
    unfold loadFromCSV
    simp
  apply Prod.ext
  · rw [h1, h2]
    simp
  · rw [h2]
    simp

theorem filterMap_isEmpty {α β : Type} (f : α → Option β) (l : List α) :
    (l.filterMap f).isEmpty = !l.any (fun a => (f a).isSome) := by
  induction l with
  | nil => rfl
  | cons a l ih =>
    rw [List.filterMap_cons, List.any_cons]
    cases f a with
    | none => simpa using ih
    | some b => simp

/-- C19. Load decoding rule: for every parsed table with a first row,
`loadFromCSV` keeps row 0 as the header and goes through the later rows in
file order. A row with at least 4 fields whose x, y, z (fields 0..2) and
velocity field parse appends exactly one point: a row of at least 8 fields
takes the velocity from field 7 and appends fields 3..6 verbatim as one entry
of the extra-columns list, a row of 4 to 7 fields takes the velocity from
field 3 and appends no entry. Every other row (fewer than 4 fields, or an
unparseable x, y, z or velocity) changes nothing. The loaded points are thus
the decoded rows in file order, and the extra-columns entries those of the
decoded rows of at least 8 fields, in file order. -/
theorem load_decoding_rule (stod : String → Option R) (d0 : TrajectoryData R)
    (header : List String) (rows : List (List String)) :
    (∀ (d : TrajectoryData R) (row : List String),
      loadFromCSV_row stod d row =
        match spec_decodeRow stod row with
        | none => d
        | some (point, none) => { d with points_ := d.points_ ++ [point] }
        | some (point, some extra_cols) =>
          { d with original_extra_columns_ := d.original_extra_columns_ ++ [extra_cols],
                   points_ := d.points_ ++ [point] }) ∧
    (loadFromCSV stod d0 (header :: rows)).2.original_header_ = header ∧
    (loadFromCSV stod d0 (header :: rows)).2.points_
      = rows.filterMap (fun r => (spec_decodeRow stod r).map Prod.fst) ∧
    (loadFromCSV stod d0 (header :: rows)).2.original_extra_columns_
      = rows.filterMap (fun r => (spec_decodeRow stod r).bind Prod.snd) := by
  refine ⟨fun d row => loadFromCSV_row_decode stod d row, ?_, ?_, ?_⟩ <;>
    rw [loadFromCSV_cons_decode]

/-- C20. Load fails only on an empty result: for every parsed table (the empty
table standing for a missing file or a file without a non-blank line),
`loadFromCSV` returns `true` exactly when at least one row after the first
decodes to a point, however many other rows are skipped, and `false` exactly
when none does; in particular it returns `false` on the empty table and on a
table holding a header only. -/
theorem load_result (stod : String → Option R) (d0 : TrajectoryData R)
    (csv_data : List (List String)) :
    ((loadFromCSV stod d0 csv_data).1 = true
      ↔ ∃ r ∈ csv_data.drop 1, (spec_decodeRow stod r).isSome = true) ∧
    ((loadFromCSV stod d0 csv_data).1 = false
      ↔ ∀ r ∈ csv_data.drop 1, spec_decodeRow stod r = none) ∧
    (loadFromCSV stod d0 []).1 = false ∧
    (∀ header : List String, (loadFromCSV stod d0 [header]).1 = false) := by
  have hval : (loadFromCSV stod d0 csv_data).1
      = (csv_data.drop 1).any (fun r => (spec_decodeRow stod r).isSome) := by
    cases csv_data with
    | nil => rfl
    | cons header rows =>
      rw [loadFromCSV_cons_decode]
      simp only [List.drop_succ_cons, List.drop_zero]
      rw [filterMap_isEmpty]
      simp
  refine ⟨?_, ?_, rfl, ?_⟩
  · rw [hval, List.any_eq_true]
  · rw [hval]
    constructor
    · intro h r hr
      cases hdec : spec_decodeRow stod r with
      | none => rfl
      | some pe =>
        have : (csv_data.drop 1).any (fun r => (spec_decodeRow stod r).isSome) = true :=
          List.any_eq_true.mpr ⟨r, hr, by simp [hdec]⟩
        rw [h] at this
        cases this
    · intro h
      cases hany : (csv_data.drop 1).any (fun r => (spec_decodeRow stod r).isSome) with
      | false => rfl
      | true =>
        obtain ⟨r, hr, hsome⟩ := List.any_eq_true.mp hany
        rw [h r hr] at hsome
        cases hsome
  · intro header
    rw [loadFromCSV_cons_decode]
    rfl

/-- The decoding rule evaluated on `example_table_mixed`: the 4-field row and
the 8-field row are loaded, the three other data rows are skipped, and the
load succeeds. -/
theorem load_decoding_example :
    loadFromCSV stod_int construct example_table_mixed =
      (true,
       { points_ := [⟨0, 0, 0, 5⟩, ⟨2, 2, 2, 7⟩], is_modified_ := false,
         original_header_ := ["x", "y", "z", "v"],
         original_extra_columns_ := [["q1", "q2", "q3", "q4"]],
         has_extended_format_ := false }) := by
  decide

end LoadDecoding


section HistoryBoundary

variable {R : Type}

open TrajectoryData

/-- A raising `execute` leaves the store as it was: every store mutator throws
before it changes anything. -/
theorem execute_raised_state (c : EditCommand R) (d d1 : TrajectoryData R) (what : String)
    (h : c.execute d = .raised what d1) : d1 = d := by
  cases c with
  | MovePointCommand i ox oy nx ny =>
    simp only [EditCommand.execute, movePoint] at h
    split at h
    · cases h; rfl
    · cases h
  | AddPointCommand i p =>
    simp only [EditCommand.execute, insertPoint] at h
    split at h
    · cases h; rfl
    · cases h
  | RemovePointCommand i p =>
    simp only [EditCommand.execute, removePoint] at h
    split at h
    · cases h; rfl
    · cases h
  | ChangeVelocityCommand i ov nv =>
    simp only [EditCommand.execute, EditCommand.changeVelocity, updatePoint] at h
    split at h
    · split at h
      · cases h; rfl
      · cases h
    · cases h
  | ChangeRangeVelocityCommand s e olds nv =>
    simp only [EditCommand.execute, updateVelocityRange] at h
    split at h
    · cases h; rfl
    · cases h

/-- A raising `undo` leaves the store as it was. -/
theorem undo_raised_state (c : EditCommand R) (d d1 : TrajectoryData R) (what : String)
    (h : c.undo d = .raised what d1) : d1 = d := by
  cases c with
  | MovePointCommand i ox oy nx ny =>
    simp only [EditCommand.undo, movePoint] at h
    split at h
    · cases h; rfl
    · cases h
  | AddPointCommand i p =>
    simp only [EditCommand.undo, removePoint] at h
    split at h
    · cases h; rfl
    · cases h
  | RemovePointCommand i p =>
    simp only [EditCommand.undo, insertPoint] at h
    split at h
    · cases h; rfl
    · cases h
  | ChangeVelocityCommand i ov nv =>
    simp only [EditCommand.undo, EditCommand.changeVelocity, updatePoint] at h
    split at h
    · split at h
      · cases h; rfl
      · cases h
    · cases h
  | ChangeRangeVelocityCommand s e olds nv =>
    have hr := undoRangeLoop_isReturned s e olds 0 d
    simp only [EditCommand.undo] at h
    rw [h] at hr
    cases hr

/-- C26. Trimming drops the oldest and keeps the newest: when `executeCommand`
succeeds on a history that already holds `max_history_size_ >= 1` commands
with the cursor at the end, the history afterwards holds exactly
`max_history_size_` commands, namely the previous ones without the oldest, in
their order, followed by the new command; the cursor equals
`max_history_size_`, `canUndo()` is true and `canRedo()` is false. -/
theorem executeCommand_trims_oldest (h : EditHistory R) (command : EditCommand R)
    (data data1 : TrajectoryData R)
    (hfull : h.commands_.length = h.max_history_size_)
    (hend : h.current_index_ = h.commands_.length)
    (hm : 1 ≤ h.max_history_size_)
    (hx : command.execute data = .returned data1) :
    ∃ h1, h.executeCommand command data = .returned (h1, data1) ∧
      h1.commands_ = h.commands_.drop 1 ++ [command] ∧
      h1.commands_.length = h.max_history_size_ ∧
      h1.current_index_ = h.max_history_size_ ∧
      h1.max_history_size_ = h.max_history_size_ ∧
      h1.canUndo = true ∧ h1.canRedo = false := by
  have hne : h.commands_ ≠ [] := by
    intro hnil
    rw [hnil] at hfull
    simp at hfull
    omega
  have hdrop : List.drop 1 (h.commands_ ++ [command]) = List.drop 1 h.commands_ ++ [command] := by
    cases hc : h.commands_ with
    | nil => exact absurd hc hne
    | cons a t => rfl
  have hgt : (h.commands_ ++ [command]).length > h.max_history_size_ := by simp; omega
  have hex : (h.commands_ ++ [command]).length - h.max_history_size_ = 1 := by simp; omega
  have hexec : h.executeCommand command data = .returned
      (({ commands_ := h.commands_.drop 1 ++ [command],
          current_index_ := h.max_history_size_,
          max_history_size_ := h.max_history_size_ } : EditHistory R), data1) := by
    unfold EditHistory.executeCommand
    simp only [hx, hend, List.take_length]
    unfold EditHistory.trimHistory
    simp only [hgt, if_true, hex, hdrop]
    have hlen : (h.commands_ ++ [command]).length = h.max_history_size_ + 1 := by simp; omega
    have h1lt : h.max_history_size_ + 1 > 1 := by omega
    simp only [hlen, h1lt, if_true, Nat.add_sub_cancel]
  refine ⟨_, hexec, rfl, ?_, rfl, rfl, ?_, ?_⟩
  · simp; omega
  · simp only [EditHistory.canUndo, gt_iff_lt, decide_eq_true_eq]; omega
  · simp only [EditHistory.canRedo, decide_eq_false_iff_not, List.length_append,
      List.length_drop, List.length_singleton]
    omega

/-- Witness for C26: in `example_session_full` (cap 2, the additions at 0 and at
1 recorded, cursor 2) a third addition drops the addition at 0. -/
theorem executeCommand_trims_oldest_witness :
    example_session_full.1.commands_.length = example_session_full.1.max_history_size_ ∧
    example_session_full.1.current_index_ = example_session_full.1.commands_.length ∧
    1 ≤ example_session_full.1.max_history_size_ ∧
    ∃ h1, example_session_full.1.executeCommand (.AddPointCommand 2 ⟨2, 2, 0, 7⟩)
        example_session_full.2
        = .returned (h1,
            ((EditCommand.AddPointCommand 2 ⟨2, 2, 0, 7⟩).execute example_session_full.2).state) ∧
      h1.commands_ = example_session_full.1.commands_.drop 1
        ++ [.AddPointCommand 2 ⟨2, 2, 0, 7⟩] ∧
      h1.commands_.length = example_session_full.1.max_history_size_ ∧
      h1.current_index_ = example_session_full.1.max_history_size_ ∧
      h1.max_history_size_ = example_session_full.1.max_history_size_ ∧
      h1.canUndo = true ∧ h1.canRedo = false :=
  ⟨by decide, by decide, by decide,
   executeCommand_trims_oldest example_session_full.1 (.AddPointCommand 2 ⟨2, 2, 0, 7⟩)
     example_session_full.2 _ (by decide) (by decide) (by decide) (by decide)⟩

/-- Counterexample to C27 as stated, in `example_session_surgery` (one
recorded addition at index 3, cursor 1, three points in the store): the
command's `undo` raises, and `EditHistory::undo` leaves the cursor at 0; the
following `redo` returns normally and applies the addition again. -/
theorem failed_undo_counterexample :
    example_session_surgery.1.current_index_ = 1 ∧
    example_session_surgery.1.undo example_session_surgery.2
      = .raised "Index out of range"
          ({ example_session_surgery.1 with current_index_ := 0 }, example_session_surgery.2) ∧
    (EditHistory.redo { example_session_surgery.1 with current_index_ := 0 }
        example_session_surgery.2).isReturned = true ∧
    (EditHistory.redo { example_session_surgery.1 with current_index_ := 0 }
        example_session_surgery.2).state.2.points_.length = 4 := by
  decide

/-- C27, amended. If `EditHistory::undo` raises on a history whose cursor lies
within the command list, the command list and the cap are the same as before
the call, the store is as it was, and the cursor is one lower than before the
call: it is decremented before the command's `undo` runs. -/
theorem failed_undo_state (h : EditHistory R) (data : TrajectoryData R) (what : String)
    (s : Session R) (hc : h.current_index_ ≤ h.commands_.length)
    (hr : h.undo data = .raised what s) :
    s.1.commands_ = h.commands_ ∧ s.1.max_history_size_ = h.max_history_size_ ∧
    s.1.current_index_ + 1 = h.current_index_ ∧ s.2 = data := by
  unfold EditHistory.undo at hr
  by_cases hu : h.canUndo = true
  · have hpos : 0 < h.current_index_ := by
      simpa [EditHistory.canUndo] using hu
    simp only [hu, if_true] at hr
    cases hget : h.commands_[h.current_index_ - 1]? with
    | none =>
      rw [List.getElem?_eq_none_iff] at hget
      omega
    | some c =>
      rw [hget] at hr
      cases hx : c.undo data with
      | returned d1 => simp only [hx] at hr; cases hr
      | raised w d1 =>
        simp only [hx, Outcome.raised.injEq] at hr
        obtain ⟨_, hs⟩ := hr
        subst hs
        refine ⟨rfl, rfl, ?_, undo_raised_state c data d1 w hx⟩
        simp only
        omega
  · simp only [hu] at hr
    cases hr

/-- Witness for C27, amended, in `example_session_surgery`. -/
theorem failed_undo_state_witness :
    example_session_surgery.1.current_index_ ≤ example_session_surgery.1.commands_.length ∧
    (example_session_surgery.1.undo example_session_surgery.2).isReturned = false ∧
    (example_session_surgery.1.undo example_session_surgery.2).state.1.commands_
      = example_session_surgery.1.commands_ ∧
    (example_session_surgery.1.undo example_session_surgery.2).state.1.max_history_size_
      = example_session_surgery.1.max_history_size_ ∧
    (example_session_surgery.1.undo example_session_surgery.2).state.1.current_index_ + 1
      = example_session_surgery.1.current_index_ ∧
    (example_session_surgery.1.undo example_session_surgery.2).state.2
      = example_session_surgery.2 :=
  ⟨by decide, by decide,
   failed_undo_state example_session_surgery.1 example_session_surgery.2
     "Index out of range" _ (by decide) (by decide)⟩

/-- Counterexample to C28 as stated, in `example_session_undone` (two recorded
additions, cursor 1, so that one command is redoable): `executeCommand` of a
move at the invalid index 7 raises, and the history is left with one command
and nothing to redo. -/
theorem failed_execute_counterexample :
    example_session_undone.1.commands_.length = 2 ∧
    example_session_undone.1.canRedo = true ∧
    (example_session_undone.1.executeCommand (.MovePointCommand 7 0 0 9 9)
        example_session_undone.2).isReturned = false ∧
    (example_session_undone.1.executeCommand (.MovePointCommand 7 0 0 9 9)
        example_session_undone.2).state.1.commands_.length = 1 ∧
    (example_session_undone.1.executeCommand (.MovePointCommand 7 0 0 9 9)
        example_session_undone.2).state.1.canRedo = false := by
  decide

/-- C28, amended. If `EditHistory::executeCommand` raises, the cursor, the cap
and the store are the same as before the call and the raising command is not
recorded, but the command list has been cut down to its undoable part
`commands_[0..cursor)`: the commands that were redoable before the call are
discarded, because the redo tail is erased before the command runs. -/
theorem failed_execute_state (h : EditHistory R) (command : EditCommand R)
    (data : TrajectoryData R) (what : String) (s : Session R)
    (hr : h.executeCommand command data = .raised what s) :
    s.1.commands_ = h.commands_.take h.current_index_ ∧
    s.1.current_index_ = h.current_index_ ∧
    s.1.max_history_size_ = h.max_history_size_ ∧ s.2 = data ∧
    (h.current_index_ ≤ h.commands_.length → s.1.canRedo = false) := by
  unfold EditHistory.executeCommand at hr
  cases hx : command.execute data with
  | returned d1 => rw [hx] at hr; cases hr
  | raised w d1 =>
    rw [hx] at hr
    simp only [Outcome.raised.injEq] at hr
    obtain ⟨_, hs⟩ := hr
    subst hs
    refine ⟨rfl, rfl, rfl, execute_raised_state command data d1 w hx, ?_⟩
    intro hc
    simp only [EditHistory.canRedo, List.length_take, decide_eq_false_iff_not]
    omega

/-- Witness for C28, amended, in `example_session_undone`. -/
theorem failed_execute_state_witness :
    (example_session_undone.1.executeCommand (.MovePointCommand 7 0 0 9 9)
        example_session_undone.2).isReturned = false ∧
    (example_session_undone.1.executeCommand (.MovePointCommand 7 0 0 9 9)
        example_session_undone.2).state.1.commands_
      = example_session_undone.1.commands_.take example_session_undone.1.current_index_ ∧
    (example_session_undone.1.executeCommand (.MovePointCommand 7 0 0 9 9)
        example_session_undone.2).state.1.current_index_
      = example_session_undone.1.current_index_ ∧
    (example_session_undone.1.executeCommand (.MovePointCommand 7 0 0 9 9)
        example_session_undone.2).state.1.max_history_size_
      = example_session_undone.1.max_history_size_ ∧
    (example_session_undone.1.executeCommand (.MovePointCommand 7 0 0 9 9)
        example_session_undone.2).state.2 = example_session_undone.2 ∧
    (example_session_undone.1.current_index_ ≤ example_session_undone.1.commands_.length →
      (example_session_undone.1.executeCommand (.MovePointCommand 7 0 0 9 9)
        example_session_undone.2).state.1.canRedo = false) :=
  ⟨by decide,
   failed_execute_state example_session_undone.1 (.MovePointCommand 7 0 0 9 9)
     example_session_undone.2 "Index out of range" _ (by decide)⟩

end HistoryBoundary


section ModifiedFlag

variable {R : Type}

open TrajectoryData

theorem run_sets_modified (call : StoreCall R) (d : TrajectoryData R)
    (hr : (call.run d).isReturned = true) : (call.run d).state.isModified = true := by
  cases call with
  | clear => rfl
  | addPoint point => rfl
  | insertPoint index point =>
    simp only [StoreCall.run, insertPoint] at hr ⊢
    split
    · rename_i hgt; simp [hgt, Outcome.isReturned] at hr
    · rfl
  | removePoint index =>
    simp only [StoreCall.run, removePoint] at hr ⊢
    split
    · rename_i hgt; simp [hgt, Outcome.isReturned] at hr
    · rfl
  | updatePoint index point =>
    simp only [StoreCall.run, updatePoint] at hr ⊢
    split
    · rename_i hgt; simp [hgt, Outcome.isReturned] at hr
    · rfl
  | movePoint index new_x new_y =>
    simp only [StoreCall.run, movePoint] at hr ⊢
    split
    · rename_i hgt; simp [hgt, Outcome.isReturned] at hr
    · rfl
  | updateVelocityRange start_index end_index velocity =>
    simp only [StoreCall.run, updateVelocityRange] at hr ⊢
    split
    · rename_i hgt; simp [hgt, Outcome.isReturned] at hr
    · rfl

theorem execute_valid_sets_modified (c : EditCommand R) (d : TrajectoryData R)
    (hv : c.validForExecute d = true) :
    ∃ d1, c.execute d = .returned d1 ∧ d1.isModified = true := by
  have key : c.execute d = .returned (c.execute d).state ∧
      (c.execute d).state.isModified = true := by
    cases c with
    | MovePointCommand i ox oy nx ny =>
      simp only [EditCommand.validForExecute, size, decide_eq_true_eq] at hv
      simp [EditCommand.execute, movePoint, isValidIndex, hv, Outcome.state, isModified]
    | AddPointCommand i p =>
      simp only [EditCommand.validForExecute, size, decide_eq_true_eq] at hv
      simp [EditCommand.execute, insertPoint, Nat.not_lt.mpr hv, Outcome.state, isModified]
    | RemovePointCommand i p =>
      simp only [EditCommand.validForExecute, size, decide_eq_true_eq] at hv
      simp [EditCommand.execute, removePoint, isValidIndex, hv, Outcome.state, isModified]
    | ChangeVelocityCommand i ov nv =>
      simp only [EditCommand.validForExecute, size, decide_eq_true_eq] at hv
      simp [EditCommand.execute, EditCommand.changeVelocity, getPoints, updatePoint,
        isValidIndex, hv, Outcome.state, isModified]
    | ChangeRangeVelocityCommand s e olds nv =>
      simp only [EditCommand.validForExecute, size, decide_eq_true_eq] at hv
      have h1 : ¬ (s ≥ d.points_.length ∨ e ≥ d.points_.length ∨ s > e) := by omega
      simp only [EditCommand.execute, updateVelocityRange, h1, if_false, Outcome.state,
        isModified, and_self]
  exact ⟨_, key.1, key.2⟩

/-- Once the modified flag is set, the loop of
`ChangeRangeVelocityCommand::undo` leaves it set. -/
theorem undoRangeLoop_keeps_modified (s e : Nat) :
    ∀ (rest : List R) (i : Nat) (data : TrajectoryData R), data.is_modified_ = true →
      (EditCommand.undoRangeLoop s e rest i data).state.is_modified_ = true := by
  intro rest
  induction rest with
  | nil => intro i data hm; exact hm
  | cons ov rest ih =>
    intro i data hm
    rw [EditCommand.undoRangeLoop]
    split
    · dsimp only
      split
      · rename_i hlt
        simp only [getPoints] at hlt
        simp only [updatePoint, isValidIndex, hlt, decide_True, Bool.not_true,
          Bool.false_eq_true, if_false]
        exact ih _ _ rfl
      · exact ih _ _ hm
    · exact hm

theorem undo_valid_sets_modified (c : EditCommand R) (d : TrajectoryData R)
    (hv : c.validForUndo d = true) :
    ∃ d1, c.undo d = .returned d1 ∧ d1.isModified = true := by
  suffices key : c.undo d = .returned (c.undo d).state ∧ (c.undo d).state.isModified = true
    from ⟨_, key.1, key.2⟩
  cases c with
  | MovePointCommand i ox oy nx ny =>
    simp only [EditCommand.validForUndo, size, decide_eq_true_eq] at hv
    simp [EditCommand.undo, movePoint, isValidIndex, hv, Outcome.state, isModified]
  | AddPointCommand i p =>
    simp only [EditCommand.validForUndo, size, decide_eq_true_eq] at hv
    simp [EditCommand.undo, removePoint, isValidIndex, hv, Outcome.state, isModified]
  | RemovePointCommand i p =>
    simp only [EditCommand.validForUndo, size, decide_eq_true_eq] at hv
    simp [EditCommand.undo, insertPoint, Nat.not_lt.mpr hv, Outcome.state, isModified]
  | ChangeVelocityCommand i ov nv =>
    simp only [EditCommand.validForUndo, size, decide_eq_true_eq] at hv
    simp [EditCommand.undo, EditCommand.changeVelocity, getPoints, updatePoint,
      isValidIndex, hv, Outcome.state, isModified]
  | ChangeRangeVelocityCommand s e olds nv =>
    simp only [EditCommand.validForUndo, size, Bool.and_eq_true, decide_eq_true_eq,
      Bool.not_eq_true'] at hv
    obtain ⟨⟨hse, he, he64⟩, hne⟩ := hv
    have hret := undoRangeLoop_isReturned s e olds 0 d
    cases olds with
    | nil => simp at hne
    | cons ov rest =>
      have hmod : (s + 0) % SIZE_T_MODULUS = s := by
        rw [Nat.add_zero]; exact Nat.mod_eq_of_lt (by omega)
      have hlt : s < d.getPoints.length := by simp only [getPoints]; omega
      have hlt' : s < d.points_.length := by omega
      have hflag : (EditCommand.undoRangeLoop s e (ov :: rest) 0 d).state.is_modified_ = true := by
        rw [EditCommand.undoRangeLoop]
        simp only [hmod, hse, if_true, hlt, dite_true, updatePoint, isValidIndex, hlt',
          decide_True, Bool.not_true, Bool.false_eq_true, if_false]
        exact undoRangeLoop_keeps_modified s e rest _ _ rfl
      cases hx : EditCommand.undoRangeLoop s e (ov :: rest) 0 d with
      | raised w d1 => rw [hx] at hret; cases hret
      | returned d1 =>
        rw [hx] at hflag
        simp only [EditCommand.undo, hx, Outcome.state, isModified, true_and]
        exact hflag

/-- C22. Modified flag is set by every mutation: for every store, each call of
`clear`, `addPoint`, `insertPoint`, `removePoint`, `updatePoint`, `movePoint`
or `updateVelocityRange` that returns normally leaves `isModified()` true.
Hence `executeCommand` and `redo` of a command whose indices are valid for
`execute`, and `undo` of a command whose indices are valid for `undo`, return
normally and leave `isModified()` true. A `loadFromCSV` that returns `true`
leaves `isModified()` false. -/
theorem modified_flag_set (stod : String → Option R) :
    (∀ (d : TrajectoryData R) (call : StoreCall R),
      (call.run d).isReturned = true → (call.run d).state.isModified = true) ∧
    (∀ (h : EditHistory R) (c : EditCommand R) (d : TrajectoryData R),
      c.validForExecute d = true →
      ∃ s, h.executeCommand c d = .returned s ∧ s.2.isModified = true) ∧
    (∀ (h : EditHistory R) (c : EditCommand R) (d : TrajectoryData R),
      0 < h.current_index_ → h.commands_[h.current_index_ - 1]? = some c →
      c.validForUndo d = true →
      ∃ s, h.undo d = .returned s ∧ s.2.isModified = true) ∧
    (∀ (h : EditHistory R) (c : EditCommand R) (d : TrajectoryData R),
      h.commands_[h.current_index_]? = some c → c.validForExecute d = true →
      ∃ s, h.redo d = .returned s ∧ s.2.isModified = true) ∧
    (∀ (d : TrajectoryData R) (csv_data : List (List String)),
      (loadFromCSV stod d csv_data).1 = true →
      (loadFromCSV stod d csv_data).2.isModified = false) := by
  refine ⟨fun d call hr => run_sets_modified call d hr, ?_, ?_, ?_, ?_⟩
  · intro h c d hv
    obtain ⟨d1, hx, hm⟩ := execute_valid_sets_modified c d hv
    refine ⟨(EditHistory.trimHistory ⟨h.commands_.take h.current_index_ ++ [c],
      (h.commands_.take h.current_index_ ++ [c]).length, h.max_history_size_⟩, d1), ?_, hm⟩
    unfold EditHistory.executeCommand
    simp only [hx]
  · intro h c d hpos hget hv
    obtain ⟨d1, hx, hm⟩ := undo_valid_sets_modified c d hv
    refine ⟨({ h with current_index_ := h.current_index_ - 1 }, d1), ?_, hm⟩
    unfold EditHistory.undo
    simp only [EditHistory.canUndo, hpos, gt_iff_lt, decide_True, if_true, hget, hx]
  · intro h c d hget hv
    obtain ⟨d1, hx, hm⟩ := execute_valid_sets_modified c d hv
    have hlt : h.current_index_ < h.commands_.length := by
      by_contra hge
      rw [List.getElem?_eq_none (by omega)] at hget
      cases hget
    refine ⟨({ h with current_index_ := h.current_index_ + 1 }, d1), ?_, hm⟩
    unfold EditHistory.redo
    simp only [EditHistory.canRedo, hlt, decide_True, if_true, hget, hx]
  · intro d csv_data hr
    cases csv_data with
    | nil => simp [loadFromCSV] at hr
    | cons header rows =>
      rw [loadFromCSV_cons_decode]
      rfl

/-- Witness for C22: an insertion on the freshly loaded `example_store_8`
(flag false after the load), and an execute, an undo and a redo in
`example_session_undone`. -/
theorem modified_flag_set_witness :
    example_store_8.isModified = false ∧
    ((StoreCall.insertPoint 1 ⟨9, 9, 0, 4⟩).run example_store_8).state.isModified = true ∧
    (∃ s, example_session_undone.1.executeCommand (.MovePointCommand 1 1 1 9 9)
        example_session_undone.2 = .returned s ∧ s.2.isModified = true) ∧
    (∃ s, example_session_undone.1.undo example_session_undone.2 = .returned s ∧
      s.2.isModified = true) ∧
    (∃ s, example_session_undone.1.redo example_session_undone.2 = .returned s ∧
      s.2.isModified = true) ∧
    (loadFromCSV stod_int example_session_undone.2 example_table_8).2.isModified = false :=
  ⟨by decide,
   (modified_flag_set stod_int).1 example_store_8 (.insertPoint 1 ⟨9, 9, 0, 4⟩) (by decide),
   (modified_flag_set stod_int).2.1 example_session_undone.1 (.MovePointCommand 1 1 1 9 9)
     example_session_undone.2 (by decide),
   (modified_flag_set stod_int).2.2.1 example_session_undone.1 (.AddPointCommand 3 ⟨3, 3, 0, 8⟩)
     example_session_undone.2 (by decide) (by decide) (by decide),
   (modified_flag_set stod_int).2.2.2.1 example_session_undone.1
     (.AddPointCommand 4 ⟨4, 4, 0, 9⟩) example_session_undone.2 (by decide) (by decide),
   (modified_flag_set stod_int).2.2.2.2 example_session_undone.2 example_table_8 (by decide)⟩

end ModifiedFlag


section LoadFailure

variable {R : Type}

open TrajectoryData

/-- Counterexample to C29 as stated: loading, into `example_store_3`, a table
whose only data row has an unparseable x returns `false` and leaves the store
without points and with the header of the table. -/
theorem failed_load_counterexample :
    loadFromCSV stod_int example_store_3 [["x", "y", "z", "v"], ["abc", "1", "1", "6"]]
      = (false,
         { points_ := [], is_modified_ := false, original_header_ := ["x", "y", "z", "v"],
           original_extra_columns_ := [], has_extended_format_ := false }) ∧
    example_store_3.points_.length = 3 := by
  decide

/-- C29, amended. Whenever `loadFromCSV` returns `false`, either the table is
empty (the file is missing or has no line with content) and the store, its
point sequence, preserved header, extra columns, extended-format flag and
modified flag included, is the same as before the call; or the table has a
first row and the store has been reset: no points, no extra columns, the
first row as preserved header, the extended-format flag set exactly when that
row has at least 8 fields, and the modified flag false. -/
theorem failed_load_state (stod : String → Option R) (d : TrajectoryData R)
    (csv_data : List (List String)) (hr : (loadFromCSV stod d csv_data).1 = false) :
    (csv_data = [] ∧ (loadFromCSV stod d csv_data).2 = d) ∨
    (∃ header rows, csv_data = header :: rows ∧
      (loadFromCSV stod d csv_data).2 =
        { points_ := [], is_modified_ := false, original_header_ := header,
          original_extra_columns_ := [],
          has_extended_format_ := decide (8 ≤ header.length) }) := by
  cases csv_data with
  | nil => exact Or.inl ⟨rfl, rfl⟩
  | cons header rows =>
    refine Or.inr ⟨header, rows, rfl, ?_⟩
    rw [loadFromCSV_cons_decode] at hr ⊢
    simp only [Bool.not_eq_false', List.isEmpty_iff] at hr
    have hnone : ∀ r ∈ rows, spec_decodeRow stod r = none := by
      intro r hmem
      have h1 := List.filterMap_eq_nil_iff.mp hr r hmem
      simpa using h1
    have hex : rows.filterMap (fun r => (spec_decodeRow stod r).bind Prod.snd) = [] := by
      apply List.filterMap_eq_nil_iff.mpr
      intro r hmem
      rw [hnone r hmem]
      rfl
    simp only [hr, hex]

/-- Witness for C29, amended: the load of the counterexample, and the load of
the empty table. -/
theorem failed_load_state_witness :
    (loadFromCSV stod_int example_store_3
      [["x", "y", "z", "v"], ["abc", "1", "1", "6"]]).1 = false ∧
    (([["x", "y", "z", "v"], ["abc", "1", "1", "6"]] = ([] : List (List String)) ∧
      (loadFromCSV stod_int example_store_3
        [["x", "y", "z", "v"], ["abc", "1", "1", "6"]]).2 = example_store_3) ∨
     (∃ header rows, [["x", "y", "z", "v"], ["abc", "1", "1", "6"]] = header :: rows ∧
      (loadFromCSV stod_int example_store_3
        [["x", "y", "z", "v"], ["abc", "1", "1", "6"]]).2 =
        { points_ := [], is_modified_ := false, original_header_ := header,
          original_extra_columns_ := [],
          has_extended_format_ := decide (8 ≤ header.length) })) :=
  ⟨by decide,
   failed_load_state stod_int example_store_3
     [["x", "y", "z", "v"], ["abc", "1", "1", "6"]] (by decide)⟩

/-- C21, evaluated on `example_table_mixed_8` (an 8-field header, a data row of
4 fields, a data row of 8 fields): the load succeeds with two points and one
extra-columns entry. The entry at index 0 holds the fields `b1..b4` of the
second data row, while `points_[0]` was decoded from the first data row;
`saveToCSV` writes that point with `b1..b4` and the point of the second data
row without its fields. -/
theorem mixed_load_misaligns_extra_columns :
    loadFromCSV stod_int construct example_table_mixed_8
      = (true,
         { points_ := [⟨0, 0, 0, 5⟩, ⟨1, 1, 1, 6⟩], is_modified_ := false,
           original_header_ := ["x", "y", "z", "qx", "qy", "qz", "qw", "speed"],
           original_extra_columns_ := [["b1", "b2", "b3", "b4"]],
           has_extended_format_ := true }) ∧
    saveToCSV_csv_data to_string_int (loadFromCSV stod_int construct example_table_mixed_8).2
      = [["x", "y", "z", "qx", "qy", "qz", "qw", "speed"],
         ["0.000000", "0.000000", "0.000000", "b1", "b2", "b3", "b4", "5.000000"],
         ["1.000000", "1.000000", "1.000000", "6.000000"]] := by
  decide

end LoadFailure


section Bounds

variable {R : Type} [LinearOrder R]

open TrajectoryData

theorem foldl_std_min {α : Type} (f : α → R) :
    ∀ (l : List α) (m0 : R),
      l.foldl (fun m p => std_min m (f p)) m0 ≤ m0 ∧
      (∀ p ∈ l, l.foldl (fun m p => std_min m (f p)) m0 ≤ f p) ∧
      (l.foldl (fun m p => std_min m (f p)) m0 = m0 ∨
        ∃ p ∈ l, f p = l.foldl (fun m p => std_min m (f p)) m0) := by
  intro l
  induction l with
  | nil => intro m0; simp
  | cons a l ih =>
    intro m0
    obtain ⟨h1, h2, h3⟩ := ih (std_min m0 (f a))
    have hle0 : std_min m0 (f a) ≤ m0 := by
      unfold std_min; split
      · rename_i h; exact le_of_lt h
      · exact le_refl _
    have hlea : std_min m0 (f a) ≤ f a := by
      unfold std_min; split
      · exact le_refl _
      · rename_i h; exact not_lt.mp h
    have hcase : std_min m0 (f a) = m0 ∨ std_min m0 (f a) = f a := by
      unfold std_min; split
      · exact Or.inr rfl
      · exact Or.inl rfl
    refine ⟨le_trans h1 hle0, ?_, ?_⟩
    · intro p hp
      rcases List.mem_cons.mp hp with hpa | hpl
      · subst hpa; exact le_trans h1 hlea
      · exact h2 p hpl
    · rcases h3 with h3 | ⟨p, hp, hpe⟩
      · rcases hcase with hc | hc
        · left; rw [List.foldl_cons, h3]; exact hc
        · right; exact ⟨a, List.mem_cons_self _ _, by rw [List.foldl_cons, h3]; exact hc.symm⟩
      · right; exact ⟨p, List.mem_cons_of_mem _ hp, hpe⟩

theorem foldl_std_max {α : Type} (f : α → R) :
    ∀ (l : List α) (m0 : R),
      m0 ≤ l.foldl (fun m p => std_max m (f p)) m0 ∧
      (∀ p ∈ l, f p ≤ l.foldl (fun m p => std_max m (f p)) m0) ∧
      (l.foldl (fun m p => std_max m (f p)) m0 = m0 ∨
        ∃ p ∈ l, f p = l.foldl (fun m p => std_max m (f p)) m0) := by
  intro l
  induction l with
  | nil => intro m0; simp
  | cons a l ih =>
    intro m0
    obtain ⟨h1, h2, h3⟩ := ih (std_max m0 (f a))
    have hle0 : m0 ≤ std_max m0 (f a) := by
      unfold std_max; split
      · rename_i h; exact le_of_lt h
      · exact le_refl _
    have hlea : f a ≤ std_max m0 (f a) := by
      unfold std_max; split
      · exact le_refl _
      · rename_i h; exact not_lt.mp h
    have hcase : std_max m0 (f a) = m0 ∨ std_max m0 (f a) = f a := by
      unfold std_max; split
      · exact Or.inr rfl
      · exact Or.inl rfl
    refine ⟨le_trans hle0 h1, ?_, ?_⟩
    · intro p hp
      rcases List.mem_cons.mp hp with hpa | hpl
      · subst hpa; exact le_trans hlea h1
      · exact h2 p hpl
    · rcases h3 with h3 | ⟨p, hp, hpe⟩
      · rcases hcase with hc | hc
        · left; rw [List.foldl_cons, h3]; exact hc
        · right; exact ⟨a, List.mem_cons_self _ _, by rw [List.foldl_cons, h3]; exact hc.symm⟩
      · right; exact ⟨p, List.mem_cons_of_mem _ hp, hpe⟩

/-- The scan started at the value of the first element attains its result and
bounds every element from below. -/
theorem scan_min_first {α : Type} (f : α → R) (first : α) (rest : List α) :
    (∃ p ∈ first :: rest,
      f p = (first :: rest).foldl (fun m p => std_min m (f p)) (f first)) ∧
    (∀ p ∈ first :: rest,
      (first :: rest).foldl (fun m p => std_min m (f p)) (f first) ≤ f p) := by
  obtain ⟨_, h2, h3⟩ := foldl_std_min f (first :: rest) (f first)
  refine ⟨?_, h2⟩
  rcases h3 with h3 | h3
  · exact ⟨first, List.mem_cons_self _ _, h3.symm⟩
  · exact h3

theorem scan_max_first {α : Type} (f : α → R) (first : α) (rest : List α) :
    (∃ p ∈ first :: rest,
      f p = (first :: rest).foldl (fun m p => std_max m (f p)) (f first)) ∧
    (∀ p ∈ first :: rest,
      f p ≤ (first :: rest).foldl (fun m p => std_max m (f p)) (f first)) := by
  obtain ⟨_, h2, h3⟩ := foldl_std_max f (first :: rest) (f first)
  refine ⟨?_, h2⟩
  rcases h3 with h3 | h3
  · exact ⟨first, List.mem_cons_self _ _, h3.symm⟩
  · exact h3

theorem getBounds_fold (l : List (TrajectoryPoint R)) :
    ∀ a b c e : R,
      l.foldl
        (fun (acc : R × R × R × R) point =>
          (std_min acc.1 point.x, std_max acc.2.1 point.x,
           std_min acc.2.2.1 point.y, std_max acc.2.2.2 point.y))
        (a, b, c, e)
      = (l.foldl (fun m p => std_min m p.x) a, l.foldl (fun m p => std_max m p.x) b,
         l.foldl (fun m p => std_min m p.y) c, l.foldl (fun m p => std_max m p.y) e) := by
  induction l with
  | nil => intro a b c e; rfl
  | cons p l ih => intro a b c e; simp only [List.foldl_cons, ih]

theorem getVelocityRange_fold (l : List (TrajectoryPoint R)) :
    ∀ a b : R,
      l.foldl
        (fun (acc : R × R) point =>
          (std_min acc.1 point.velocity, std_max acc.2 point.velocity))
        (a, b)
      = (l.foldl (fun m p => std_min m p.velocity) a,
         l.foldl (fun m p => std_max m p.velocity) b) := by
  induction l with
  | nil => intro a b; rfl
  | cons p l ih => intro a b; simp only [List.foldl_cons, ih]

variable [Zero R]

/-- C25. Bounds are the true min/max (values in a linear order): for every
non-empty store, `getBounds` returns `min_x`, `max_x`, `min_y`, `max_y`, each
attained by some point, with `min_x <= p.x <= max_x` and
`min_y <= p.y <= max_y` for every point `p`; `getVelocityRange` returns
`min_vel` and `max_vel`, each attained by some point, with
`min_vel <= p.velocity <= max_vel` for every point; for an empty store all
returned values are 0. -/
theorem bounds_are_extrema (d : TrajectoryData R) :
    (d.points_ = [] → d.getBounds = (0, 0, 0, 0) ∧ d.getVelocityRange = (0, 0)) ∧
    (d.points_ ≠ [] →
      ((∃ p ∈ d.points_, p.x = d.getBounds.1) ∧ (∀ p ∈ d.points_, d.getBounds.1 ≤ p.x)) ∧
      ((∃ p ∈ d.points_, p.x = d.getBounds.2.1) ∧ (∀ p ∈ d.points_, p.x ≤ d.getBounds.2.1)) ∧
      ((∃ p ∈ d.points_, p.y = d.getBounds.2.2.1) ∧
        (∀ p ∈ d.points_, d.getBounds.2.2.1 ≤ p.y)) ∧
      ((∃ p ∈ d.points_, p.y = d.getBounds.2.2.2) ∧
        (∀ p ∈ d.points_, p.y ≤ d.getBounds.2.2.2)) ∧
      ((∃ p ∈ d.points_, p.velocity = d.getVelocityRange.1) ∧
        (∀ p ∈ d.points_, d.getVelocityRange.1 ≤ p.velocity)) ∧
      ((∃ p ∈ d.points_, p.velocity = d.getVelocityRange.2) ∧
        (∀ p ∈ d.points_, p.velocity ≤ d.getVelocityRange.2))) := by
  refine ⟨?_, ?_⟩
  · intro hnil
    simp [getBounds, getVelocityRange, hnil]
  · intro hne
    cases hp : d.points_ with
    | nil => exact absurd hp hne
    | cons first rest =>
      have hb : d.getBounds =
          ((first :: rest).foldl (fun m p => std_min m p.x) first.x,
           (first :: rest).foldl (fun m p => std_max m p.x) first.x,
           (first :: rest).foldl (fun m p => std_min m p.y) first.y,
           (first :: rest).foldl (fun m p => std_max m p.y) first.y) := by
        simp only [getBounds, hp]
        exact getBounds_fold (first :: rest) _ _ _ _
      have hvr : d.getVelocityRange =
          ((first :: rest).foldl (fun m p => std_min m p.velocity) first.velocity,
           (first :: rest).foldl (fun m p => std_max m p.velocity) first.velocity) := by
        simp only [getVelocityRange, hp]
        exact getVelocityRange_fold (first :: rest) _ _
      rw [hb, hvr]
      exact ⟨scan_min_first (fun p => p.x) first rest,
        scan_max_first (fun p => p.x) first rest,
        scan_min_first (fun p => p.y) first rest,
        scan_max_first (fun p => p.y) first rest,
        scan_min_first (fun p => p.velocity) first rest,
        scan_max_first (fun p => p.velocity) first rest⟩

/-- Witness for C25: the bounds of `example_store_10` (x and y from 0 to 9,
velocities from 11 to 20) and of the empty store. -/
theorem bounds_are_extrema_witness :
    example_store_10.getBounds = (0, 9, 0, 9) ∧
    example_store_10.getVelocityRange = (11, 20) ∧
    ((∃ p ∈ example_store_10.points_, p.x = example_store_10.getBounds.1) ∧
      (∀ p ∈ example_store_10.points_, example_store_10.getBounds.1 ≤ p.x)) ∧
    ((construct : TrajectoryData Int).getBounds = (0, 0, 0, 0) ∧
      (construct : TrajectoryData Int).getVelocityRange = (0, 0)) :=
  ⟨by decide, by decide,
   ((bounds_are_extrema example_store_10).2 (by decide)).1,
   (bounds_are_extrema (construct : TrajectoryData Int)).1 (by decide)⟩

end Bounds


section CsvCodec

open CSVParser

theorem getlineAll_eq_nil (delim : Char) :
    ∀ (s cur : List Char), getlineAll delim s cur = [] ↔ s = [] ∧ cur = [] := by
  intro s
  induction s with
  | nil =>
    intro cur
    cases cur <;> simp [getlineAll]
  | cons c s ih =>
    intro cur
    unfold getlineAll
    split
    · simp
    · rw [ih]; simp

/-- A piece without the delimiter, followed by the delimiter, is read as one
piece. -/
theorem getlineAll_append_delim (delim : Char) (rest : List Char) :
    ∀ (s cur : List Char), delim ∉ s →
      getlineAll delim (s ++ delim :: rest) cur = (cur ++ s) :: getlineAll delim rest [] := by
  intro s
  induction s with
  | nil => intro cur _; simp [getlineAll]
  | cons c s ih =>
    intro cur hc
    have hne : c ≠ delim := fun h => hc (h ▸ List.mem_cons_self _ _)
    have hs : delim ∉ s := fun h => hc (List.mem_cons_of_mem _ h)
    rw [List.cons_append, getlineAll, if_neg hne, ih _ hs]
    simp

/-- Characters without the delimiter up to the end of the stream are read as
one piece, unless there are none. -/
theorem getlineAll_no_delim (delim : Char) :
    ∀ (s cur : List Char), delim ∉ s →
      getlineAll delim s cur = if (cur ++ s).isEmpty then [] else [cur ++ s] := by
  intro s
  induction s with
  | nil => intro cur _; simp [getlineAll]
  | cons c s ih =>
    intro cur hc
    have hne : c ≠ delim := fun h => hc (h ▸ List.mem_cons_self _ _)
    have hs : delim ∉ s := fun h => hc (List.mem_cons_of_mem _ h)
    rw [getlineAll, if_neg hne, ih _ hs]
    simp

theorem findIdx?_head {α : Type} (p : α → Bool) (l : List α) (x : α)
    (hh : l.head? = some x) (hp : p x = true) : l.findIdx? p = some 0 := by
  cases l with
  | nil => cases hh
  | cons a t =>
    simp only [List.head?_cons, Option.some.injEq] at hh
    subst hh
    simp [List.findIdx?_cons, hp]

/-- `trim` gives back a text whose first and last characters are not
stripped. -/
theorem trim_clean (s : List Char)
    (hfirst : s.head?.all (fun c => !isTrimChar c) = true)
    (hlast : s.getLast?.all (fun c => !isTrimChar c) = true) : trim s = s := by
  cases hs : s with
  | nil => rfl
  | cons c t =>
    rw [← hs]
    have hne : s ≠ [] := by rw [hs]; simp
    have hh : s.head? = some c := by rw [hs]; rfl
    have hpc : (!isTrimChar c) = true := by
      rw [hh] at hfirst; simpa [Option.all] using hfirst
    obtain ⟨z, hz⟩ := Option.isSome_iff_exists.mp (List.getLast?_isSome.mpr hne)
    have hpz : (!isTrimChar z) = true := by
      rw [hz] at hlast; simpa [Option.all] using hlast
    have h1 : find_first_not_of s = some 0 :=
      findIdx?_head (fun c => !isTrimChar c) s c hh hpc
    have h2 : find_last_not_of s = some (s.length - 1) := by
      unfold find_last_not_of
      rw [findIdx?_head (fun c => !isTrimChar c) s.reverse z
        (by rw [List.head?_reverse]; exact hz) hpz]
      rfl
    have hlen : 0 < s.length := List.length_pos.mpr hne
    unfold trim
    simp only [h1, h2, Option.getD_some, List.drop_zero, Nat.sub_zero]
    have e : s.length - 1 + 1 = s.length := by omega
    rw [e, List.take_length]

/-- `trim` empties a text made of stripped characters only. -/
theorem trim_blank (s : List Char) (hs : ∀ c ∈ s, isTrimChar c = true) : trim s = [] := by
  have h1 : find_first_not_of s = none := by
    unfold find_first_not_of
    rw [List.findIdx?_eq_none_iff]
    intro c hc
    simp [hs c hc]
  unfold trim
  simp only [h1]

theorem parseFile_fields_ne_nil (line : List Char) (hne : line ≠ []) :
    parseFile_fields line ≠ [] := by
  unfold parseFile_fields
  intro h
  rw [List.map_eq_nil_iff, getlineAll_eq_nil] at h
  exact hne h.1

theorem parseFile_eq_map (content : List Char) :
    parseFile (some content) =
      ((getlineAll '\n' content []).filter (fun line => !line.isEmpty)).map
        parseFile_fields := by
  unfold parseFile
  simp only
  induction getlineAll '\n' content [] with
  | nil => rfl
  | cons line lines ih =>
    cases hl : line with
    | nil => simpa [List.filterMap_cons, List.filter_cons] using ih
    | cons c t =>
      have hf : (parseFile_fields (c :: t)).isEmpty = false := by
        cases hp : parseFile_fields (c :: t) with
        | nil => exact absurd hp (parseFile_fields_ne_nil (c :: t) (by simp))
        | cons a b => rfl
      simp only [List.filterMap_cons, List.filter_cons, List.isEmpty_cons, Bool.not_false,
        if_true, hf, List.map_cons, ih]

/-- Counterexample to C23 as stated, on `example_file_blank_lines`: the empty
line contributes no row, but the line holding a blank and a tab and the line
holding a carriage return each contribute a row with one empty field. -/
theorem blank_lines_counterexample :
    getlineAll '\n' example_file_blank_lines []
      = ["x,y".data, [], "1, 2".data, [' ', '\t'], ['\r'], "3,4".data] ∧
    parseFile (some example_file_blank_lines)
      = [["x", "y"], ["1", "2"], [""], [""], ["3", "4"]] := by
  decide

/-- C23, amended. Empty lines are skipped by the CSV codec: for every input
text, the rows `parseFile` returns are, in order, the field lists of the lines
that hold at least one character, so a line without characters contributes no
row and every returned row comes from a line with characters and has at least
one field; a file that cannot be opened gives no rows. A line with characters
that are all whitespace (space, tab, carriage return) is not skipped: it
contributes a row with a single empty field. -/
theorem parseFile_skips_empty_lines (content : List Char) :
    parseFile none = [] ∧
    parseFile (some content) =
      ((getlineAll '\n' content []).filter (fun line => !line.isEmpty)).map
        parseFile_fields ∧
    (∀ row ∈ parseFile (some content), row ≠ []) ∧
    (∀ line : List Char, line ≠ [] → (∀ c ∈ line, c = ' ' ∨ c = '\t' ∨ c = '\r') →
      parseFile_fields line = [""]) := by
  refine ⟨rfl, parseFile_eq_map content, ?_, ?_⟩
  · intro row hrow
    rw [parseFile_eq_map, List.mem_map] at hrow
    obtain ⟨line, hline, hrow⟩ := hrow
    rw [List.mem_filter] at hline
    rw [← hrow]
    apply parseFile_fields_ne_nil
    intro hnil
    rw [hnil] at hline
    simp at hline
  · intro line hne hws
    have hcomma : ',' ∉ line := by
      intro hmem
      rcases hws _ hmem with h | h | h <;> cases h
    have hblank : ∀ c ∈ line, isTrimChar c = true := by
      intro c hc
      rcases hws c hc with h | h | h <;> (subst h; rfl)
    have hne' : ([] ++ line).isEmpty = false := by
      cases line with
      | nil => exact absurd rfl hne
      | cons a t => rfl
    unfold parseFile_fields
    rw [getlineAll_no_delim ',' line [] hcomma, hne']
    simp only [Bool.false_eq_true, if_false, List.nil_append, List.map_cons, List.map_nil,
      trim_blank line hblank]

/-- Witness for C23, amended, on `example_file_blank_lines` and on the line
holding a blank and a tab. -/
theorem parseFile_skips_empty_lines_witness :
    parseFile (some example_file_blank_lines) =
      ((getlineAll '\n' example_file_blank_lines []).filter (fun line => !line.isEmpty)).map
        parseFile_fields ∧
    ([' ', '\t'] ≠ ([] : List Char) ∧ (∀ c ∈ [' ', '\t'], c = ' ' ∨ c = '\t' ∨ c = '\r')) ∧
    parseFile_fields [' ', '\t'] = [""] :=
  ⟨(parseFile_skips_empty_lines example_file_blank_lines).2.1,
   ⟨by decide, by decide⟩,
   (parseFile_skips_empty_lines example_file_blank_lines).2.2.2 [' ', '\t']
     (by decide) (by decide)⟩

theorem writeFile_rest_no_newline :
    ∀ rest : List String, (∀ g ∈ rest, '\n' ∉ g.data) → '\n' ∉ writeFile_rest rest := by
  intro rest
  induction rest with
  | nil => intro _; simp [writeFile_rest]
  | cons g rest ih =>
    intro h
    simp only [writeFile_rest, List.mem_cons, List.mem_append, not_or]
    exact ⟨by decide, h g (List.mem_cons_self _ _),
      ih (fun g' hg' => h g' (List.mem_cons_of_mem _ hg'))⟩

theorem writeFile_row_no_newline (row : List String) (h : ∀ g ∈ row, '\n' ∉ g.data) :
    '\n' ∉ writeFile_row row := by
  cases row with
  | nil => simp [writeFile_row]
  | cons f rest =>
    simp only [writeFile_row, List.mem_append, not_or]
    exact ⟨h f (List.mem_cons_self _ _),
      writeFile_rest_no_newline rest (fun g hg => h g (List.mem_cons_of_mem _ hg))⟩

/-- The fields of a written row are read back as they were written, when none
holds a comma and the last one is not empty. -/
theorem getlineAll_writeFile_row :
    ∀ (rest : List String) (f : String), (∀ g ∈ f :: rest, ',' ∉ g.data) →
      (f :: rest).getLast?.all (fun field => !field.data.isEmpty) = true →
      getlineAll ',' (f.data ++ writeFile_rest rest) [] = (f :: rest).map String.data := by
  intro rest
  induction rest with
  | nil =>
    intro f hc hl
    have hne : ([] ++ f.data).isEmpty = false := by
      simpa [Option.all] using hl
    simp only [writeFile_rest, List.append_nil]
    rw [getlineAll_no_delim ',' f.data [] (hc f (List.mem_cons_self _ _)), hne]
    simp
  | cons g rest ih =>
    intro f hc hl
    have hl' : (g :: rest).getLast?.all (fun field => !field.data.isEmpty) = true := by
      rw [List.getLast?_cons_cons] at hl; exact hl
    simp only [writeFile_rest]
    rw [getlineAll_append_delim ',' _ f.data [] (hc f (List.mem_cons_self _ _)),
      ih g (fun g' hg' => hc g' (List.mem_cons_of_mem _ hg')) hl']
    simp

theorem parseFile_fields_writeFile_row (row : List String) (hw : rowWritable row = true) :
    writeFile_row row ≠ [] ∧ parseFile_fields (writeFile_row row) = row := by
  simp only [rowWritable, Bool.and_eq_true, Bool.not_eq_true', List.isEmpty_eq_false,
    List.all_eq_true] at hw
  obtain ⟨⟨hne, hall⟩, hlast⟩ := hw
  cases row with
  | nil => exact absurd rfl hne
  | cons f rest =>
    have hfield : ∀ g ∈ f :: rest, ',' ∉ g.data ∧ '\n' ∉ g.data ∧ trim g.data = g.data := by
      intro g hg
      have h := hall g hg
      simp only [fieldWritable, Bool.and_eq_true, decide_eq_true_eq] at h
      exact ⟨h.1.1.1, h.1.1.2, trim_clean g.data h.1.2 h.2⟩
    have hread := getlineAll_writeFile_row rest f (fun g hg => (hfield g hg).1) hlast
    have hfields : parseFile_fields (writeFile_row (f :: rest)) = f :: rest := by
      unfold parseFile_fields
      simp only [writeFile_row]
      rw [hread, List.map_map]
      have hid : ∀ g ∈ f :: rest,
          ((fun field => String.mk (trim field)) ∘ String.data) g = id g := by
        intro g hg
        simp only [Function.comp, (hfield g hg).2.2, id]
      rw [List.map_congr_left hid, List.map_id]
    refine ⟨?_, hfields⟩
    intro hnil
    rw [hnil] at hfields
    simp [parseFile_fields, getlineAll] at hfields

/-- C30. CSV write/parse round trip: for every table in which each row has at
least one field, no field contains a comma or a line feed, no field starts or
ends with a whitespace character (space, tab, carriage return, line feed), and
the last field of each row is not empty, `writeFile` succeeds when the file can
be opened and `parseFile` on the file written returns exactly the same table:
same rows, same fields, same order. -/
theorem write_parse_round_trip (data : List (List String))
    (hw : ∀ row ∈ data, rowWritable row = true) :
    (writeFile data true).1 = true ∧ parseFile (writeFile data true).2 = data := by
  refine ⟨rfl, ?_⟩
  have hlines : ∀ rows : List (List String), (∀ row ∈ rows, rowWritable row = true) →
      getlineAll '\n' (writeFile_content rows) [] = rows.map writeFile_row := by
    intro rows
    induction rows with
    | nil => intro _; rfl
    | cons row rows ih =>
      intro hrows
      have hrow := hrows row (List.mem_cons_self _ _)
      simp only [rowWritable, Bool.and_eq_true, List.all_eq_true] at hrow
      have hnl : '\n' ∉ writeFile_row row := by
        apply writeFile_row_no_newline
        intro g hg
        have h := hrow.1.2 g hg
        simp only [fieldWritable, Bool.and_eq_true, decide_eq_true_eq] at h
        exact h.1.1.2
      simp only [writeFile_content]
      rw [getlineAll_append_delim '\n' _ _ [] hnl,
        ih (fun r hr => hrows r (List.mem_cons_of_mem _ hr))]
      simp
  show parseFile (some (writeFile_content data)) = data
  rw [parseFile_eq_map, hlines data hw]
  have hfilter : ∀ rows : List (List String), (∀ row ∈ rows, rowWritable row = true) →
      ((rows.map writeFile_row).filter (fun line => !line.isEmpty)).map parseFile_fields
        = rows := by
    intro rows
    induction rows with
    | nil => intro _; rfl
    | cons row rows ih =>
      intro hrows
      obtain ⟨hne, hfields⟩ :=
        parseFile_fields_writeFile_row row (hrows row (List.mem_cons_self _ _))
      have hemp : (writeFile_row row).isEmpty = false := by
        cases hx : writeFile_row row with
        | nil => exact absurd hx hne
        | cons a t => rfl
      simp only [List.map_cons, List.filter_cons, hemp, Bool.not_false, if_true, hfields,
        ih (fun r hr => hrows r (List.mem_cons_of_mem _ hr))]
  exact hfilter data hw

/-- Witness for C30 on `example_table_write`. -/
theorem write_parse_round_trip_witness :
    (∀ row ∈ example_table_write, rowWritable row = true) ∧
    (writeFile example_table_write true).1 = true ∧
    parseFile (writeFile example_table_write true).2 = example_table_write :=
  ⟨by decide, write_parse_round_trip example_table_write (by decide)⟩

end CsvCodec

end trajectory_editor
